import Mathlib

/-! Ray-Tracer (CPU): a shallow embedding of `RayTracer_CPU/Main.cpp`.

The C++ program is embedded function by function.  Conventions of the embedding:

* `float` values are exact rationals (`ℚ`); the literals `0.0001f`, `0.001f`, `1000000.0f`
  are the rationals they denote in decimal.  Rounding, infinities and NaN are outside the
  embedding; a quotient with denominator `0` is `0`, as everywhere in `ℚ`.
* `glm::sqrt` (and the square root inside `glm::normalize`) is a function parameter `sqrt`
  of every definition that needs it; `Qsqrt` is a computable instance that is exact on
  squares of rationals.
* a local `Hit` that the source declares without initialising it holds the contents of the
  parameter `uninit`; the source then assigns some of its fields.
* `uint8_t* data` is a map from the signed offset behind the base pointer to the byte
  stored there; `int` values are `Int`, a conversion to `uint8_t` reduces modulo `256`.
* `glm::sphericalRand` is an input stream `rnd : Nat → Vec3` of the vectors it returns,
  in the order in which they are drawn; `Update` has one such stream per pixel and the
  loop of `main` one family of streams per call of `Update`.
* the loop of `main` is a step function on the locals `s`, `bFirst` and the framebuffer;
  two counters in the state record the calls of `Update` and `MedianFilter`.
-/

namespace RayTracer

/-! ## Vector math (`glm::vec3`) -/

/-- Three floats, as `glm::vec3`. -/
structure Vec3 where
  x : ℚ
  y : ℚ
  z : ℚ
deriving DecidableEq, Repr

namespace Vec3

/-- The vector `glm::vec3(0, 0, 0)`. -/
def zero : Vec3 := ⟨0, 0, 0⟩

/-- Component-wise sum, `a + b`. -/
def add (a b : Vec3) : Vec3 := ⟨a.x + b.x, a.y + b.y, a.z + b.z⟩

/-- Component-wise difference, `a - b`. -/
def sub (a b : Vec3) : Vec3 := ⟨a.x - b.x, a.y - b.y, a.z - b.z⟩

/-- Negation, `-a`. -/
def neg (a : Vec3) : Vec3 := ⟨-a.x, -a.y, -a.z⟩

/-- Scaling by a float, `k * a` and `a * k`. -/
def smul (k : ℚ) (a : Vec3) : Vec3 := ⟨k * a.x, k * a.y, k * a.z⟩

/-- Component-wise product of two vectors, `a * b` in glm. -/
def mul (a b : Vec3) : Vec3 := ⟨a.x * b.x, a.y * b.y, a.z * b.z⟩

/-- Scalar product, `glm::dot`. -/
def dot (a b : Vec3) : ℚ := a.x * b.x + a.y * b.y + a.z * b.z

/-- Vector product, `glm::cross`. -/
def cross (a b : Vec3) : Vec3 :=
  ⟨a.y * b.z - b.y * a.z, a.z * b.x - b.z * a.x, a.x * b.y - b.x * a.y⟩

/-- Normalisation as glm does it: `v * inversesqrt(dot(v, v))`, with
`inversesqrt(s) = 1 / sqrt(s)`. -/
def normalize (sqrt : ℚ → ℚ) (v : Vec3) : Vec3 := smul (1 / sqrt (dot v v)) v

end Vec3

/-- A square root on the rationals that is exact on squares: the integer square roots of
numerator and denominator. -/
def Qsqrt (q : ℚ) : ℚ := (Nat.sqrt q.num.toNat : ℚ) / (Nat.sqrt q.den : ℚ)

/-! ## Constants -/

/-- The macro `WINDOW_WIDTH`. -/
def WINDOW_WIDTH : Int := 768

/-- The macro `WINDOW_HEIGHT`. -/
def WINDOW_HEIGHT : Int := 768

/-- The constant `nNumSamples`. -/
def nNumSamples : Int := 1000

/-- The constant `nMaxDepth`. -/
def nMaxDepth : Int := 5

/-- The macro `MEDIAN`. -/
def MEDIAN : Int := 5

/-- The macro `EPSILON`, `0.0001f`. -/
def EPSILON : ℚ := 1 / 10000

/-! ## Hits, rays and primitives -/

/-- The struct `Hit`. -/
structure Hit where
  t : ℚ
  m_bHit : Bool
  m_v3Pos : Vec3
  m_v3Normal : Vec3
  m_v3Color : Vec3
  m_bEmissive : Bool
deriving DecidableEq, Repr

/-- The struct `Ray`. -/
structure Ray where
  m_v3Pos : Vec3
  m_v3Dir : Vec3
deriving DecidableEq, Repr

/-- The class `Triangle`, with the two members it inherits from `Object`. -/
structure Triangle where
  m_v3Color : Vec3
  m_bEmissive : Bool
  v1 : Vec3
  v2 : Vec3
  v3 : Vec3
deriving DecidableEq, Repr

/-- The class `Sphere`, with the two members it inherits from `Object`. -/
structure Sphere where
  m_v3Color : Vec3
  m_bEmissive : Bool
  m_v3Center : Vec3
  m_fRadius : ℚ
deriving DecidableEq, Repr

/-- The method `Triangle::hit`. -/
def Triangle.hit (sqrt : ℚ → ℚ) (uninit : Hit) (tri : Triangle) (ray : Ray) : Hit :=
  let ret : Hit := { uninit with m_bHit := false }
  let v3Normal := Vec3.normalize sqrt (Vec3.cross (tri.v2.sub tri.v1) (tri.v3.sub tri.v1))
  if |Vec3.dot v3Normal ray.m_v3Dir| < 0 then ret
  else
    let t := (Vec3.dot v3Normal tri.v1 - Vec3.dot ray.m_v3Pos v3Normal)
      / Vec3.dot ray.m_v3Dir v3Normal
    if t < EPSILON then ret
    else
      let v3Pos := ray.m_v3Pos.add (Vec3.smul t ray.m_v3Dir)
      let c1 := Vec3.cross (tri.v2.sub tri.v1) (v3Pos.sub tri.v1)
      let c2 := Vec3.cross (tri.v3.sub tri.v2) (v3Pos.sub tri.v2)
      let c3 := Vec3.cross (tri.v1.sub tri.v3) (v3Pos.sub tri.v3)
      if Vec3.dot c1 v3Normal < 0 ∨ Vec3.dot c2 v3Normal < 0 ∨ Vec3.dot c3 v3Normal < 0 then ret
      else
        { t := t, m_bHit := true, m_v3Pos := v3Pos, m_v3Normal := v3Normal,
          m_v3Color := tri.m_v3Color, m_bEmissive := tri.m_bEmissive }

/-- The method `Sphere::hit`. -/
def Sphere.hit (sqrt : ℚ → ℚ) (uninit : Hit) (s : Sphere) (ray : Ray) : Hit :=
  let ret : Hit := { uninit with m_bHit := false }
  let oc := ray.m_v3Pos.sub s.m_v3Center
  let a := Vec3.dot ray.m_v3Dir ray.m_v3Dir
  let b := Vec3.dot oc ray.m_v3Dir
  let c := Vec3.dot oc oc - s.m_fRadius * s.m_fRadius
  let discriminant := b * b - a * c
  if discriminant > 0 then
    let t1 := (-b - sqrt discriminant) / a
    let t2 := (-b + sqrt discriminant) / a
    if t1 > EPSILON ∨ t2 > EPSILON then
      let t := if t1 < t2 then t1 else t2
      let v3Pos := ray.m_v3Pos.add (Vec3.smul t ray.m_v3Dir)
      { t := t, m_bHit := true, m_v3Pos := v3Pos,
        m_v3Normal := Vec3.normalize sqrt (v3Pos.sub s.m_v3Center),
        m_v3Color := s.m_v3Color, m_bEmissive := s.m_bEmissive }
    else ret
  else ret

/-- The abstract class `Object`: a scene entry is a sphere or a triangle. -/
inductive Object where
  | sphere (s : Sphere)
  | triangle (tri : Triangle)
deriving DecidableEq, Repr

/-- The member `Object::m_v3Color`. -/
def Object.m_v3Color : Object → Vec3
  | .sphere s => s.m_v3Color
  | .triangle tri => tri.m_v3Color

/-- The member `Object::m_bEmissive`. -/
def Object.m_bEmissive : Object → Bool
  | .sphere s => s.m_bEmissive
  | .triangle tri => tri.m_bEmissive

/-- The virtual method `Object::hit`. -/
def Object.hit (sqrt : ℚ → ℚ) (uninit : Hit) : Object → Ray → Hit
  | .sphere s, ray => s.hit sqrt uninit ray
  | .triangle tri, ray => tri.hit sqrt uninit ray

/-- A `Hit` whose fields are all zero, one possible content of an uninitialised local. -/
def Hit.zeroed : Hit :=
  { t := 0, m_bHit := false, m_v3Pos := Vec3.zero, m_v3Normal := Vec3.zero,
    m_v3Color := Vec3.zero, m_bEmissive := false }

/-- The unit sphere at the coordinate origin, white and not emissive. -/
def unitSphere : Sphere :=
  { m_v3Color := ⟨1, 1, 1⟩, m_bEmissive := false, m_v3Center := ⟨0, 0, 0⟩, m_fRadius := 1 }

/-- The ray that starts at the coordinate origin and runs along `+z`. -/
def centreRay : Ray := { m_v3Pos := ⟨0, 0, 0⟩, m_v3Dir := ⟨0, 0, 1⟩ }

/-! ## Random directions -/

/-- The function `RandomDirection`; `v3Rand` is the vector that the call of
`RandomVector()` (that is `glm::sphericalRand(1.0f)`) returns. -/
def RandomDirection (sqrt : ℚ → ℚ) (v3Rand : Vec3) (v3Normal : Vec3) : Vec3 :=
  Vec3.normalize sqrt (v3Rand.add v3Normal)

/-! ## The nearest-hit scan and the path integrator -/

/-- One iteration of the loop over `objects` in `PathTrace` and in `Update`; the state is
the pair of the locals `finalHi` and `minT`. -/
def scanStep (sqrt : ℚ → ℚ) (uninit : Hit) (ray : Ray) (st : Hit × ℚ) (o : Object) : Hit × ℚ :=
  let hi := o.hit sqrt uninit ray
  if hi.m_bHit = true ∧ hi.t < st.2 then (hi, hi.t) else st

/-- The nearest-hit scan: the loop `for (i = 0; i < objects.size(); i++)`, the same text in
`PathTrace` and in `Update`, run from `finalHi.m_bHit = false` and `minT = 1000000.0f`;
the result is the final `finalHi`. -/
def nearestHit (sqrt : ℚ → ℚ) (uninit : Hit) (objects : List Object) (ray : Ray) : Hit :=
  (objects.foldl (scanStep sqrt uninit ray) ({ uninit with m_bHit := false }, 1000000)).1

/-- The function `PathTrace`; `rnd 0` is the first vector `RandomVector()` returns during
the call, `rnd 1` the second, and so on. -/
def PathTrace (sqrt : ℚ → ℚ) (uninit : Hit) (objects : List Object) (rnd : Nat → Vec3)
    (ray : Ray) (nDepth : Int) : Vec3 :=
  if h : nDepth > nMaxDepth then Vec3.zero
  else
    let finalHi := nearestHit sqrt uninit objects ray
    if finalHi.m_bHit = false then Vec3.zero
    else if finalHi.m_bEmissive = true then finalHi.m_v3Color
    else
      let fDiffuseIntensity := Vec3.dot ray.m_v3Dir.neg finalHi.m_v3Normal
      if fDiffuseIntensity ≤ 0 then Vec3.zero
      else
        let randomRay : Ray :=
          { m_v3Pos := finalHi.m_v3Pos.add (Vec3.smul (1 / 1000) finalHi.m_v3Normal),
            m_v3Dir := RandomDirection sqrt (rnd 0) finalHi.m_v3Normal }
        let v3OriginalColor := Vec3.smul fDiffuseIntensity finalHi.m_v3Color
        let v3NewColor :=
          PathTrace sqrt uninit objects (fun n => rnd (n + 1)) randomRay (nDepth + 1)
        Vec3.mul v3OriginalColor v3NewColor
termination_by (nMaxDepth + 1 - nDepth).toNat
decreasing_by
  simp only [nMaxDepth] at h ⊢
  omega

/-- A sphere of radius `2^20` centred at `(0, 0, -2^21)`, white and not emissive. -/
def farSphere : Sphere :=
  { m_v3Color := ⟨1, 1, 1⟩, m_bEmissive := false, m_v3Center := ⟨0, 0, -2097152⟩,
    m_fRadius := 1048576 }

/-- A sphere of radius `2^20` centred at `(0, 0, -2^22)`, white and not emissive. -/
def fartherSphere : Sphere :=
  { m_v3Color := ⟨1, 1, 1⟩, m_bEmissive := false, m_v3Center := ⟨0, 0, -4194304⟩,
    m_fRadius := 1048576 }

/-- A white sphere of radius `1` centred at `(0, 0, -3)`, behind `unitSphere` as seen
along `eyeRay`. -/
def behindSphere : Sphere :=
  { m_v3Color := ⟨1, 1, 1⟩, m_bEmissive := false, m_v3Center := ⟨0, 0, -3⟩, m_fRadius := 1 }

/-- The ray that starts at the coordinate origin and runs along `-z`. -/
def forwardRay : Ray := { m_v3Pos := ⟨0, 0, 0⟩, m_v3Dir := ⟨0, 0, -1⟩ }

/-- The ray that starts at `(0, 0, 5)` and runs along `-z`. -/
def eyeRay : Ray := { m_v3Pos := ⟨0, 0, 5⟩, m_v3Dir := ⟨0, 0, -1⟩ }

/-- An emissive white triangle in the plane `y = 1`; its face normal is `(0, -1, 0)`. -/
def lampTriangle : Triangle :=
  { m_v3Color := ⟨1, 1, 1⟩, m_bEmissive := true,
    v1 := ⟨-1, 1, 1⟩, v2 := ⟨-1, 1, -1⟩, v3 := ⟨1, 1, 1⟩ }

/-- The ray that starts at `(-1/2, 2, 1/2)`, above `lampTriangle`, and runs along `-y`. -/
def downRay : Ray := { m_v3Pos := ⟨-1 / 2, 2, 1 / 2⟩, m_v3Dir := ⟨0, -1, 0⟩ }

/-! ## The framebuffer (`BitmapImage`) -/

/-- The member `uint8_t* data` and the local `dst`: the byte stored at each signed offset
behind the base pointer.  The allocation covers the offsets `0 ≤ k < nSize`. -/
abbrev Buffer := Int → Nat

/-- The local `nSize` of `Create` and of `MedianFilter`. -/
def nSize : Int := WINDOW_WIDTH * WINDOW_HEIGHT * 3

/-- Conversion of an `int` to `uint8_t`: reduction modulo `256`. -/
def toUInt8 (n : Int) : Nat := (n % 256).toNat

/-- Conversion of a `float` to an integer type: the fractional part is discarded
(truncation toward zero). -/
def floatToInt (q : ℚ) : Int := Int.tdiv q.num q.den

/-- The function `glm::clamp(x, minVal, maxVal)`, that is `min(max(x, minVal), maxVal)`. -/
def clamp (x minVal maxVal : Int) : Int := min (max x minVal) maxVal

/-- A counting loop `for (int v = lo; v < hi; v++)`: the values `v` takes, in order. -/
def forRange (lo hi : Int) : List Int :=
  (List.range (hi - lo).toNat).map (fun (k : Nat) => lo + (k : Int))

/-- The method `BitmapImage::Create`: the buffer after `memset(data, 0, nSize)`. -/
def Create : Buffer := fun _ => 0

/-- The method `BitmapImage::GetColor`; the three out-parameters are the result. -/
def GetColor (data : Buffer) (x y : Int) : Int × Int × Int :=
  ((data (y * WINDOW_WIDTH * 3 + x * 3 + 0) : Int),
   (data (y * WINDOW_WIDTH * 3 + x * 3 + 1) : Int),
   (data (y * WINDOW_WIDTH * 3 + x * 3 + 2) : Int))

/-- The method `BitmapImage::GetMedian`: `std::sort`, then the unchecked access
`(*pList)[id]` (here `0` when `id` is not an index of the list). -/
def GetMedian (pList : List Int) : Int :=
  let sorted := pList.insertionSort (· ≤ ·)
  let id := Int.tdiv (MEDIAN * MEDIAN) 2
  sorted.getD id.toNat 0

/-- The method `BitmapImage::AddColor`. -/
def AddColor (data : Buffer) (x y : Int) (v3Color : Vec3) : Buffer :=
  let c := GetColor data (x + 0) (y + 0)
  let nRed := c.1 + (toUInt8 (floatToInt (v3Color.x * 255)) : Int)
  let nGreen := c.2.1 + (toUInt8 (floatToInt (v3Color.y * 255)) : Int)
  let nBlue := c.2.2 + (toUInt8 (floatToInt (v3Color.z * 255)) : Int)
  let data := Function.update data (y * WINDOW_WIDTH * 3 + x * 3 + 0)
    (toUInt8 (clamp nRed 0 255))
  let data := Function.update data (y * WINDOW_WIDTH * 3 + x * 3 + 1)
    (toUInt8 (clamp nGreen 0 255))
  Function.update data (y * WINDOW_WIDTH * 3 + x * 3 + 2) (toUInt8 (clamp nBlue 0 255))

/-- The two inner loops of `MedianFilter` (over `i` and `j`) for the pixel `(x, y)`: the
final contents of `listRed`, `listGreen`, `listBlue`. -/
def gatherLists (data : Buffer) (x y : Int) : List Int × List Int × List Int :=
  (forRange (Int.tdiv (-MEDIAN) 2) (Int.tdiv MEDIAN 2 + 1)).foldl
    (fun lists i =>
      (forRange (Int.tdiv (-MEDIAN) 2) (Int.tdiv MEDIAN 2 + 1)).foldl
        (fun lists j =>
          let x2 := x + i
          let y2 := y + j
          let x2 := if x2 < 0 then 0 else x2
          let x2 := if x2 > WINDOW_WIDTH - 1 then WINDOW_WIDTH - 1 else x2
          let y2 := if y2 < 0 then 0 else y2
          let y2 := if y2 > WINDOW_HEIGHT - 1 then WINDOW_HEIGHT - 1 else y2
          let c := GetColor data x2 y2
          (lists.1 ++ [c.1], lists.2.1 ++ [c.2.1], lists.2.2 ++ [c.2.2]))
        lists)
    ([], [], [])

/-- The body of the loop over `y` in `MedianFilter`: the three medians of the pixel
`(x, y)` are written to `dst`. -/
def medianPixel (data dst : Buffer) (x y : Int) : Buffer :=
  let lists := gatherLists data x y
  let nNewRed := GetMedian lists.1
  let nNewGreen := GetMedian lists.2.1
  let nNewBlue := GetMedian lists.2.2
  let dst := Function.update dst (y * WINDOW_WIDTH * 3 + x * 3 + 0) (toUInt8 nNewRed)
  let dst := Function.update dst (y * WINDOW_WIDTH * 3 + x * 3 + 1) (toUInt8 nNewGreen)
  Function.update dst (y * WINDOW_WIDTH * 3 + x * 3 + 2) (toUInt8 nNewBlue)

/-- The method `BitmapImage::MedianFilter`: the new value of `data`.  The iterations of
the loop over `x` write disjoint cells of `dst` and read only `data`, so the
`omp parallel for` computes what the sequential loop computes. -/
def MedianFilter (data : Buffer) : Buffer :=
  (forRange 0 WINDOW_WIDTH).foldl
    (fun dst x => (forRange 0 WINDOW_HEIGHT).foldl (fun dst y => medianPixel data dst x y) dst)
    (fun _ => 0)

/-- The byte that `MedianFilter` stores at the offset `k` of `dst`, read off the offset:
row `k / (768·3)`, column `(k mod (768·3)) / 3`, channel `k mod 3`. -/
def medianByte (data : Buffer) (k : Int) : Nat :=
  let lists := gatherLists data (k % (WINDOW_WIDTH * 3) / 3) (k / (WINDOW_WIDTH * 3))
  toUInt8 (GetMedian
    (if k % 3 = 0 then lists.1 else if k % 3 = 1 then lists.2.1 else lists.2.2))

/-- The 25 pixels of the neighbourhood of `(x, y)` as the specification describes
them: `(clamp(x + i, 0, 767), clamp(y + j, 0, 767))` for `i, j ∈ {-2, …, 2}`. -/
def specWindow (x y : Int) : List (Int × Int) :=
  [-2, -1, 0, 1, 2].flatMap (fun i => [-2, -1, 0, 1, 2].map (fun j =>
    (max 0 (min 767 (x + i)), max 0 (min 767 (y + j)))))

/-- The 25 values of channel `ch` that the specification has the filter read from the
source buffer for the pixel `(x, y)`. -/
def specValues (data : Buffer) (ch : Int) (x y : Int) : List Int :=
  (specWindow x y).map (fun p => (data (p.2 * 768 * 3 + p.1 * 3 + ch) : Int))

/-- The channel `ch` (`0` red, `1` green, otherwise blue) of an RGB triple. -/
def channel (u : Nat × Nat × Nat) (ch : Int) : Nat :=
  if ch = 0 then u.1 else if ch = 1 then u.2.1 else u.2.2

/-- A framebuffer whose pixels are all `(7, 7, 7)` except the corner pixel `(0, 0)`, which
is `(255, 255, 255)`. -/
def cornerOutlier : Buffer := fun k => if 0 ≤ k ∧ k < 3 then 255 else 7

/-- A framebuffer whose bytes are all `7`. -/
def uniformSeven : Buffer := fun _ => 7

/-! ## Triangle intersection: the quantities of `Triangle::hit` by name -/

/-- The cross product of the two edges at `v1`, `glm::cross(v2 - v1, v3 - v1)`. -/
def Triangle.edgeCross (tri : Triangle) : Vec3 :=
  Vec3.cross (tri.v2.sub tri.v1) (tri.v3.sub tri.v1)

/-- The local `v3Normal` of `Triangle::hit`. -/
def Triangle.v3Normal (sqrt : ℚ → ℚ) (tri : Triangle) : Vec3 :=
  Vec3.normalize sqrt tri.edgeCross

/-- The local `t` of `Triangle::hit`: the parameter of the ray at the plane of the
triangle. -/
def Triangle.planeT (sqrt : ℚ → ℚ) (tri : Triangle) (ray : Ray) : ℚ :=
  (Vec3.dot (tri.v3Normal sqrt) tri.v1 - Vec3.dot ray.m_v3Pos (tri.v3Normal sqrt))
    / Vec3.dot ray.m_v3Dir (tri.v3Normal sqrt)

/-- The local `v3Pos` of `Triangle::hit`: the point of the ray at the parameter `t`. -/
def Triangle.planePoint (sqrt : ℚ → ℚ) (tri : Triangle) (ray : Ray) : Vec3 :=
  ray.m_v3Pos.add (Vec3.smul (tri.planeT sqrt ray) ray.m_v3Dir)

/-- The closed triangle, as the specification describes it: the convex combinations of
the three vertices. -/
def Triangle.Contains (tri : Triangle) (p : Vec3) : Prop :=
  ∃ a b c : ℚ, 0 ≤ a ∧ 0 ≤ b ∧ 0 ≤ c ∧ a + b + c = 1
    ∧ p = (Vec3.smul a tri.v1).add ((Vec3.smul b tri.v2).add (Vec3.smul c tri.v3))

/-- The method `Triangle::hit` with the division checked: `none` when the quotient that
defines `t` is evaluated with the denominator `dot(ray.m_v3Dir, v3Normal) = 0`, otherwise
the `Hit` the method returns. -/
def Triangle.hitChecked (sqrt : ℚ → ℚ) (uninit : Hit) (tri : Triangle) (ray : Ray) :
    Option Hit :=
  let ret : Hit := { uninit with m_bHit := false }
  let v3Normal := Vec3.normalize sqrt (Vec3.cross (tri.v2.sub tri.v1) (tri.v3.sub tri.v1))
  if |Vec3.dot v3Normal ray.m_v3Dir| < 0 then some ret
  else if Vec3.dot ray.m_v3Dir v3Normal = 0 then none
  else some (tri.hit sqrt uninit ray)

/-- The first floor triangle of `Init` (`pFloor1`). -/
def pFloor1 : Triangle :=
  { m_v3Color := ⟨1, 1, 1⟩, m_bEmissive := false,
    v1 := ⟨1, -1, 1⟩, v2 := ⟨-1, -1, -1⟩, v3 := ⟨-1, -1, 1⟩ }

/-- A ray from above the floor, aimed at the centroid `(-1/3, -1, 1/3)` of `pFloor1`. -/
def centroidRayAbove : Ray := { m_v3Pos := ⟨-1 / 3, 0, 1 / 3⟩, m_v3Dir := ⟨0, -1, 0⟩ }

/-- A ray from below the floor, aimed at the centroid `(-1/3, -1, 1/3)` of `pFloor1`. -/
def centroidRayBelow : Ray := { m_v3Pos := ⟨-1 / 3, -2, 1 / 3⟩, m_v3Dir := ⟨0, 1, 0⟩ }

/-- A ray from above the floor, aimed at the point `(1, -1, -1)` outside `pFloor1`. -/
def outsideRay : Ray := { m_v3Pos := ⟨1, 0, -1⟩, m_v3Dir := ⟨0, -1, 0⟩ }

/-- A ray from the coordinate origin along `+x`, parallel to the plane of `pFloor1`. -/
def parallelRay : Ray := { m_v3Pos := ⟨0, 0, 0⟩, m_v3Dir := ⟨1, 0, 0⟩ }

/-! ## Sphere intersection: the quantities of `Sphere::hit` by name -/

/-- The local `discriminant` of `Sphere::hit`, `b * b - a * c`. -/
def Sphere.discriminant (s : Sphere) (ray : Ray) : ℚ :=
  Vec3.dot (ray.m_v3Pos.sub s.m_v3Center) ray.m_v3Dir
      * Vec3.dot (ray.m_v3Pos.sub s.m_v3Center) ray.m_v3Dir
    - Vec3.dot ray.m_v3Dir ray.m_v3Dir
      * (Vec3.dot (ray.m_v3Pos.sub s.m_v3Center) (ray.m_v3Pos.sub s.m_v3Center)
        - s.m_fRadius * s.m_fRadius)

/-- The local `t1` of `Sphere::hit`. -/
def Sphere.t1 (sqrt : ℚ → ℚ) (s : Sphere) (ray : Ray) : ℚ :=
  (-Vec3.dot (ray.m_v3Pos.sub s.m_v3Center) ray.m_v3Dir - sqrt (s.discriminant ray))
    / Vec3.dot ray.m_v3Dir ray.m_v3Dir

/-- The local `t2` of `Sphere::hit`. -/
def Sphere.t2 (sqrt : ℚ → ℚ) (s : Sphere) (ray : Ray) : ℚ :=
  (-Vec3.dot (ray.m_v3Pos.sub s.m_v3Center) ray.m_v3Dir + sqrt (s.discriminant ray))
    / Vec3.dot ray.m_v3Dir ray.m_v3Dir

/-- The numbers whose square root the call `hit(ray)` takes on the way to a reported
normal: for a sphere the discriminant and the squared radius (the squared distance of a
surface point from the centre), for a triangle the squared length of the edge cross
product. -/
def Object.radicands : Object → Ray → List ℚ
  | .sphere s, ray => [s.discriminant ray, s.m_fRadius * s.m_fRadius]
  | .triangle tri, _ => [Vec3.dot tri.edgeCross tri.edgeCross]

/-! ## The recursion of `PathTrace`, counted -/

/-- The number of recursive calls of `PathTrace` (calls nested inside the call, at any
depth) that the call `PathTrace(ray, nDepth)` leads to: the function follows the control
flow of `PathTrace` and counts `1` for the call in the line
`v3NewColor = PathTrace(randomRay, nDepth + 1)`. -/
def PathTraceCalls (sqrt : ℚ → ℚ) (uninit : Hit) (objects : List Object) (rnd : Nat → Vec3)
    (ray : Ray) (nDepth : Int) : Nat :=
  if h : nDepth > nMaxDepth then 0
  else
    let finalHi := nearestHit sqrt uninit objects ray
    if finalHi.m_bHit = false then 0
    else if finalHi.m_bEmissive = true then 0
    else
      let fDiffuseIntensity := Vec3.dot ray.m_v3Dir.neg finalHi.m_v3Normal
      if fDiffuseIntensity ≤ 0 then 0
      else
        let randomRay : Ray :=
          { m_v3Pos := finalHi.m_v3Pos.add (Vec3.smul (1 / 1000) finalHi.m_v3Normal),
            m_v3Dir := RandomDirection sqrt (rnd 0) finalHi.m_v3Normal }
        1 + PathTraceCalls sqrt uninit objects (fun n => rnd (n + 1)) randomRay (nDepth + 1)
termination_by (nMaxDepth + 1 - nDepth).toNat
decreasing_by
  simp only [nMaxDepth] at h ⊢
  omega

/-! ## The frame accumulator (`Update`) and the driver loop (`main`) -/

/-- The global `v3Eye`. -/
def v3Eye : Vec3 := ⟨0, 0, 5⟩

/-- The constant `fBrightness`, `(2.0f * 3.141592654f) * (1.0f / float(nNumSamples))`. -/
def fBrightness : ℚ := (2 * (3141592654 / 1000000000)) * (1 / (nNumSamples : ℚ))

/-- The ray `Update` builds for the pixel `(x, y)`: origin `(i, j, 1.2f)`, direction the
normalised vector from the eye to the origin. -/
def primaryRay (sqrt : ℚ → ℚ) (x y : Int) : Ray :=
  let i := (2 * (x : ℚ) / (WINDOW_WIDTH : ℚ)) - 1
  let j := (2 * (y : ℚ) / (WINDOW_HEIGHT : ℚ)) - 1
  let v3Pos : Vec3 := ⟨i, j, 6 / 5⟩
  { m_v3Pos := v3Pos, m_v3Dir := Vec3.normalize sqrt (v3Pos.sub v3Eye) }

/-- The body of the loop over `x` in `Update`, up to the call of `AddColor`: the final
value of the local `v3Color` for the pixel `(x, y)`; `rnd` is the stream of the vectors
`RandomVector()` returns while the pixel is processed. -/
def pixelColor (sqrt : ℚ → ℚ) (uninit : Hit) (objects : List Object) (rnd : Nat → Vec3)
    (x y : Int) : Vec3 :=
  let ray := primaryRay sqrt x y
  let finalHi := nearestHit sqrt uninit objects ray
  if finalHi.m_bHit = true then
    if finalHi.m_bEmissive = true then finalHi.m_v3Color
    else
      let randomRay : Ray :=
        { m_v3Pos := finalHi.m_v3Pos,
          m_v3Dir := RandomDirection sqrt (rnd 0) finalHi.m_v3Normal }
      let v3OriginalColor := finalHi.m_v3Color
      let v3NewColor := PathTrace sqrt uninit objects (fun n => rnd (n + 1)) randomRay 0
      Vec3.smul fBrightness (Vec3.mul v3OriginalColor v3NewColor)
  else Vec3.zero

/-- The function `Update`: one pass over all pixels; `rnd x y` is the stream of random
vectors drawn while the pixel `(x, y)` is processed.  The iterations touch disjoint
cells of the framebuffer, so the `omp parallel for` computes what the sequential loops
compute. -/
def Update (sqrt : ℚ → ℚ) (uninit : Hit) (objects : List Object)
    (rnd : Int → Int → Nat → Vec3) (data : Buffer) : Buffer :=
  (forRange 0 WINDOW_HEIGHT).foldl
    (fun data y => (forRange 0 WINDOW_WIDTH).foldl
      (fun data x => AddColor data x y (pixelColor sqrt uninit objects (rnd x y) x y)) data)
    data

/-- The framebuffer after `n` calls of `Update`; `rnd k` holds the random streams of
the call number `k`. -/
def UpdatePasses (sqrt : ℚ → ℚ) (uninit : Hit) (objects : List Object)
    (rnd : Nat → Int → Int → Nat → Vec3) : Nat → Buffer → Buffer
  | 0, data => data
  | n + 1, data =>
    Update sqrt uninit objects (rnd n) (UpdatePasses sqrt uninit objects rnd n data)

/-- The state of the loop of `main`: the locals `s` and `bFirst`, the framebuffer
`bitmap.data`, and two counters that record how often `Update` and `MedianFilter` have
been called so far. -/
structure MainState where
  s : ℚ
  bFirst : Bool
  data : Buffer
  nUpdateCalls : Nat
  nMedianCalls : Nat

/-- The state when the loop of `main` is entered: `s = 0.0f`, `bFirst = true`, the
framebuffer as `Init` leaves it (`bitmap.Create()`). -/
def mainInit : MainState :=
  { s := 0, bFirst := true, data := Create, nUpdateCalls := 0, nMedianCalls := 0 }

/-- One iteration of the `while` loop of `main` (the window title, `Draw` and the event
polling do not touch the state); `rnd k` holds the random streams of the call number `k`
of `Update`. -/
def mainStep (sqrt : ℚ → ℚ) (uninit : Hit) (objects : List Object)
    (rnd : Nat → Int → Int → Nat → Vec3) (st : MainState) : MainState :=
  if st.s < (nNumSamples : ℚ) then
    { st with
      data := Update sqrt uninit objects (rnd st.nUpdateCalls) st.data
      nUpdateCalls := st.nUpdateCalls + 1
      s := st.s + 1 }
  else if st.bFirst = true then
    let r := (forRange 0 10).foldl
      (fun (acc : Buffer × Nat) _ => (MedianFilter acc.1, acc.2 + 1))
      (st.data, st.nMedianCalls)
    { st with data := r.1, nMedianCalls := r.2, bFirst := false }
  else st

/-- The state after `n` iterations of the loop of `main`. -/
def mainRun (sqrt : ℚ → ℚ) (uninit : Hit) (objects : List Object)
    (rnd : Nat → Int → Int → Nat → Vec3) (n : Nat) : MainState :=
  (mainStep sqrt uninit objects rnd)^[n] mainInit

/-- The channel `ch` (`0` red, `1` green, otherwise blue) of a colour vector. -/
def Vec3.channel (v : Vec3) (ch : Int) : ℚ :=
  if ch = 0 then v.x else if ch = 1 then v.y else v.z

/-- A white sphere of radius `1` centred at `(3, 0, 0)`, off the view axis. -/
def sideSphere : Sphere :=
  { m_v3Color := ⟨1, 1, 1⟩, m_bEmissive := false, m_v3Center := ⟨3, 0, 0⟩, m_fRadius := 1 }

/-! ## The scene of `Init` -/

/-- The sphere `pSphere` of `Init`. -/
def pSphere : Sphere :=
  { m_v3Color := ⟨2, 2, 2⟩, m_bEmissive := false, m_v3Center := ⟨0, -7 / 10, -1 / 2⟩,
    m_fRadius := 3 / 10 }

/-- The triangle `pFloor2` of `Init`. -/
def pFloor2 : Triangle :=
  { m_v3Color := ⟨1, 1, 1⟩, m_bEmissive := false,
    v1 := ⟨1, -1, 1⟩, v2 := ⟨1, -1, -1⟩, v3 := ⟨-1, -1, -1⟩ }

/-- The triangle `pLight1` of `Init` (an emitter). -/
def pLight1 : Triangle :=
  { m_v3Color := ⟨1, 1, 1⟩, m_bEmissive := true,
    v1 := ⟨-1 / 2, 99 / 100, 1 / 2⟩, v2 := ⟨-1 / 2, 99 / 100, -1 / 2⟩, v3 := ⟨1 / 2, 99 / 100, 1 / 2⟩ }

/-- The triangle `pLight2` of `Init` (an emitter). -/
def pLight2 : Triangle :=
  { m_v3Color := ⟨1, 1, 1⟩, m_bEmissive := true,
    v1 := ⟨-1 / 2, 99 / 100, -1 / 2⟩, v2 := ⟨1 / 2, 99 / 100, -1 / 2⟩, v3 := ⟨1 / 2, 99 / 100, 1 / 2⟩ }

/-- The triangle `pCeiling1` of `Init`. -/
def pCeiling1 : Triangle :=
  { m_v3Color := ⟨1, 1, 1⟩, m_bEmissive := false,
    v1 := ⟨-1, 1, 1⟩, v2 := ⟨-1, 1, -1⟩, v3 := ⟨1, 1, 1⟩ }

/-- The triangle `pCeiling2` of `Init`. -/
def pCeiling2 : Triangle :=
  { m_v3Color := ⟨1, 1, 1⟩, m_bEmissive := false,
    v1 := ⟨-1, 1, -1⟩, v2 := ⟨1, 1, -1⟩, v3 := ⟨1, 1, 1⟩ }

/-- The triangle `pLeft1` of `Init`. -/
def pLeft1 : Triangle :=
  { m_v3Color := ⟨1, 0, 0⟩, m_bEmissive := false,
    v1 := ⟨-1, -1, -1⟩, v2 := ⟨-1, 1, 1⟩, v3 := ⟨-1, -1, 1⟩ }

/-- The triangle `pLeft2` of `Init`. -/
def pLeft2 : Triangle :=
  { m_v3Color := ⟨1, 0, 0⟩, m_bEmissive := false,
    v1 := ⟨-1, -1, -1⟩, v2 := ⟨-1, 1, -1⟩, v3 := ⟨-1, 1, 1⟩ }

/-- The triangle `pRight1` of `Init`. -/
def pRight1 : Triangle :=
  { m_v3Color := ⟨0, 1, 0⟩, m_bEmissive := false,
    v1 := ⟨1, 1, 1⟩, v2 := ⟨1, -1, -1⟩, v3 := ⟨1, -1, 1⟩ }

/-- The triangle `pRight2` of `Init`. -/
def pRight2 : Triangle :=
  { m_v3Color := ⟨0, 1, 0⟩, m_bEmissive := false,
    v1 := ⟨1, -1, -1⟩, v2 := ⟨1, 1, 1⟩, v3 := ⟨1, 1, -1⟩ }

/-- The triangle `pBack1` of `Init`. -/
def pBack1 : Triangle :=
  { m_v3Color := ⟨1, 1, 1⟩, m_bEmissive := false,
    v1 := ⟨1, -1, -1⟩, v2 := ⟨-1, 1, -1⟩, v3 := ⟨-1, -1, -1⟩ }

/-- The triangle `pBack2` of `Init`. -/
def pBack2 : Triangle :=
  { m_v3Color := ⟨1, 1, 1⟩, m_bEmissive := false,
    v1 := ⟨1, -1, -1⟩, v2 := ⟨1, 1, -1⟩, v3 := ⟨-1, 1, -1⟩ }

/-- The global `objects` after `Init`, in the order of the `push_back` calls. -/
def initObjects : List Object :=
  [.sphere pSphere, .triangle pFloor1, .triangle pFloor2, .triangle pLight1,
   .triangle pLight2, .triangle pCeiling1, .triangle pCeiling2, .triangle pLeft1,
   .triangle pLeft2, .triangle pRight1, .triangle pRight2, .triangle pBack1,
   .triangle pBack2]

/-- All three channels of a colour lie between `0` and the bound `B`. -/
def Vec3.InBox (v : Vec3) (B : ℚ) : Prop :=
  (0 ≤ v.x ∧ v.x ≤ B) ∧ (0 ≤ v.y ∧ v.y ≤ B) ∧ (0 ≤ v.z ∧ v.z ≤ B)

/-- The bound on the channels of the value of `PathTrace` when `m = nMaxDepth + 1 - nDepth`
levels of the recursion remain: `0` for `m = 0`, and `2^(m-1)` otherwise. -/
def radianceBound (m : Nat) : ℚ := if m = 0 then 0 else 2 ^ (m - 1)

/-- The assumption "hit normals and sampled directions are unit vectors" along the path
that the call `PathTrace(ray, nDepth)` follows: the direction of the ray has length `1`,
and at a non-emissive hit the normal has length `1` and, if the path goes on, the same
holds for the recursive call. -/
def PathUnit (sqrt : ℚ → ℚ) (uninit : Hit) (objects : List Object) (rnd : Nat → Vec3)
    (ray : Ray) (nDepth : Int) : Prop :=
  if h : nDepth > nMaxDepth then True
  else
    let finalHi := nearestHit sqrt uninit objects ray
    Vec3.dot ray.m_v3Dir ray.m_v3Dir = 1
      ∧ (if finalHi.m_bHit = false then True
        else if finalHi.m_bEmissive = true then True
        else
          Vec3.dot finalHi.m_v3Normal finalHi.m_v3Normal = 1
            ∧ (if Vec3.dot ray.m_v3Dir.neg finalHi.m_v3Normal ≤ 0 then True
              else
                PathUnit sqrt uninit objects (fun n => rnd (n + 1))
                  { m_v3Pos := finalHi.m_v3Pos.add (Vec3.smul (1 / 1000) finalHi.m_v3Normal),
                    m_v3Dir := RandomDirection sqrt (rnd 0) finalHi.m_v3Normal }
                  (nDepth + 1)))
termination_by (nMaxDepth + 1 - nDepth).toNat
decreasing_by
  simp only [nMaxDepth] at h ⊢
  omega

/-- The ray `Update` hands to `PathTrace` for the centre pixel when the first random
vector is `(0, 0, 1)`: from the point `(0, 0, -1)` of the back wall along `+z`. -/
def centreBounceRay : Ray := { m_v3Pos := ⟨0, 0, -1⟩, m_v3Dir := ⟨0, 0, 1⟩ }

/-- The primary ray of the centre pixel `(384, 384)`: from `(0, 0, 1.2)` along `-z`. -/
def centrePrimaryRay : Ray := { m_v3Pos := ⟨0, 0, 6 / 5⟩, m_v3Dir := ⟨0, 0, -1⟩ }

/-! # Theorems -/

/-! ## Helper lemmas: the square-root instance -/

theorem Qsqrt_mul_self (q : ℚ) (hq : 0 ≤ q) : Qsqrt (q * q) = q := by
  unfold Qsqrt
  have hn : 0 ≤ q.num := Rat.num_nonneg.mpr hq
  rw [Rat.mul_self_num, Rat.mul_self_den]
  have h1 : (q.num * q.num).toNat = q.num.toNat * q.num.toNat := by
    obtain ⟨k, hk⟩ := Int.eq_ofNat_of_zero_le hn
    rw [hk]
    exact_mod_cast rfl
  rw [h1, Nat.sqrt_eq, Nat.sqrt_eq]
  have h2 : ((q.num.toNat : ℕ) : ℚ) = (q.num : ℚ) := by
    have : ((q.num.toNat : ℕ) : ℤ) = q.num := Int.toNat_of_nonneg hn
    exact_mod_cast this
  rw [h2]
  exact Rat.num_div_den q

theorem Qsqrt_one : Qsqrt 1 = 1 := by
  simpa using Qsqrt_mul_self 1 (by norm_num)

theorem Qsqrt_two_pow_forty : Qsqrt 1099511627776 = 1048576 := by
  have h := Qsqrt_mul_self 1048576 (by norm_num)
  norm_num at h
  exact h

theorem Qsqrt_sixteen : Qsqrt 16 = 4 := by
  have h := Qsqrt_mul_self 4 (by norm_num)
  norm_num at h
  exact h

/-! ## Sphere intersection -/

/-- C1: at the input of the claim's own example (ray origin at the centre of the unit
sphere, direction `(0, 0, 1)`) the roots are `t1 = -1` and `t2 = 1`; only the far root
exceeds `EPSILON`, and `Sphere::hit` reports a hit with `t = -1`, the root that does not
exceed `EPSILON`, at the position `(0, 0, -1)` behind the ray origin. -/
theorem C1_sphere_hit_reports_root_below_epsilon (uninit : Hit) :
    (Sphere.hit Qsqrt uninit unitSphere centreRay).m_bHit = true
      ∧ (Sphere.hit Qsqrt uninit unitSphere centreRay).t = -1
      ∧ (Sphere.hit Qsqrt uninit unitSphere centreRay).m_v3Pos = ⟨0, 0, -1⟩
      ∧ ¬ (Sphere.hit Qsqrt uninit unitSphere centreRay).t > EPSILON
      ∧ (-(0 : ℚ) - Qsqrt 1) / 1 = -1 ∧ (-(0 : ℚ) + Qsqrt 1) / 1 = 1
      ∧ (1 : ℚ) > EPSILON := by
  have hd : Vec3.dot (centreRay.m_v3Pos.sub unitSphere.m_v3Center) centreRay.m_v3Dir
      * Vec3.dot (centreRay.m_v3Pos.sub unitSphere.m_v3Center) centreRay.m_v3Dir
      - Vec3.dot centreRay.m_v3Dir centreRay.m_v3Dir
        * (Vec3.dot (centreRay.m_v3Pos.sub unitSphere.m_v3Center)
            (centreRay.m_v3Pos.sub unitSphere.m_v3Center)
          - unitSphere.m_fRadius * unitSphere.m_fRadius) = 1 := by
    norm_num [Vec3.dot, Vec3.sub, unitSphere, centreRay]
  refine ⟨?_, ?_, ?_, ?_, ?_, ?_, ?_⟩
  · simp only [Sphere.hit, hd, Qsqrt_one]
    norm_num [Vec3.dot, Vec3.sub, unitSphere, centreRay, EPSILON]
  · simp only [Sphere.hit, hd, Qsqrt_one]
    norm_num [Vec3.dot, Vec3.sub, unitSphere, centreRay, EPSILON]
  · simp only [Sphere.hit, hd, Qsqrt_one]
    norm_num [Vec3.dot, Vec3.sub, Vec3.add, Vec3.smul, unitSphere, centreRay, EPSILON]
  · simp only [Sphere.hit, hd, Qsqrt_one]
    norm_num [Vec3.dot, Vec3.sub, unitSphere, centreRay, EPSILON]
  · norm_num [Qsqrt_one]
  · norm_num [Qsqrt_one]
  · norm_num [EPSILON]

/-! ## The nearest-hit scan -/

/-- A reported hit carries the colour stored in the primitive. -/
theorem Object.hit_color (sqrt : ℚ → ℚ) (uninit : Hit) (o : Object) (ray : Ray)
    (h : (o.hit sqrt uninit ray).m_bHit = true) :
    (o.hit sqrt uninit ray).m_v3Color = o.m_v3Color := by
  cases o with
  | sphere s =>
    simp only [Object.hit, Object.m_v3Color, Sphere.hit] at h ⊢
    split_ifs at h ⊢ <;> simp_all
  | triangle tri =>
    simp only [Object.hit, Object.m_v3Color, Triangle.hit] at h ⊢
    split_ifs at h ⊢
    simp_all

/-- A reported hit carries the emissive flag stored in the primitive. -/
theorem Object.hit_emissive (sqrt : ℚ → ℚ) (uninit : Hit) (o : Object) (ray : Ray)
    (h : (o.hit sqrt uninit ray).m_bHit = true) :
    (o.hit sqrt uninit ray).m_bEmissive = o.m_bEmissive := by
  cases o with
  | sphere s =>
    simp only [Object.hit, Object.m_bEmissive, Sphere.hit] at h ⊢
    split_ifs at h ⊢ <;> simp_all
  | triangle tri =>
    simp only [Object.hit, Object.m_bEmissive, Triangle.hit] at h ⊢
    split_ifs at h ⊢
    simp_all

/-- Primitives that report no hit leave the scan state as it is. -/
theorem foldl_scanStep_of_no_hit (sqrt : ℚ → ℚ) (uninit : Hit) (ray : Ray)
    (l : List Object) (st : Hit × ℚ)
    (h : ∀ o ∈ l, (o.hit sqrt uninit ray).m_bHit = false) :
    l.foldl (scanStep sqrt uninit ray) st = st := by
  induction l generalizing st with
  | nil => rfl
  | cons o rest ih =>
    have ho : (o.hit sqrt uninit ray).m_bHit = false := h o (List.mem_cons_self _ _)
    have hstep : scanStep sqrt uninit ray st o = st := by
      simp [scanStep, ho]
    rw [List.foldl_cons, hstep]
    exact ih st (fun p hp => h p (List.mem_cons_of_mem _ hp))

/-- The invariant of the scan: the state is the initial one or the hit of a primitive of
the list together with its `t`; `minT` is at most its initial value and at most the `t`
of every primitive of the list that reports a hit. -/
theorem foldl_scanStep_inv (sqrt : ℚ → ℚ) (uninit : Hit) (ray : Ray)
    (l : List Object) (st : Hit × ℚ) :
    (l.foldl (scanStep sqrt uninit ray) st = st
        ∨ ∃ o ∈ l, (o.hit sqrt uninit ray).m_bHit = true
            ∧ l.foldl (scanStep sqrt uninit ray) st
              = (o.hit sqrt uninit ray, (o.hit sqrt uninit ray).t))
      ∧ (l.foldl (scanStep sqrt uninit ray) st).2 ≤ st.2
      ∧ ∀ o ∈ l, (o.hit sqrt uninit ray).m_bHit = true →
          (l.foldl (scanStep sqrt uninit ray) st).2 ≤ (o.hit sqrt uninit ray).t := by
  induction l generalizing st with
  | nil => simp
  | cons o rest ih =>
    rw [List.foldl_cons]
    obtain ⟨h1, h2, h3⟩ := ih (scanStep sqrt uninit ray st o)
    by_cases hc : (o.hit sqrt uninit ray).m_bHit = true ∧ (o.hit sqrt uninit ray).t < st.2
    · have hstep : scanStep sqrt uninit ray st o
          = (o.hit sqrt uninit ray, (o.hit sqrt uninit ray).t) := by
        simp only [scanStep]
        rw [if_pos hc]
      rw [hstep] at h1 h2 h3 ⊢
      refine ⟨Or.inr ?_, ?_, ?_⟩
      · rcases h1 with h1 | ⟨p, hp, hph, hpe⟩
        · exact ⟨o, List.mem_cons_self _ _, hc.1, h1⟩
        · exact ⟨p, List.mem_cons_of_mem _ hp, hph, hpe⟩
      · exact le_trans h2 (le_of_lt hc.2)
      · intro p hp hph
        rcases List.mem_cons.mp hp with rfl | hp
        · exact h2
        · exact h3 p hp hph
    · have hstep : scanStep sqrt uninit ray st o = st := by
        simp only [scanStep]
        rw [if_neg hc]
      rw [hstep] at h1 h2 h3 ⊢
      refine ⟨?_, h2, ?_⟩
      · rcases h1 with h1 | ⟨p, hp, hph, hpe⟩
        · exact Or.inl h1
        · exact Or.inr ⟨p, List.mem_cons_of_mem _ hp, hph, hpe⟩
      · intro p hp hph
        rcases List.mem_cons.mp hp with rfl | hp
        · have : st.2 ≤ (p.hit sqrt uninit ray).t := by
            by_contra hlt
            exact hc ⟨hph, lt_of_not_le hlt⟩
          exact le_trans h2 this
        · exact h3 p hp hph

/-- The scan, unfolded. -/
theorem nearestHit_def (sqrt : ℚ → ℚ) (uninit : Hit) (objects : List Object) (ray : Ray) :
    nearestHit sqrt uninit objects ray
      = (objects.foldl (scanStep sqrt uninit ray)
          ({ uninit with m_bHit := false }, 1000000)).1 := rfl

/-- A scan that ends with a hit ends with the hit of a primitive of the scene, and no
primitive of the scene reports a hit with a smaller `t`. -/
theorem nearestHit_spec (sqrt : ℚ → ℚ) (uninit : Hit) (objects : List Object) (ray : Ray)
    (h : (nearestHit sqrt uninit objects ray).m_bHit = true) :
    (∃ o ∈ objects, (o.hit sqrt uninit ray).m_bHit = true
        ∧ nearestHit sqrt uninit objects ray = o.hit sqrt uninit ray)
      ∧ ∀ o ∈ objects, (o.hit sqrt uninit ray).m_bHit = true →
          (nearestHit sqrt uninit objects ray).t ≤ (o.hit sqrt uninit ray).t := by
  obtain ⟨h1, -, h3⟩ :=
    foldl_scanStep_inv sqrt uninit ray objects ({ uninit with m_bHit := false }, 1000000)
  unfold nearestHit at h ⊢
  rcases h1 with h1 | ⟨o, ho, hoh, hoe⟩
  · rw [h1] at h
    simp at h
  · refine ⟨⟨o, ho, hoh, ?_⟩, ?_⟩
    · rw [hoe]
    · intro p hp hph
      have := h3 p hp hph
      rw [hoe] at this ⊢
      exact this

/-- C2 (as amended): when exactly one primitive of the scene (the list entry between
`pre` and `post`) reports a hit for the ray, and the `t` it reports is below the initial
`minT = 1000000`, the scan ends with that primitive's hit: `m_bHit = true`, and colour and
emissive flag are the ones stored in the primitive. -/
theorem C2_nearestHit_single_hit (sqrt : ℚ → ℚ) (uninit : Hit) (pre post : List Object)
    (o : Object) (ray : Ray)
    (hpre : ∀ p ∈ pre, (p.hit sqrt uninit ray).m_bHit = false)
    (hpost : ∀ p ∈ post, (p.hit sqrt uninit ray).m_bHit = false)
    (ho : (o.hit sqrt uninit ray).m_bHit = true)
    (ht : (o.hit sqrt uninit ray).t < 1000000) :
    (nearestHit sqrt uninit (pre ++ o :: post) ray).m_bHit = true
      ∧ (nearestHit sqrt uninit (pre ++ o :: post) ray).m_v3Color = o.m_v3Color
      ∧ (nearestHit sqrt uninit (pre ++ o :: post) ray).m_bEmissive = o.m_bEmissive := by
  have hscan : nearestHit sqrt uninit (pre ++ o :: post) ray = o.hit sqrt uninit ray := by
    unfold nearestHit
    rw [List.foldl_append, foldl_scanStep_of_no_hit sqrt uninit ray pre _ hpre,
      List.foldl_cons]
    have hstep : scanStep sqrt uninit ray ({ uninit with m_bHit := false }, 1000000) o
        = (o.hit sqrt uninit ray, (o.hit sqrt uninit ray).t) := by
      simp only [scanStep]
      rw [if_pos ⟨ho, ht⟩]
    rw [hstep, foldl_scanStep_of_no_hit sqrt uninit ray post _ hpost]
  rw [hscan]
  exact ⟨ho, Object.hit_color sqrt uninit o ray ho, Object.hit_emissive sqrt uninit o ray ho⟩

/-- The hit of `farSphere` along `forwardRay`: the near root is `t = 2^20`. -/
theorem farSphere_hit (uninit : Hit) :
    (Sphere.hit Qsqrt uninit farSphere forwardRay).m_bHit = true
      ∧ (Sphere.hit Qsqrt uninit farSphere forwardRay).t = 1048576 := by
  have hd : Vec3.dot (forwardRay.m_v3Pos.sub farSphere.m_v3Center) forwardRay.m_v3Dir
      * Vec3.dot (forwardRay.m_v3Pos.sub farSphere.m_v3Center) forwardRay.m_v3Dir
      - Vec3.dot forwardRay.m_v3Dir forwardRay.m_v3Dir
        * (Vec3.dot (forwardRay.m_v3Pos.sub farSphere.m_v3Center)
            (forwardRay.m_v3Pos.sub farSphere.m_v3Center)
          - farSphere.m_fRadius * farSphere.m_fRadius) = 1099511627776 := by
    norm_num [Vec3.dot, Vec3.sub, farSphere, forwardRay]
  constructor
  · simp only [Sphere.hit, hd, Qsqrt_two_pow_forty]
    norm_num [Vec3.dot, Vec3.sub, farSphere, forwardRay, EPSILON]
  · simp only [Sphere.hit, hd, Qsqrt_two_pow_forty]
    norm_num [Vec3.dot, Vec3.sub, farSphere, forwardRay, EPSILON]

/-- The hit of `unitSphere` along `eyeRay`: the near root is `t = 4`, the normal there is
`(0, 0, 1)`. -/
theorem unitSphere_eyeRay_hit (uninit : Hit) :
    Sphere.hit Qsqrt uninit unitSphere eyeRay
      = { t := 4, m_bHit := true, m_v3Pos := ⟨0, 0, 1⟩, m_v3Normal := ⟨0, 0, 1⟩,
          m_v3Color := ⟨1, 1, 1⟩, m_bEmissive := false } := by
  have hd : Vec3.dot (eyeRay.m_v3Pos.sub unitSphere.m_v3Center) eyeRay.m_v3Dir
      * Vec3.dot (eyeRay.m_v3Pos.sub unitSphere.m_v3Center) eyeRay.m_v3Dir
      - Vec3.dot eyeRay.m_v3Dir eyeRay.m_v3Dir
        * (Vec3.dot (eyeRay.m_v3Pos.sub unitSphere.m_v3Center)
            (eyeRay.m_v3Pos.sub unitSphere.m_v3Center)
          - unitSphere.m_fRadius * unitSphere.m_fRadius) = 1 := by
    norm_num [Vec3.dot, Vec3.sub, unitSphere, eyeRay]
  simp only [Sphere.hit, hd, Qsqrt_one]
  norm_num [Vec3.dot, Vec3.sub, Vec3.add, Vec3.smul, Vec3.normalize, unitSphere, eyeRay,
    EPSILON, Qsqrt_one]

/-- The scan of the scene `[unitSphere]` along `eyeRay` ends with the sphere's hit. -/
theorem nearestHit_unitSphere_eyeRay (uninit : Hit) :
    nearestHit Qsqrt uninit [.sphere unitSphere] eyeRay
      = { t := 4, m_bHit := true, m_v3Pos := ⟨0, 0, 1⟩, m_v3Normal := ⟨0, 0, 1⟩,
          m_v3Color := ⟨1, 1, 1⟩, m_bEmissive := false } := by
  have hlt : (4 : ℚ) < 1000000 := by norm_num
  have hstep : scanStep Qsqrt uninit eyeRay ({ uninit with m_bHit := false }, 1000000)
      (.sphere unitSphere)
      = ({ t := 4, m_bHit := true, m_v3Pos := ⟨0, 0, 1⟩, m_v3Normal := ⟨0, 0, 1⟩,
            m_v3Color := ⟨1, 1, 1⟩, m_bEmissive := false }, 4) := by
    unfold scanStep
    simp only [Object.hit, unitSphere_eyeRay_hit]
    rw [if_pos ⟨trivial, hlt⟩]
  rw [nearestHit_def, List.foldl_cons, hstep, List.foldl_nil]

/-- C2, witness of the amended statement: the scene `[unitSphere]` and `eyeRay`. -/
theorem C2_nearestHit_single_hit_witness :
    (nearestHit Qsqrt Hit.zeroed ([] ++ Object.sphere unitSphere :: []) eyeRay).m_bHit = true
      ∧ (nearestHit Qsqrt Hit.zeroed ([] ++ Object.sphere unitSphere :: []) eyeRay).m_v3Color
          = (Object.sphere unitSphere).m_v3Color
      ∧ (nearestHit Qsqrt Hit.zeroed ([] ++ Object.sphere unitSphere :: []) eyeRay).m_bEmissive
          = (Object.sphere unitSphere).m_bEmissive :=
  C2_nearestHit_single_hit Qsqrt Hit.zeroed [] [] (.sphere unitSphere) eyeRay
    (by simp) (by simp)
    (by simp [Object.hit, unitSphere_eyeRay_hit])
    (by simp only [Object.hit, unitSphere_eyeRay_hit]; norm_num)

/-- C2, counterexample to the claim as stated: in the scene that consists of `farSphere`
alone exactly one primitive reports a hit along `forwardRay` (with `t = 2^20`, which is
not below `minT = 1000000`), and the scan ends with `finalHi.m_bHit = false`. -/
theorem C2_counterexample :
    (Object.hit Qsqrt Hit.zeroed (.sphere farSphere) forwardRay).m_bHit = true
      ∧ (nearestHit Qsqrt Hit.zeroed [.sphere farSphere] forwardRay).m_bHit = false := by
  obtain ⟨h1, h2⟩ := farSphere_hit Hit.zeroed
  refine ⟨h1, ?_⟩
  have hge : ¬ ((1048576 : ℚ) < 1000000) := by norm_num
  have hstep : scanStep Qsqrt Hit.zeroed forwardRay
      ({ Hit.zeroed with m_bHit := false }, 1000000) (.sphere farSphere)
      = ({ Hit.zeroed with m_bHit := false }, 1000000) := by
    unfold scanStep
    simp only [Object.hit, h2]
    rw [if_neg (fun hc => hge hc.2)]
  rw [nearestHit_def, List.foldl_cons, hstep, List.foldl_nil]

/-- The scan ends with a hit as soon as some primitive of the scene reports a hit with a
`t` below the initial `minT = 1000000`. -/
theorem nearestHit_hit_of_close (sqrt : ℚ → ℚ) (uninit : Hit) (objects : List Object)
    (ray : Ray) (A : Object) (hA : A ∈ objects)
    (hAh : (A.hit sqrt uninit ray).m_bHit = true)
    (hAt : (A.hit sqrt uninit ray).t < 1000000) :
    (nearestHit sqrt uninit objects ray).m_bHit = true := by
  obtain ⟨h1, -, h3⟩ :=
    foldl_scanStep_inv sqrt uninit ray objects ({ uninit with m_bHit := false }, 1000000)
  rw [nearestHit_def]
  rcases h1 with h1 | ⟨o, -, hoh, hoe⟩
  · have hle := h3 A hA hAh
    rw [h1] at hle
    exact absurd hAt (not_lt.mpr hle)
  · rw [hoe]
    exact hoh

/-- C3 (as amended): whenever the scan ends with `finalHi.m_bHit = true`, `finalHi` is
the `Hit` that some primitive of the scene returns for the ray, and no primitive of the
scene reports a hit with a smaller `t`; the scan does end with a hit when some primitive
reports a hit with `t` below the initial `minT = 1000000`; and in a scene of two
primitives `A`, `B` that both report a hit, with `t_A < t_B` and `t_A < 1000000`, the
result is the hit of `A` in either order of the list. -/
theorem C3_nearestHit_minimal (sqrt : ℚ → ℚ) (uninit : Hit) (objects : List Object)
    (ray : Ray) :
    ((nearestHit sqrt uninit objects ray).m_bHit = true →
        (∃ o ∈ objects, (o.hit sqrt uninit ray).m_bHit = true
          ∧ nearestHit sqrt uninit objects ray = o.hit sqrt uninit ray)
        ∧ (∀ o ∈ objects, (o.hit sqrt uninit ray).m_bHit = true →
            ¬ (o.hit sqrt uninit ray).t < (nearestHit sqrt uninit objects ray).t))
      ∧ (∀ A ∈ objects, (A.hit sqrt uninit ray).m_bHit = true →
          (A.hit sqrt uninit ray).t < 1000000 →
          (nearestHit sqrt uninit objects ray).m_bHit = true)
      ∧ (∀ A B : Object, objects = [A, B] ∨ objects = [B, A] →
          (A.hit sqrt uninit ray).m_bHit = true → (B.hit sqrt uninit ray).m_bHit = true →
          (A.hit sqrt uninit ray).t < (B.hit sqrt uninit ray).t →
          (A.hit sqrt uninit ray).t < 1000000 →
          nearestHit sqrt uninit objects ray = A.hit sqrt uninit ray) := by
  refine ⟨?_, ?_, ?_⟩
  · intro h
    obtain ⟨hex, hmin⟩ := nearestHit_spec sqrt uninit objects ray h
    exact ⟨hex, fun p hp hph => not_lt.mpr (hmin p hp hph)⟩
  · intro A hA hAh hAt
    exact nearestHit_hit_of_close sqrt uninit objects ray A hA hAh hAt
  · intro A B hAB hA hB hlt hclose
    have hAmem : A ∈ objects := by
      rcases hAB with rfl | rfl <;> simp
    have h := nearestHit_hit_of_close sqrt uninit objects ray A hAmem hA hclose
    obtain ⟨⟨o, ho, hoh, hoe⟩, hmin⟩ := nearestHit_spec sqrt uninit objects ray h
    have hmem : o = A ∨ o = B := by
      rcases hAB with rfl | rfl
      · simpa using ho
      · simpa [or_comm] using ho
    rcases hmem with rfl | rfl
    · exact hoe
    · have := hmin A hAmem hA
      rw [hoe] at this
      exact absurd hlt (not_lt.mpr this)

/-- The hit of `behindSphere` along `eyeRay`: the near root is `t = 7`. -/
theorem behindSphere_eyeRay_hit (uninit : Hit) :
    (Sphere.hit Qsqrt uninit behindSphere eyeRay).m_bHit = true
      ∧ (Sphere.hit Qsqrt uninit behindSphere eyeRay).t = 7 := by
  have hd : Vec3.dot (eyeRay.m_v3Pos.sub behindSphere.m_v3Center) eyeRay.m_v3Dir
      * Vec3.dot (eyeRay.m_v3Pos.sub behindSphere.m_v3Center) eyeRay.m_v3Dir
      - Vec3.dot eyeRay.m_v3Dir eyeRay.m_v3Dir
        * (Vec3.dot (eyeRay.m_v3Pos.sub behindSphere.m_v3Center)
            (eyeRay.m_v3Pos.sub behindSphere.m_v3Center)
          - behindSphere.m_fRadius * behindSphere.m_fRadius) = 1 := by
    norm_num [Vec3.dot, Vec3.sub, behindSphere, eyeRay]
  constructor
  · simp only [Sphere.hit, hd, Qsqrt_one]
    norm_num [Vec3.dot, Vec3.sub, behindSphere, eyeRay, EPSILON]
  · simp only [Sphere.hit, hd, Qsqrt_one]
    norm_num [Vec3.dot, Vec3.sub, behindSphere, eyeRay, EPSILON]

/-- C3, witness of the amended statement: the two spheres `unitSphere` (hit at `t = 4`)
and `behindSphere` (hit at `t = 7`) along `eyeRay`; in both orders of the list the scan
ends with the hit of `unitSphere`, and no primitive reports a smaller `t`. -/
theorem C3_nearestHit_minimal_witness :
    ((Object.sphere unitSphere).hit Qsqrt Hit.zeroed eyeRay).m_bHit = true
      ∧ ((Object.sphere behindSphere).hit Qsqrt Hit.zeroed eyeRay).m_bHit = true
      ∧ ((Object.sphere unitSphere).hit Qsqrt Hit.zeroed eyeRay).t
          < ((Object.sphere behindSphere).hit Qsqrt Hit.zeroed eyeRay).t
      ∧ ((Object.sphere unitSphere).hit Qsqrt Hit.zeroed eyeRay).t < 1000000
      ∧ nearestHit Qsqrt Hit.zeroed [.sphere unitSphere, .sphere behindSphere] eyeRay
          = (Object.sphere unitSphere).hit Qsqrt Hit.zeroed eyeRay
      ∧ nearestHit Qsqrt Hit.zeroed [.sphere behindSphere, .sphere unitSphere] eyeRay
          = (Object.sphere unitSphere).hit Qsqrt Hit.zeroed eyeRay
      ∧ (∀ o ∈ [Object.sphere behindSphere, Object.sphere unitSphere],
          (o.hit Qsqrt Hit.zeroed eyeRay).m_bHit = true →
          ¬ (o.hit Qsqrt Hit.zeroed eyeRay).t
            < (nearestHit Qsqrt Hit.zeroed [.sphere behindSphere, .sphere unitSphere]
                eyeRay).t) := by
  have hA : ((Object.sphere unitSphere).hit Qsqrt Hit.zeroed eyeRay).m_bHit = true := by
    simp only [Object.hit, unitSphere_eyeRay_hit]
  have hAt : ((Object.sphere unitSphere).hit Qsqrt Hit.zeroed eyeRay).t = 4 := by
    simp only [Object.hit, unitSphere_eyeRay_hit]
  have hB : ((Object.sphere behindSphere).hit Qsqrt Hit.zeroed eyeRay).m_bHit = true :=
    (behindSphere_eyeRay_hit Hit.zeroed).1
  have hBt : ((Object.sphere behindSphere).hit Qsqrt Hit.zeroed eyeRay).t = 7 :=
    (behindSphere_eyeRay_hit Hit.zeroed).2
  have hlt : ((Object.sphere unitSphere).hit Qsqrt Hit.zeroed eyeRay).t
      < ((Object.sphere behindSphere).hit Qsqrt Hit.zeroed eyeRay).t := by
    rw [hAt, hBt]
    norm_num
  have hclose : ((Object.sphere unitSphere).hit Qsqrt Hit.zeroed eyeRay).t < 1000000 := by
    rw [hAt]
    norm_num
  have h1 := C3_nearestHit_minimal Qsqrt Hit.zeroed
    [.sphere unitSphere, .sphere behindSphere] eyeRay
  have h2 := C3_nearestHit_minimal Qsqrt Hit.zeroed
    [.sphere behindSphere, .sphere unitSphere] eyeRay
  have hscan := h2.2.1 (.sphere unitSphere) (List.mem_cons_of_mem _ (List.mem_singleton_self _))
    hA hclose
  exact ⟨hA, hB, hlt, hclose,
    h1.2.2 (.sphere unitSphere) (.sphere behindSphere) (Or.inl rfl) hA hB hlt hclose,
    h2.2.2 (.sphere unitSphere) (.sphere behindSphere) (Or.inr rfl) hA hB hlt hclose,
    (h2.1 hscan).2⟩

/-- The hit of `fartherSphere` along `forwardRay`: the near root is `t = 3·2^20`. -/
theorem fartherSphere_hit (uninit : Hit) :
    (Sphere.hit Qsqrt uninit fartherSphere forwardRay).m_bHit = true
      ∧ (Sphere.hit Qsqrt uninit fartherSphere forwardRay).t = 3145728 := by
  have hd : Vec3.dot (forwardRay.m_v3Pos.sub fartherSphere.m_v3Center) forwardRay.m_v3Dir
      * Vec3.dot (forwardRay.m_v3Pos.sub fartherSphere.m_v3Center) forwardRay.m_v3Dir
      - Vec3.dot forwardRay.m_v3Dir forwardRay.m_v3Dir
        * (Vec3.dot (forwardRay.m_v3Pos.sub fartherSphere.m_v3Center)
            (forwardRay.m_v3Pos.sub fartherSphere.m_v3Center)
          - fartherSphere.m_fRadius * fartherSphere.m_fRadius) = 1099511627776 := by
    norm_num [Vec3.dot, Vec3.sub, fartherSphere, forwardRay]
  constructor
  · simp only [Sphere.hit, hd, Qsqrt_two_pow_forty]
    norm_num [Vec3.dot, Vec3.sub, fartherSphere, forwardRay, EPSILON]
  · simp only [Sphere.hit, hd, Qsqrt_two_pow_forty]
    norm_num [Vec3.dot, Vec3.sub, fartherSphere, forwardRay, EPSILON]

/-- C3, counterexample to the claim as stated: `farSphere` and `fartherSphere` both
report a hit along `forwardRay`, with `t_A = 2^20 < t_B = 3·2^20`, neither below
`minT = 1000000`; in both orders of the list the scan keeps neither hit and ends with
`finalHi.m_bHit = false`, so the result is not the hit of `farSphere`. -/
theorem C3_counterexample :
    ((Object.sphere farSphere).hit Qsqrt Hit.zeroed forwardRay).m_bHit = true
      ∧ ((Object.sphere fartherSphere).hit Qsqrt Hit.zeroed forwardRay).m_bHit = true
      ∧ ((Object.sphere farSphere).hit Qsqrt Hit.zeroed forwardRay).t
          < ((Object.sphere fartherSphere).hit Qsqrt Hit.zeroed forwardRay).t
      ∧ (nearestHit Qsqrt Hit.zeroed [.sphere farSphere, .sphere fartherSphere]
          forwardRay).m_bHit = false
      ∧ (nearestHit Qsqrt Hit.zeroed [.sphere fartherSphere, .sphere farSphere]
          forwardRay).m_bHit = false
      ∧ nearestHit Qsqrt Hit.zeroed [.sphere farSphere, .sphere fartherSphere] forwardRay
          ≠ (Object.sphere farSphere).hit Qsqrt Hit.zeroed forwardRay
      ∧ nearestHit Qsqrt Hit.zeroed [.sphere fartherSphere, .sphere farSphere] forwardRay
          ≠ (Object.sphere farSphere).hit Qsqrt Hit.zeroed forwardRay := by
  obtain ⟨a1, a2⟩ := farSphere_hit Hit.zeroed
  obtain ⟨b1, b2⟩ := fartherSphere_hit Hit.zeroed
  have hA : ((Object.sphere farSphere).hit Qsqrt Hit.zeroed forwardRay).m_bHit = true := a1
  have hB : ((Object.sphere fartherSphere).hit Qsqrt Hit.zeroed forwardRay).m_bHit = true :=
    b1
  have hAt : ((Object.sphere farSphere).hit Qsqrt Hit.zeroed forwardRay).t = 1048576 := a2
  have hBt : ((Object.sphere fartherSphere).hit Qsqrt Hit.zeroed forwardRay).t = 3145728 :=
    b2
  have hgeA : ¬ ((1048576 : ℚ) < 1000000) := by norm_num
  have hgeB : ¬ ((3145728 : ℚ) < 1000000) := by norm_num
  have hstepA : scanStep Qsqrt Hit.zeroed forwardRay
      ({ Hit.zeroed with m_bHit := false }, 1000000) (.sphere farSphere)
      = ({ Hit.zeroed with m_bHit := false }, 1000000) := by
    unfold scanStep
    simp only [hAt]
    rw [if_neg (fun hc => hgeA hc.2)]
  have hstepB : scanStep Qsqrt Hit.zeroed forwardRay
      ({ Hit.zeroed with m_bHit := false }, 1000000) (.sphere fartherSphere)
      = ({ Hit.zeroed with m_bHit := false }, 1000000) := by
    unfold scanStep
    simp only [hBt]
    rw [if_neg (fun hc => hgeB hc.2)]
  have hAB : nearestHit Qsqrt Hit.zeroed [.sphere farSphere, .sphere fartherSphere] forwardRay
      = { Hit.zeroed with m_bHit := false } := by
    rw [nearestHit_def, List.foldl_cons, hstepA, List.foldl_cons, hstepB, List.foldl_nil]
  have hBA : nearestHit Qsqrt Hit.zeroed [.sphere fartherSphere, .sphere farSphere] forwardRay
      = { Hit.zeroed with m_bHit := false } := by
    rw [nearestHit_def, List.foldl_cons, hstepB, List.foldl_cons, hstepA, List.foldl_nil]
  have hne : ∀ h : Hit, h.m_bHit = false →
      h ≠ (Object.sphere farSphere).hit Qsqrt Hit.zeroed forwardRay := by
    intro h hf heq
    rw [heq, hA] at hf
    exact Bool.noConfusion hf
  refine ⟨hA, hB, ?_, ?_, ?_, ?_, ?_⟩
  · rw [hAt, hBt]
    norm_num
  · rw [hAB]
  · rw [hBA]
  · exact hne _ (by rw [hAB])
  · exact hne _ (by rw [hBA])

/-! ## The path integrator -/

/-- The body of `PathTrace`, one unfolding of the recursion. -/
theorem PathTrace_unfold (sqrt : ℚ → ℚ) (uninit : Hit) (objects : List Object)
    (rnd : Nat → Vec3) (ray : Ray) (nDepth : Int) :
    PathTrace sqrt uninit objects rnd ray nDepth =
      if nDepth > nMaxDepth then Vec3.zero
      else if (nearestHit sqrt uninit objects ray).m_bHit = false then Vec3.zero
      else if (nearestHit sqrt uninit objects ray).m_bEmissive = true then
        (nearestHit sqrt uninit objects ray).m_v3Color
      else if Vec3.dot ray.m_v3Dir.neg (nearestHit sqrt uninit objects ray).m_v3Normal ≤ 0 then
        Vec3.zero
      else
        Vec3.mul
          (Vec3.smul (Vec3.dot ray.m_v3Dir.neg (nearestHit sqrt uninit objects ray).m_v3Normal)
            (nearestHit sqrt uninit objects ray).m_v3Color)
          (PathTrace sqrt uninit objects (fun n => rnd (n + 1))
            { m_v3Pos := (nearestHit sqrt uninit objects ray).m_v3Pos.add
                (Vec3.smul (1 / 1000) (nearestHit sqrt uninit objects ray).m_v3Normal),
              m_v3Dir := RandomDirection sqrt (rnd 0)
                (nearestHit sqrt uninit objects ray).m_v3Normal }
            (nDepth + 1)) := by
  rw [PathTrace]
  simp only [dite_eq_ite]

/-- C4: if the nearest-hit scan for the ray ends with the hit of an emissive primitive,
that hit is the hit of an emissive primitive `o` of the scene, and `PathTrace` returns
the stored colour of `o` at every depth `≤ nMaxDepth` and for every stream of random
vectors (none is used, no recursive call is made); the cosine between the ray and the
normal plays no part. -/
theorem C4_PathTrace_emitter (sqrt : ℚ → ℚ) (uninit : Hit) (objects : List Object)
    (ray : Ray)
    (hh : (nearestHit sqrt uninit objects ray).m_bHit = true)
    (he : (nearestHit sqrt uninit objects ray).m_bEmissive = true) :
    ∃ o ∈ objects, o.m_bEmissive = true
      ∧ nearestHit sqrt uninit objects ray = o.hit sqrt uninit ray
      ∧ ∀ (rnd : Nat → Vec3) (nDepth : Int), nDepth ≤ nMaxDepth →
          PathTrace sqrt uninit objects rnd ray nDepth = o.m_v3Color := by
  obtain ⟨⟨o, ho, hoh, hoe⟩, -⟩ := nearestHit_spec sqrt uninit objects ray hh
  refine ⟨o, ho, ?_, hoe, ?_⟩
  · rw [← Object.hit_emissive sqrt uninit o ray hoh, ← hoe]
    exact he
  · intro rnd nDepth hd
    rw [PathTrace_unfold, if_neg (not_lt.mpr hd), if_neg (by simp [hh]), if_pos he, hoe]
    exact Object.hit_color sqrt uninit o ray hoh

/-- The face normal of `lampTriangle` points down. -/
theorem lampTriangle_normal :
    Vec3.normalize Qsqrt
        (Vec3.cross (lampTriangle.v2.sub lampTriangle.v1) (lampTriangle.v3.sub lampTriangle.v1))
      = ⟨0, -1, 0⟩ := by
  have hc : Vec3.cross (lampTriangle.v2.sub lampTriangle.v1)
      (lampTriangle.v3.sub lampTriangle.v1) = ⟨0, -4, 0⟩ := by
    norm_num [Vec3.cross, Vec3.sub, lampTriangle]
  have hdot : Vec3.dot (⟨0, -4, 0⟩ : Vec3) ⟨0, -4, 0⟩ = 16 := by
    norm_num [Vec3.dot]
  rw [hc, Vec3.normalize, hdot, Qsqrt_sixteen]
  norm_num [Vec3.smul]

/-- The hit of `lampTriangle` along `downRay`: the ray meets the triangle from its back
side at `t = 1`. -/
theorem lampTriangle_downRay_hit (uninit : Hit) :
    Triangle.hit Qsqrt uninit lampTriangle downRay
      = { t := 1, m_bHit := true, m_v3Pos := ⟨-1 / 2, 1, 1 / 2⟩, m_v3Normal := ⟨0, -1, 0⟩,
          m_v3Color := ⟨1, 1, 1⟩, m_bEmissive := true } := by
  simp only [Triangle.hit, lampTriangle_normal]
  norm_num [Vec3.dot, Vec3.sub, Vec3.add, Vec3.smul, Vec3.cross, lampTriangle, downRay,
    EPSILON]

/-- The scan of the scene `[lampTriangle]` along `downRay` ends with the triangle's hit. -/
theorem nearestHit_lampTriangle_downRay (uninit : Hit) :
    nearestHit Qsqrt uninit [.triangle lampTriangle] downRay
      = { t := 1, m_bHit := true, m_v3Pos := ⟨-1 / 2, 1, 1 / 2⟩, m_v3Normal := ⟨0, -1, 0⟩,
          m_v3Color := ⟨1, 1, 1⟩, m_bEmissive := true } := by
  have hlt : (1 : ℚ) < 1000000 := by norm_num
  have hstep : scanStep Qsqrt uninit downRay ({ uninit with m_bHit := false }, 1000000)
      (.triangle lampTriangle)
      = ({ t := 1, m_bHit := true, m_v3Pos := ⟨-1 / 2, 1, 1 / 2⟩, m_v3Normal := ⟨0, -1, 0⟩,
            m_v3Color := ⟨1, 1, 1⟩, m_bEmissive := true }, 1) := by
    unfold scanStep
    simp only [Object.hit, lampTriangle_downRay_hit]
    rw [if_pos ⟨trivial, hlt⟩]
  rw [nearestHit_def, List.foldl_cons, hstep, List.foldl_nil]

/-- C4, witness: the scene `[lampTriangle]` and `downRay`, which strikes the emitter from
behind (the cosine term `dot(-dir, normal)` is `-1`). -/
theorem C4_PathTrace_emitter_witness :
    Vec3.dot downRay.m_v3Dir.neg
        (nearestHit Qsqrt Hit.zeroed [.triangle lampTriangle] downRay).m_v3Normal = -1
      ∧ ∃ o ∈ [Object.triangle lampTriangle], o.m_bEmissive = true
        ∧ nearestHit Qsqrt Hit.zeroed [.triangle lampTriangle] downRay
          = o.hit Qsqrt Hit.zeroed downRay
        ∧ ∀ (rnd : Nat → Vec3) (nDepth : Int), nDepth ≤ nMaxDepth →
            PathTrace Qsqrt Hit.zeroed [.triangle lampTriangle] rnd downRay nDepth
              = o.m_v3Color :=
  ⟨by rw [nearestHit_lampTriangle_downRay]; norm_num [Vec3.dot, Vec3.neg, downRay],
    C4_PathTrace_emitter Qsqrt Hit.zeroed [.triangle lampTriangle] downRay
      (by rw [nearestHit_lampTriangle_downRay])
      (by rw [nearestHit_lampTriangle_downRay])⟩

/-- C5: if the nearest-hit scan ends with a hit that is not emissive, with position `P`,
normal `N`, colour `K` and cosine term `c = dot(-ray.dir, N)`, then at every depth
`≤ nMaxDepth` `PathTrace` returns the zero vector when `c ≤ 0`, and otherwise the
component-wise product of `c·K` and the value of `PathTrace` at depth `nDepth + 1` for the
ray with origin `P + 0.001·N` and the direction that `RandomDirection` returns (the
normalised sum of the drawn vector `rnd 0` and `N`), the remaining draws being the later
entries of the stream. -/
theorem C5_PathTrace_bounce (sqrt : ℚ → ℚ) (uninit : Hit) (objects : List Object)
    (rnd : Nat → Vec3) (ray : Ray) (nDepth : Int)
    (hd : nDepth ≤ nMaxDepth)
    (hh : (nearestHit sqrt uninit objects ray).m_bHit = true)
    (hne : (nearestHit sqrt uninit objects ray).m_bEmissive = false) :
    (Vec3.dot ray.m_v3Dir.neg (nearestHit sqrt uninit objects ray).m_v3Normal ≤ 0 →
        PathTrace sqrt uninit objects rnd ray nDepth = Vec3.zero)
      ∧ (0 < Vec3.dot ray.m_v3Dir.neg (nearestHit sqrt uninit objects ray).m_v3Normal →
        PathTrace sqrt uninit objects rnd ray nDepth =
          Vec3.mul
            (Vec3.smul
              (Vec3.dot ray.m_v3Dir.neg (nearestHit sqrt uninit objects ray).m_v3Normal)
              (nearestHit sqrt uninit objects ray).m_v3Color)
            (PathTrace sqrt uninit objects (fun n => rnd (n + 1))
              { m_v3Pos := (nearestHit sqrt uninit objects ray).m_v3Pos.add
                  (Vec3.smul (1 / 1000) (nearestHit sqrt uninit objects ray).m_v3Normal),
                m_v3Dir := RandomDirection sqrt (rnd 0)
                  (nearestHit sqrt uninit objects ray).m_v3Normal }
              (nDepth + 1))) := by
  constructor
  · intro hc
    rw [PathTrace_unfold, if_neg (not_lt.mpr hd), if_neg (by simp [hh]),
      if_neg (by simp [hne]), if_pos hc]
  · intro hc
    rw [PathTrace_unfold, if_neg (not_lt.mpr hd), if_neg (by simp [hh]),
      if_neg (by simp [hne]), if_neg (not_le.mpr hc)]

/-- C5, witness: the scene `[unitSphere]`, `eyeRay`, depth `0`; the cosine term is `1`. -/
theorem C5_PathTrace_bounce_witness :
    (Vec3.dot eyeRay.m_v3Dir.neg
          (nearestHit Qsqrt Hit.zeroed [.sphere unitSphere] eyeRay).m_v3Normal ≤ 0 →
        PathTrace Qsqrt Hit.zeroed [.sphere unitSphere] (fun _ => ⟨0, 0, 1⟩) eyeRay 0
          = Vec3.zero)
      ∧ (0 < Vec3.dot eyeRay.m_v3Dir.neg
            (nearestHit Qsqrt Hit.zeroed [.sphere unitSphere] eyeRay).m_v3Normal →
        PathTrace Qsqrt Hit.zeroed [.sphere unitSphere] (fun _ => ⟨0, 0, 1⟩) eyeRay 0 =
          Vec3.mul
            (Vec3.smul
              (Vec3.dot eyeRay.m_v3Dir.neg
                (nearestHit Qsqrt Hit.zeroed [.sphere unitSphere] eyeRay).m_v3Normal)
              (nearestHit Qsqrt Hit.zeroed [.sphere unitSphere] eyeRay).m_v3Color)
            (PathTrace Qsqrt Hit.zeroed [.sphere unitSphere]
              (fun n => (fun _ => (⟨0, 0, 1⟩ : Vec3)) (n + 1))
              { m_v3Pos :=
                  (nearestHit Qsqrt Hit.zeroed [.sphere unitSphere] eyeRay).m_v3Pos.add
                    (Vec3.smul (1 / 1000)
                      (nearestHit Qsqrt Hit.zeroed [.sphere unitSphere] eyeRay).m_v3Normal),
                m_v3Dir := RandomDirection Qsqrt ((fun _ => (⟨0, 0, 1⟩ : Vec3)) 0)
                  (nearestHit Qsqrt Hit.zeroed [.sphere unitSphere] eyeRay).m_v3Normal }
              (0 + 1))) :=
  C5_PathTrace_bounce Qsqrt Hit.zeroed [.sphere unitSphere] (fun _ => ⟨0, 0, 1⟩) eyeRay 0
    (by decide)
    (by rw [nearestHit_unitSphere_eyeRay])
    (by rw [nearestHit_unitSphere_eyeRay])

/-! ## Accumulation into the framebuffer -/

/-- The three bytes `AddColor` stores for the pixel `(x, y)`: the old byte plus the
contribution converted to `uint8_t`, clamped to `0..255`. -/
theorem AddColor_apply (data : Buffer) (x y : Int) (v3Color : Vec3) :
    AddColor data x y v3Color (y * WINDOW_WIDTH * 3 + x * 3 + 0)
        = toUInt8 (clamp ((data (y * WINDOW_WIDTH * 3 + x * 3 + 0) : Int)
            + (toUInt8 (floatToInt (v3Color.x * 255)) : Int)) 0 255)
      ∧ AddColor data x y v3Color (y * WINDOW_WIDTH * 3 + x * 3 + 1)
        = toUInt8 (clamp ((data (y * WINDOW_WIDTH * 3 + x * 3 + 1) : Int)
            + (toUInt8 (floatToInt (v3Color.y * 255)) : Int)) 0 255)
      ∧ AddColor data x y v3Color (y * WINDOW_WIDTH * 3 + x * 3 + 2)
        = toUInt8 (clamp ((data (y * WINDOW_WIDTH * 3 + x * 3 + 2) : Int)
            + (toUInt8 (floatToInt (v3Color.z * 255)) : Int)) 0 255) := by
  have h01 : y * WINDOW_WIDTH * 3 + x * 3 + 0 ≠ y * WINDOW_WIDTH * 3 + x * 3 + 1 := by omega
  have h02 : y * WINDOW_WIDTH * 3 + x * 3 + 0 ≠ y * WINDOW_WIDTH * 3 + x * 3 + 2 := by omega
  have h12 : y * WINDOW_WIDTH * 3 + x * 3 + 1 ≠ y * WINDOW_WIDTH * 3 + x * 3 + 2 := by omega
  have hx : x + 0 = x := add_zero x
  have hy : y + 0 = y := add_zero y
  unfold AddColor
  simp only [GetColor, hx, hy]
  refine ⟨?_, ?_, ?_⟩
  · rw [Function.update_noteq h02, Function.update_noteq h01, Function.update_same]
  · rw [Function.update_noteq h12, Function.update_same]
  · rw [Function.update_same]

/-- C6: on the framebuffer that `Create` returns (all bytes `0`), `AddColor(0, 0, (2,2,2))`
stores `254` in the red byte of pixel `(0, 0)`: the increment `⌊255·2⌋ = 510` is reduced
to `510 mod 256 = 254` by the conversion to `uint8_t` before it is added; the claim's
value is `min(255, 0 + 510) = 255`. -/
theorem C6_AddColor_wraps_increment :
    Create (0 * WINDOW_WIDTH * 3 + 0 * 3 + 0) = 0
      ∧ AddColor Create 0 0 ⟨2, 2, 2⟩ (0 * WINDOW_WIDTH * 3 + 0 * 3 + 0) = 254
      ∧ floatToInt ((2 : ℚ) * 255) = 510
      ∧ min (255 : Int) (0 + ⌊(255 : ℚ) * 2⌋) = 255 := by
  have h510 : floatToInt ((2 : ℚ) * 255) = 510 := by norm_num [floatToInt]
  refine ⟨rfl, ?_, h510, ?_⟩
  · rw [(AddColor_apply Create 0 0 ⟨2, 2, 2⟩).1, h510]
    decide
  · have hfl : ⌊(255 : ℚ) * 2⌋ = 510 := by
      rw [Int.floor_eq_iff]
      norm_num
    rw [hfl]
    decide

/-! ## The median of 25 values -/

/-- The index `GetMedian` reads is `12`. -/
theorem GetMedian_eq (l : List Int) :
    GetMedian l = (l.insertionSort (· ≤ ·)).getD 12 0 := by
  have hid : (Int.tdiv (MEDIAN * MEDIAN) 2).toNat = 12 := by decide
  unfold GetMedian
  simp only [hid]

/-- In an ascending list of 25 values, 13 entries are at most the entry at index 12 and 13
entries are at least that entry. -/
theorem sorted_middle_counts (s : List Int) (hs : s.Sorted (· ≤ ·)) (hlen : s.length = 25) :
    13 ≤ s.countP (fun v => decide (v ≤ s.getD 12 0))
      ∧ 13 ≤ s.countP (fun v => decide (s.getD 12 0 ≤ v)) := by
  have h12 : 12 < s.length := by omega
  rw [List.getD_eq_getElem s 0 h12]
  constructor
  · have hall : ∀ a ∈ s.take 13, (fun v => decide (v ≤ s[12])) a = true := by
      intro a ha
      obtain ⟨i, hi, rfl⟩ := List.mem_take_iff_getElem.mp ha
      have hi' : i < s.length := by omega
      have := hs.rel_get_of_le (a := ⟨i, hi'⟩) (b := ⟨12, h12⟩)
        (by simp only [Fin.mk_le_mk]; omega)
      simpa using this
    have hc := List.countP_eq_length.mpr hall
    have hsub := (List.take_sublist 13 s).countP_le (fun v => decide (v ≤ s[12]))
    have hl : (s.take 13).length = 13 := by simp [hlen]
    omega
  · have hall : ∀ a ∈ s.drop 12, (fun v => decide (s[12] ≤ v)) a = true := by
      intro a ha
      obtain ⟨i, hi, rfl⟩ := List.mem_drop_iff_getElem.mp ha
      have := hs.rel_get_of_le (a := ⟨12, h12⟩) (b := ⟨12 + i, by omega⟩)
        (by simp only [Fin.mk_le_mk]; omega)
      simpa using this
    have hc := List.countP_eq_length.mpr hall
    have hsub := (List.drop_sublist 12 s).countP_le (fun v => decide (s[12] ≤ v))
    have hl : (s.drop 12).length = 13 := by simp [hlen]
    omega

/-- The median of 25 values: 13 of them are at most it, 13 are at least it, and it is one
of them. -/
theorem GetMedian_spec (l : List Int) (hlen : l.length = 25) :
    13 ≤ l.countP (fun v => decide (v ≤ GetMedian l))
      ∧ 13 ≤ l.countP (fun v => decide (GetMedian l ≤ v))
      ∧ GetMedian l ∈ l := by
  have hperm := List.perm_insertionSort (· ≤ ·) l
  have hsorted := List.sorted_insertionSort (· ≤ ·) l
  have hslen : (l.insertionSort (· ≤ ·)).length = 25 := by
    rw [List.length_insertionSort, hlen]
  obtain ⟨h1, h2⟩ := sorted_middle_counts _ hsorted hslen
  rw [← GetMedian_eq] at h1 h2
  rw [hperm.countP_eq] at h1 h2
  refine ⟨h1, h2, ?_⟩
  rw [GetMedian_eq, List.getD_eq_getElem _ 0 (by omega : 12 < _)]
  exact hperm.subset (List.getElem_mem _)

/-- If at most 12 of 25 values differ from `u`, their median is `u`. -/
theorem GetMedian_of_majority (l : List Int) (u : Int) (hlen : l.length = 25)
    (hu : l.countP (fun v => decide (v ≠ u)) ≤ 12) : GetMedian l = u := by
  obtain ⟨h1, h2, -⟩ := GetMedian_spec l hlen
  by_contra hne
  rcases lt_or_gt_of_ne hne with hlt | hgt
  · have hmono : l.countP (fun v => decide (v ≤ GetMedian l))
        ≤ l.countP (fun v => decide (v ≠ u)) := by
      apply List.countP_mono_left
      intro v _ hv
      simp only [decide_eq_true_eq] at hv ⊢
      omega
    omega
  · have hmono : l.countP (fun v => decide (GetMedian l ≤ v))
        ≤ l.countP (fun v => decide (v ≠ u)) := by
      apply List.countP_mono_left
      intro v _ hv
      simp only [decide_eq_true_eq] at hv ⊢
      omega
    omega

/-! ## The median filter: the neighbourhood -/

/-- The offsets of the two inner loops. -/
theorem forRange_median :
    forRange (Int.tdiv (-MEDIAN) 2) (Int.tdiv MEDIAN 2 + 1) = [-2, -1, 0, 1, 2] := by
  decide

/-- A loop that appends one value to each of three lists per iteration. -/
theorem foldl_push {α : Type} (f : α → Int × Int × Int) (l : List α)
    (acc : List Int × List Int × List Int) :
    l.foldl (fun lists j =>
        (lists.1 ++ [(f j).1], lists.2.1 ++ [(f j).2.1], lists.2.2 ++ [(f j).2.2])) acc
      = (acc.1 ++ l.map (fun j => (f j).1), acc.2.1 ++ l.map (fun j => (f j).2.1),
          acc.2.2 ++ l.map (fun j => (f j).2.2)) := by
  induction l generalizing acc with
  | nil => simp
  | cons a rest ih =>
    rw [List.foldl_cons, ih]
    simp

/-- Two nested loops that append one value to each of three lists per inner iteration. -/
theorem foldl_foldl_push {α β : Type} (f : α → β → Int × Int × Int) (l1 : List α)
    (l2 : List β) (acc : List Int × List Int × List Int) :
    l1.foldl (fun lists i => l2.foldl (fun lists j =>
        (lists.1 ++ [(f i j).1], lists.2.1 ++ [(f i j).2.1], lists.2.2 ++ [(f i j).2.2]))
        lists) acc
      = (acc.1 ++ l1.flatMap (fun i => l2.map (fun j => (f i j).1)),
          acc.2.1 ++ l1.flatMap (fun i => l2.map (fun j => (f i j).2.1)),
          acc.2.2 ++ l1.flatMap (fun i => l2.map (fun j => (f i j).2.2))) := by
  induction l1 generalizing acc with
  | nil => simp
  | cons a rest ih =>
    rw [List.foldl_cons, foldl_push (f a) l2 acc, ih]
    simp

/-- The two clamping statements of the filter compute `clamp(v, 0, 767)`. -/
theorem clamp_steps (v : Int) :
    (if (if v < 0 then 0 else v) > WINDOW_WIDTH - 1 then WINDOW_WIDTH - 1
      else (if v < 0 then 0 else v)) = max 0 (min 767 v) := by
  simp only [WINDOW_WIDTH]
  omega

/-- The three lists the inner loops build are the values the specification names. -/
theorem gatherLists_eq (data : Buffer) (x y : Int) :
    gatherLists data x y
      = (specValues data 0 x y, specValues data 1 x y, specValues data 2 x y) := by
  have h := foldl_foldl_push
    (fun i j => GetColor data (max 0 (min 767 (x + i))) (max 0 (min 767 (y + j))))
    [-2, -1, 0, 1, 2] [-2, -1, 0, 1, 2] ([], [], [])
  have hw : ∀ v : Int, (if (if v < 0 then 0 else v) > WINDOW_HEIGHT - 1 then WINDOW_HEIGHT - 1
      else (if v < 0 then 0 else v)) = max 0 (min 767 v) := clamp_steps
  unfold gatherLists
  rw [forRange_median]
  simp only [clamp_steps, hw]
  rw [h]
  simp only [specValues, specWindow, GetColor, WINDOW_WIDTH, List.nil_append,
    List.map_flatMap, List.map_map, Function.comp_def]

/-! ## The median filter: the loops -/

/-- A loop whose iterations overwrite cells of a buffer: if every iteration `a` stores
`target k` at the cells `k` with `W a k` and leaves the other cells alone, the loop
stores `target k` at the cells some iteration writes and leaves the others alone. -/
theorem foldl_write {α : Type} (target : Int → Nat) (W : α → Int → Prop)
    (step : Buffer → α → Buffer) (l : List α)
    (hstep : ∀ a ∈ l, ∀ (dst : Buffer) (k : Int),
      (W a k → step dst a k = target k) ∧ (¬ W a k → step dst a k = dst k))
    (dst : Buffer) (k : Int) :
    ((∃ a ∈ l, W a k) → l.foldl step dst k = target k)
      ∧ ((¬ ∃ a ∈ l, W a k) → l.foldl step dst k = dst k) := by
  induction l generalizing dst with
  | nil => simp
  | cons a rest ih =>
    have ih' := ih (fun b hb => hstep b (List.mem_cons_of_mem _ hb)) (step dst a)
    have ha := hstep a (List.mem_cons_self _ _) dst k
    rw [List.foldl_cons]
    by_cases hr : ∃ b ∈ rest, W b k
    · constructor
      · intro _
        exact ih'.1 hr
      · intro hn
        obtain ⟨b, hb, hbk⟩ := hr
        exact absurd ⟨b, List.mem_cons_of_mem _ hb, hbk⟩ hn
    · rw [ih'.2 hr]
      constructor
      · rintro ⟨b, hb, hbk⟩
        rcases List.mem_cons.mp hb with rfl | hb
        · exact ha.1 hbk
        · exact absurd ⟨b, hb, hbk⟩ hr
      · intro hn
        apply ha.2
        intro hak
        exact hn ⟨a, List.mem_cons_self _ _, hak⟩

/-- The values of a counting loop. -/
theorem mem_forRange (lo hi v : Int) : v ∈ forRange lo hi ↔ lo ≤ v ∧ v < hi := by
  unfold forRange
  simp only [List.mem_map, List.mem_range]
  constructor
  · rintro ⟨k, hk, rfl⟩
    omega
  · rintro ⟨h1, h2⟩
    refine ⟨(v - lo).toNat, ?_, ?_⟩ <;> omega

/-- One pixel of the filter: the three cells of the pixel receive their median bytes,
the other cells keep their contents. -/
theorem medianPixel_apply (data dst : Buffer) (x y : Int) (hx0 : 0 ≤ x)
    (hx1 : x < WINDOW_WIDTH) (k : Int) :
    ((k = y * WINDOW_WIDTH * 3 + x * 3 + 0 ∨ k = y * WINDOW_WIDTH * 3 + x * 3 + 1
          ∨ k = y * WINDOW_WIDTH * 3 + x * 3 + 2) →
        medianPixel data dst x y k = medianByte data k)
      ∧ (¬ (k = y * WINDOW_WIDTH * 3 + x * 3 + 0 ∨ k = y * WINDOW_WIDTH * 3 + x * 3 + 1
          ∨ k = y * WINDOW_WIDTH * 3 + x * 3 + 2) →
        medianPixel data dst x y k = dst k) := by
  simp only [WINDOW_WIDTH] at hx1 ⊢
  constructor
  · intro hk
    have hy : k / (768 * 3) = y := by omega
    have hxx : k % (768 * 3) / 3 = x := by omega
    unfold medianPixel medianByte
    simp only [WINDOW_WIDTH, hy, hxx]
    rcases hk with hk | hk | hk
    · have h3 : k % 3 = 0 := by omega
      have hne1 : k ≠ y * 768 * 3 + x * 3 + 1 := by omega
      have hne2 : k ≠ y * 768 * 3 + x * 3 + 2 := by omega
      rw [Function.update_noteq hne2, Function.update_noteq hne1, hk, Function.update_same,
        ← hk, h3]
      simp
    · have h3 : k % 3 = 1 := by omega
      have hne2 : k ≠ y * 768 * 3 + x * 3 + 2 := by omega
      rw [Function.update_noteq hne2, hk, Function.update_same, ← hk, h3]
      simp
    · have h3 : k % 3 = 2 := by omega
      rw [hk, Function.update_same, ← hk, h3]
      simp
  · intro hk
    have hne0 : k ≠ y * 768 * 3 + x * 3 + 0 := fun h => hk (Or.inl h)
    have hne1 : k ≠ y * 768 * 3 + x * 3 + 1 := fun h => hk (Or.inr (Or.inl h))
    have hne2 : k ≠ y * 768 * 3 + x * 3 + 2 := fun h => hk (Or.inr (Or.inr h))
    unfold medianPixel
    simp only [WINDOW_WIDTH]
    rw [Function.update_noteq hne2, Function.update_noteq hne1, Function.update_noteq hne0]

/-- The filter, cell by cell: every cell of the allocation receives its median byte. -/
theorem MedianFilter_apply (data : Buffer) (k : Int) (hk0 : 0 ≤ k) (hk1 : k < nSize) :
    MedianFilter data k = medianByte data k := by
  unfold MedianFilter
  have hinner : ∀ x ∈ forRange 0 WINDOW_WIDTH, ∀ (dst : Buffer) (k : Int),
      ((∃ y ∈ forRange 0 WINDOW_HEIGHT,
            (k = y * WINDOW_WIDTH * 3 + x * 3 + 0 ∨ k = y * WINDOW_WIDTH * 3 + x * 3 + 1
              ∨ k = y * WINDOW_WIDTH * 3 + x * 3 + 2)) →
          (forRange 0 WINDOW_HEIGHT).foldl (fun dst y => medianPixel data dst x y) dst k
            = medianByte data k)
        ∧ ((¬ ∃ y ∈ forRange 0 WINDOW_HEIGHT,
            (k = y * WINDOW_WIDTH * 3 + x * 3 + 0 ∨ k = y * WINDOW_WIDTH * 3 + x * 3 + 1
              ∨ k = y * WINDOW_WIDTH * 3 + x * 3 + 2)) →
          (forRange 0 WINDOW_HEIGHT).foldl (fun dst y => medianPixel data dst x y) dst k
            = dst k) := by
    intro x hx dst k
    rw [mem_forRange] at hx
    exact foldl_write (medianByte data)
      (fun y k => k = y * WINDOW_WIDTH * 3 + x * 3 + 0 ∨ k = y * WINDOW_WIDTH * 3 + x * 3 + 1
        ∨ k = y * WINDOW_WIDTH * 3 + x * 3 + 2)
      (fun dst y => medianPixel data dst x y) (forRange 0 WINDOW_HEIGHT)
      (fun y _ dst k => medianPixel_apply data dst x y hx.1 hx.2 k) dst k
  have houter := foldl_write (medianByte data)
    (fun x k => ∃ y ∈ forRange 0 WINDOW_HEIGHT,
      (k = y * WINDOW_WIDTH * 3 + x * 3 + 0 ∨ k = y * WINDOW_WIDTH * 3 + x * 3 + 1
        ∨ k = y * WINDOW_WIDTH * 3 + x * 3 + 2))
    (fun dst x => (forRange 0 WINDOW_HEIGHT).foldl (fun dst y => medianPixel data dst x y) dst)
    (forRange 0 WINDOW_WIDTH) hinner (fun _ => 0) k
  apply houter.1
  simp only [nSize, WINDOW_WIDTH, WINDOW_HEIGHT] at hk1 ⊢
  refine ⟨k % (768 * 3) / 3, ?_, k / (768 * 3), ?_, ?_⟩
  · rw [mem_forRange]
    omega
  · rw [mem_forRange]
    omega
  · omega

/-! ## The median filter: what it computes -/

/-- Every pixel of the neighbourhood is the clamped image of a pair of offsets in
`-2..2`, hence a pixel of the image. -/
theorem specWindow_mem (x y : Int) (p : Int × Int) (hp : p ∈ specWindow x y) :
    (∃ i j : Int, -2 ≤ i ∧ i ≤ 2 ∧ -2 ≤ j ∧ j ≤ 2
        ∧ p = (max 0 (min 767 (x + i)), max 0 (min 767 (y + j))))
      ∧ 0 ≤ p.1 ∧ p.1 ≤ 767 ∧ 0 ≤ p.2 ∧ p.2 ≤ 767 := by
  unfold specWindow at hp
  rw [List.mem_flatMap] at hp
  obtain ⟨i, hi, hp⟩ := hp
  rw [List.mem_map] at hp
  obtain ⟨j, hj, rfl⟩ := hp
  have hi' : -2 ≤ i ∧ i ≤ 2 := by
    simp only [List.mem_cons, List.mem_singleton, List.not_mem_nil, or_false] at hi
    omega
  have hj' : -2 ≤ j ∧ j ≤ 2 := by
    simp only [List.mem_cons, List.mem_singleton, List.not_mem_nil, or_false] at hj
    omega
  refine ⟨⟨i, j, hi'.1, hi'.2, hj'.1, hj'.2, rfl⟩, ?_, ?_, ?_, ?_⟩ <;> simp only <;> omega

/-- The neighbourhood has 25 pixels. -/
theorem specValues_length (data : Buffer) (ch x y : Int) :
    (specValues data ch x y).length = 25 := by
  simp [specValues, specWindow]

/-- The offsets of the three bytes of an image pixel lie inside the allocation. -/
theorem pixel_offset_bounds (x y ch : Int) (hx0 : 0 ≤ x) (hx1 : x ≤ 767) (hy0 : 0 ≤ y)
    (hy1 : y ≤ 767) (hc0 : 0 ≤ ch) (hc1 : ch ≤ 2) :
    0 ≤ y * 768 * 3 + x * 3 + ch ∧ y * 768 * 3 + x * 3 + ch < nSize := by
  simp only [nSize, WINDOW_WIDTH, WINDOW_HEIGHT]
  omega

/-- The values read from a byte buffer are bytes. -/
theorem specValues_bytes (data : Buffer) (hbytes : ∀ k, 0 ≤ k → k < nSize → data k < 256)
    (ch x y : Int) (hc0 : 0 ≤ ch) (hc1 : ch ≤ 2) (v : Int)
    (hv : v ∈ specValues data ch x y) : 0 ≤ v ∧ v < 256 := by
  unfold specValues at hv
  rw [List.mem_map] at hv
  obtain ⟨p, hp, rfl⟩ := hv
  obtain ⟨-, h1, h2, h3, h4⟩ := specWindow_mem x y p hp
  obtain ⟨hb0, hb1⟩ := pixel_offset_bounds p.1 p.2 ch h1 h2 h3 h4 hc0 hc1
  have := hbytes _ hb0 hb1
  omega

/-- The byte the filter stores for channel `ch` of the pixel `(x, y)`. -/
theorem MedianFilter_pixel (data : Buffer) (x y ch : Int) (hx0 : 0 ≤ x) (hx1 : x ≤ 767)
    (hy0 : 0 ≤ y) (hy1 : y ≤ 767) (hc0 : 0 ≤ ch) (hc1 : ch ≤ 2) :
    MedianFilter data (y * 768 * 3 + x * 3 + ch)
      = toUInt8 (GetMedian (specValues data ch x y)) := by
  obtain ⟨hb0, hb1⟩ := pixel_offset_bounds x y ch hx0 hx1 hy0 hy1 hc0 hc1
  rw [MedianFilter_apply data _ hb0 hb1]
  have hy : (y * 768 * 3 + x * 3 + ch) / (768 * 3) = y := by omega
  have hxx : (y * 768 * 3 + x * 3 + ch) % (768 * 3) / 3 = x := by omega
  have h3 : (y * 768 * 3 + x * 3 + ch) % 3 = ch := by omega
  unfold medianByte
  simp only [WINDOW_WIDTH, hy, hxx, h3, gatherLists_eq]
  have hcases : ch = 0 ∨ ch = 1 ∨ ch = 2 := by omega
  rcases hcases with rfl | rfl | rfl <;> simp

/-- Conversion to `uint8_t` keeps a value in `0..255`. -/
theorem toUInt8_of_byte (m : Int) (h0 : 0 ≤ m) (h1 : m < 256) : (toUInt8 m : Int) = m := by
  unfold toUInt8
  omega

/-- C7: for a framebuffer of bytes and a pixel `(x, y)` of the 768×768 image, the byte
`MedianFilter` stores for channel `ch` is the entry at index 12 of the ascending sort (the
sorted permutation `s`) of the 25 values of that channel read from the source buffer at the pixels
`(clamp(x+i, 0, 767), clamp(y+j, 0, 767))`, `i, j ∈ {-2, …, 2}`; at least 13 of the 25
values are `≤` it, at least 13 are `≥` it, and it is one of the 25 values. -/
theorem C7_MedianFilter_median (data : Buffer)
    (hbytes : ∀ k, 0 ≤ k → k < nSize → data k < 256) (x y ch : Int)
    (hx0 : 0 ≤ x) (hx1 : x < 768) (hy0 : 0 ≤ y) (hy1 : y < 768)
    (hc0 : 0 ≤ ch) (hc1 : ch ≤ 2) :
    (specValues data ch x y).length = 25
      ∧ (∀ s : List Int, s.Sorted (· ≤ ·) → s.Perm (specValues data ch x y) →
          s[12]? = some (MedianFilter data (y * 768 * 3 + x * 3 + ch) : Int))
      ∧ 13 ≤ (specValues data ch x y).countP
          (fun v => decide (v ≤ (MedianFilter data (y * 768 * 3 + x * 3 + ch) : Int)))
      ∧ 13 ≤ (specValues data ch x y).countP
          (fun v => decide ((MedianFilter data (y * 768 * 3 + x * 3 + ch) : Int) ≤ v))
      ∧ (MedianFilter data (y * 768 * 3 + x * 3 + ch) : Int) ∈ specValues data ch x y := by
  have hlen := specValues_length data ch x y
  obtain ⟨h1, h2, h3⟩ := GetMedian_spec (specValues data ch x y) hlen
  obtain ⟨hm0, hm1⟩ := specValues_bytes data hbytes ch x y hc0 hc1 _ h3
  have hout : (MedianFilter data (y * 768 * 3 + x * 3 + ch) : Int)
      = GetMedian (specValues data ch x y) := by
    rw [MedianFilter_pixel data x y ch hx0 (by omega) hy0 (by omega) hc0 hc1]
    exact toUInt8_of_byte _ hm0 hm1
  rw [hout]
  refine ⟨hlen, ?_, h1, h2, h3⟩
  intro s hs hperm
  have hsort : s = (specValues data ch x y).insertionSort (· ≤ ·) :=
    List.eq_of_perm_of_sorted
      (hperm.trans (List.perm_insertionSort (· ≤ ·) (specValues data ch x y)).symm) hs
      (List.sorted_insertionSort (· ≤ ·) (specValues data ch x y))
  have hslen : 12 < ((specValues data ch x y).insertionSort (· ≤ ·)).length := by
    rw [List.length_insertionSort, hlen]
    omega
  rw [hsort, GetMedian_eq, List.getD_eq_getElem _ 0 hslen, List.getElem?_eq_getElem hslen]

/-- C7, witness: the framebuffer after `Create`, pixel `(0, 0)`, red channel. -/
theorem C7_MedianFilter_median_witness :
    (specValues Create 0 0 0).length = 25
      ∧ (∀ s : List Int, s.Sorted (· ≤ ·) → s.Perm (specValues Create 0 0 0) →
          s[12]? = some (MedianFilter Create (0 * 768 * 3 + 0 * 3 + 0) : Int))
      ∧ 13 ≤ (specValues Create 0 0 0).countP
          (fun v => decide (v ≤ (MedianFilter Create (0 * 768 * 3 + 0 * 3 + 0) : Int)))
      ∧ 13 ≤ (specValues Create 0 0 0).countP
          (fun v => decide ((MedianFilter Create (0 * 768 * 3 + 0 * 3 + 0) : Int) ≤ v))
      ∧ (MedianFilter Create (0 * 768 * 3 + 0 * 3 + 0) : Int) ∈ specValues Create 0 0 0 :=
  C7_MedianFilter_median Create (fun k _ _ => show Create k < 256 by unfold Create; decide)
    0 0 0
    (by decide) (by decide) (by decide) (by decide) (by decide) (by decide)

/-- Counting in a product of two lists: the pairs `(f i, g j)` equal to `(a, b)`. -/
theorem countP_pairs {α β : Type} (f : α → Int) (g : β → Int) (a b : Int) (l1 : List α)
    (l2 : List β) :
    (l1.flatMap (fun i => l2.map (fun j => (f i, g j)))).countP
        (fun p => decide (p.1 = a ∧ p.2 = b))
      = l1.countP (fun i => decide (f i = a)) * l2.countP (fun j => decide (g j = b)) := by
  induction l1 with
  | nil => simp
  | cons i rest ih =>
    rw [List.flatMap_cons, List.countP_append, ih, List.countP_map, List.countP_cons,
      Nat.add_mul, Nat.add_comm]
    congr 1
    by_cases hi : f i = a
    · simp [hi, Function.comp_def]
    · simp [hi, Function.comp_def]

/-- Along one axis a coordinate of the image occurs at most three times among the five
clamped neighbours of a coordinate of the image. -/
theorem clamped_axis_count (x px : Int) (hx0 : 0 ≤ x) (hx1 : x ≤ 767) :
    ([-2, -1, 0, 1, 2] : List Int).countP (fun i => decide (max 0 (min 767 (x + i)) = px))
      ≤ 3 := by
  simp only [List.countP_cons, List.countP_nil, decide_eq_true_eq]
  split_ifs <;> omega

/-- A pixel occurs at most nine times in the neighbourhood of a pixel of the image. -/
theorem specWindow_count (x y px py : Int) (hx0 : 0 ≤ x) (hx1 : x ≤ 767) (hy0 : 0 ≤ y)
    (hy1 : y ≤ 767) :
    (specWindow x y).countP (fun p => decide (p.1 = px ∧ p.2 = py)) ≤ 9 := by
  unfold specWindow
  rw [countP_pairs (fun i => max 0 (min 767 (x + i))) (fun j => max 0 (min 767 (y + j)))]
  exact Nat.mul_le_mul (clamped_axis_count x px hx0 hx1) (clamped_axis_count y py hy0 hy1)

/-- If at most 12 of the 25 values read for a channel of a pixel differ from the byte
`u`, the filter stores `u`. -/
theorem MedianFilter_of_majority (data : Buffer) (x y ch : Int) (hx0 : 0 ≤ x)
    (hx1 : x ≤ 767) (hy0 : 0 ≤ y) (hy1 : y ≤ 767) (hc0 : 0 ≤ ch) (hc1 : ch ≤ 2) (u : Nat)
    (hu : u < 256)
    (hcount : (specValues data ch x y).countP (fun v => decide (v ≠ (u : Int))) ≤ 12) :
    MedianFilter data (y * 768 * 3 + x * 3 + ch) = u := by
  rw [MedianFilter_pixel data x y ch hx0 hx1 hy0 hy1 hc0 hc1,
    GetMedian_of_majority _ (u : Int) (specValues_length data ch x y) hcount]
  have := toUInt8_of_byte (u : Int) (by omega) (by omega)
  exact_mod_cast this

/-- The bytes of an RGB triple of bytes. -/
theorem channel_lt (u : Nat × Nat × Nat) (hu : u.1 < 256 ∧ u.2.1 < 256 ∧ u.2.2 < 256)
    (ch : Int) : channel u ch < 256 := by
  unfold channel
  split_ifs
  · exact hu.1
  · exact hu.2.1
  · exact hu.2.2

/-- C8: if every pixel of the 768×768 framebuffer holds the RGB triple `u` except the
pixel `(px, py)` (anywhere: interior, edge or corner), which holds `v`, then after one
application of `MedianFilter` every pixel holds `u`. -/
theorem C8_MedianFilter_removes_outlier (data : Buffer) (u v : Nat × Nat × Nat)
    (px py : Int) (hu : u.1 < 256 ∧ u.2.1 < 256 ∧ u.2.2 < 256)
    (hdata : ∀ x y ch : Int, 0 ≤ x → x < 768 → 0 ≤ y → y < 768 → 0 ≤ ch → ch ≤ 2 →
      data (y * 768 * 3 + x * 3 + ch)
        = if x = px ∧ y = py then channel v ch else channel u ch) :
    ∀ x y ch : Int, 0 ≤ x → x < 768 → 0 ≤ y → y < 768 → 0 ≤ ch → ch ≤ 2 →
      MedianFilter data (y * 768 * 3 + x * 3 + ch) = channel u ch := by
  intro x y ch hx0 hx1 hy0 hy1 hc0 hc1
  apply MedianFilter_of_majority data x y ch hx0 (by omega) hy0 (by omega) hc0 hc1 _
    (channel_lt u hu ch)
  have hle : (specValues data ch x y).countP (fun w => decide (w ≠ (channel u ch : Int)))
      ≤ (specWindow x y).countP (fun p => decide (p.1 = px ∧ p.2 = py)) := by
    unfold specValues
    rw [List.countP_map]
    apply List.countP_mono_left
    intro p hp hne
    obtain ⟨-, h1, h2, h3, h4⟩ := specWindow_mem x y p hp
    have hd := hdata p.1 p.2 ch h1 (by omega) h3 (by omega) hc0 hc1
    simp only [Function.comp_apply, decide_eq_true_eq] at hne ⊢
    by_contra hnp
    rw [hd, if_neg hnp] at hne
    exact hne rfl
  have h9 := specWindow_count x y px py hx0 (by omega) hy0 (by omega)
  omega

/-- The framebuffer `cornerOutlier` holds `(7, 7, 7)` at every pixel except `(0, 0)`. -/
theorem cornerOutlier_pixels :
    ∀ x y ch : Int, 0 ≤ x → x < 768 → 0 ≤ y → y < 768 → 0 ≤ ch → ch ≤ 2 →
      cornerOutlier (y * 768 * 3 + x * 3 + ch)
        = if x = 0 ∧ y = 0 then channel (255, 255, 255) ch else channel (7, 7, 7) ch := by
  intro x y ch hx0 hx1 hy0 hy1 hc0 hc1
  have hch : ∀ w : Nat, channel (w, w, w) ch = w := by
    intro w
    unfold channel
    split_ifs <;> rfl
  rw [hch, hch]
  unfold cornerOutlier
  by_cases hp : x = 0 ∧ y = 0
  · rw [if_pos hp, if_pos (by omega)]
  · rw [if_neg hp, if_neg (by omega)]

/-- C8, witness: `cornerOutlier`, whose outlier sits in the corner `(0, 0)`, where the
clamping repeats it nine times in the window of `(0, 0)`; the red byte of the corner
pixel after the filter is `7`. -/
theorem C8_MedianFilter_removes_outlier_witness :
    MedianFilter cornerOutlier (0 * 768 * 3 + 0 * 3 + 0) = channel (7, 7, 7) 0 :=
  C8_MedianFilter_removes_outlier cornerOutlier (7, 7, 7) (255, 255, 255) 0 0
    (by decide) cornerOutlier_pixels 0 0 0
    (by decide) (by decide) (by decide) (by decide) (by decide) (by decide)

/-- One application of the filter to a framebuffer whose pixels all hold `u`. -/
theorem MedianFilter_constant_step (data : Buffer) (u : Nat × Nat × Nat)
    (hu : u.1 < 256 ∧ u.2.1 < 256 ∧ u.2.2 < 256)
    (hdata : ∀ x y ch : Int, 0 ≤ x → x < 768 → 0 ≤ y → y < 768 → 0 ≤ ch → ch ≤ 2 →
      data (y * 768 * 3 + x * 3 + ch) = channel u ch) :
    ∀ x y ch : Int, 0 ≤ x → x < 768 → 0 ≤ y → y < 768 → 0 ≤ ch → ch ≤ 2 →
      MedianFilter data (y * 768 * 3 + x * 3 + ch) = channel u ch := by
  intro x y ch hx0 hx1 hy0 hy1 hc0 hc1
  apply MedianFilter_of_majority data x y ch hx0 (by omega) hy0 (by omega) hc0 hc1 _
    (channel_lt u hu ch)
  have hzero : (specValues data ch x y).countP (fun w => decide (w ≠ (channel u ch : Int)))
      = 0 := by
    rw [List.countP_eq_zero]
    intro w hw
    unfold specValues at hw
    rw [List.mem_map] at hw
    obtain ⟨p, hp, rfl⟩ := hw
    obtain ⟨-, h1, h2, h3, h4⟩ := specWindow_mem x y p hp
    have hd := hdata p.1 p.2 ch h1 (by omega) h3 (by omega) hc0 hc1
    simp [hd]
  omega

/-- C9: if all pixels of the framebuffer hold the same RGB triple, the framebuffer after
`n` applications of `MedianFilter` equals the input at every byte of the allocation, for
every `n` (`n = 10` is what `main` runs). -/
theorem C9_MedianFilter_constant (data : Buffer) (u : Nat × Nat × Nat)
    (hu : u.1 < 256 ∧ u.2.1 < 256 ∧ u.2.2 < 256)
    (hdata : ∀ x y ch : Int, 0 ≤ x → x < 768 → 0 ≤ y → y < 768 → 0 ≤ ch → ch ≤ 2 →
      data (y * 768 * 3 + x * 3 + ch) = channel u ch) :
    ∀ (n : Nat) (k : Int), 0 ≤ k → k < nSize → (MedianFilter^[n] data) k = data k := by
  have hiter : ∀ n : Nat, ∀ x y ch : Int, 0 ≤ x → x < 768 → 0 ≤ y → y < 768 → 0 ≤ ch →
      ch ≤ 2 → (MedianFilter^[n] data) (y * 768 * 3 + x * 3 + ch) = channel u ch := by
    intro n
    induction n with
    | zero => exact hdata
    | succ m ih =>
      rw [Function.iterate_succ_apply']
      exact MedianFilter_constant_step _ u hu ih
  intro n k hk0 hk1
  simp only [nSize, WINDOW_WIDTH, WINDOW_HEIGHT] at hk1
  have hk : k = (k / (768 * 3)) * 768 * 3 + (k % (768 * 3) / 3) * 3 + k % 3 := by omega
  rw [hk, hiter n _ _ _ (by omega) (by omega) (by omega) (by omega) (by omega) (by omega),
    hdata _ _ _ (by omega) (by omega) (by omega) (by omega) (by omega) (by omega)]

/-- C9, witness: the framebuffer `uniformSeven`, ten applications, the first byte. -/
theorem C9_MedianFilter_constant_witness :
    (MedianFilter^[10] uniformSeven) 0 = uniformSeven 0 :=
  C9_MedianFilter_constant uniformSeven (7, 7, 7) (by decide)
    (by
      intro x y ch _ _ _ _ _ _
      unfold uniformSeven channel
      split_ifs <;> rfl)
    10 0 (by decide) (by decide)

/-! ## The median filter: memory safety -/

/-- C10: for a pixel `(x, y)` of the 768×768 image the offsets `i`, `j` of the inner loops
are `-2, …, 2`; the coordinates `x2`, `y2` after the four clamping statements lie in
`0..767`, so every offset `y2·768·3 + x2·3 + ch` that `GetColor` reads lies in
`0 ≤ k < nSize`; the three lists are the values read at the 25 pixels of the window, all
inside the allocation; the offsets written to `dst` lie in `0 ≤ k < nSize`; each list
handed to `GetMedian` has 25 entries, so the index `(5·5)/2 = 12` is valid in the sorted
list; and for the pixel `(0, 0)` every negative offset is clamped to row/column `0`. -/
theorem C10_MedianFilter_in_bounds (data : Buffer) (x y : Int) (hx0 : 0 ≤ x)
    (hx1 : x < WINDOW_WIDTH) (hy0 : 0 ≤ y) (hy1 : y < WINDOW_HEIGHT) :
    forRange (Int.tdiv (-MEDIAN) 2) (Int.tdiv MEDIAN 2 + 1) = [-2, -1, 0, 1, 2]
      ∧ (∀ i j : Int, -2 ≤ i → i ≤ 2 → -2 ≤ j → j ≤ 2 →
          0 ≤ (if (if x + i < 0 then 0 else x + i) > WINDOW_WIDTH - 1 then WINDOW_WIDTH - 1
            else (if x + i < 0 then 0 else x + i))
          ∧ (if (if x + i < 0 then 0 else x + i) > WINDOW_WIDTH - 1 then WINDOW_WIDTH - 1
            else (if x + i < 0 then 0 else x + i)) ≤ 767
          ∧ 0 ≤ (if (if y + j < 0 then 0 else y + j) > WINDOW_HEIGHT - 1 then WINDOW_HEIGHT - 1
            else (if y + j < 0 then 0 else y + j))
          ∧ (if (if y + j < 0 then 0 else y + j) > WINDOW_HEIGHT - 1 then WINDOW_HEIGHT - 1
            else (if y + j < 0 then 0 else y + j)) ≤ 767
          ∧ ∀ ch : Int, 0 ≤ ch → ch ≤ 2 →
            0 ≤ (if (if y + j < 0 then 0 else y + j) > WINDOW_HEIGHT - 1 then WINDOW_HEIGHT - 1
            else (if y + j < 0 then 0 else y + j)) * WINDOW_WIDTH * 3
                + (if (if x + i < 0 then 0 else x + i) > WINDOW_WIDTH - 1 then WINDOW_WIDTH - 1
            else (if x + i < 0 then 0 else x + i)) * 3 + ch
            ∧ (if (if y + j < 0 then 0 else y + j) > WINDOW_HEIGHT - 1 then WINDOW_HEIGHT - 1
            else (if y + j < 0 then 0 else y + j)) * WINDOW_WIDTH * 3
                + (if (if x + i < 0 then 0 else x + i) > WINDOW_WIDTH - 1 then WINDOW_WIDTH - 1
            else (if x + i < 0 then 0 else x + i)) * 3 + ch < nSize)
      ∧ gatherLists data x y
          = (specValues data 0 x y, specValues data 1 x y, specValues data 2 x y)
      ∧ (∀ p ∈ specWindow x y, ∀ ch : Int, 0 ≤ ch → ch ≤ 2 →
          0 ≤ p.2 * 768 * 3 + p.1 * 3 + ch ∧ p.2 * 768 * 3 + p.1 * 3 + ch < nSize)
      ∧ (∀ ch : Int, 0 ≤ ch → ch ≤ 2 →
          0 ≤ y * WINDOW_WIDTH * 3 + x * 3 + ch ∧ y * WINDOW_WIDTH * 3 + x * 3 + ch < nSize)
      ∧ (gatherLists data x y).1.length = 25
      ∧ (gatherLists data x y).2.1.length = 25
      ∧ (gatherLists data x y).2.2.length = 25
      ∧ Int.tdiv (MEDIAN * MEDIAN) 2 = 12
      ∧ (Int.tdiv (MEDIAN * MEDIAN) 2).toNat
          < ((gatherLists data x y).1.insertionSort (· ≤ ·)).length
      ∧ (Int.tdiv (MEDIAN * MEDIAN) 2).toNat
          < ((gatherLists data x y).2.1.insertionSort (· ≤ ·)).length
      ∧ (Int.tdiv (MEDIAN * MEDIAN) 2).toNat
          < ((gatherLists data x y).2.2.insertionSort (· ≤ ·)).length
      ∧ (∀ i : Int, -2 ≤ i → i < 0 →
          (if (if 0 + i < 0 then 0 else 0 + i) > WINDOW_WIDTH - 1 then WINDOW_WIDTH - 1
            else (if 0 + i < 0 then 0 else 0 + i)) = 0
          ∧ (if (if 0 + i < 0 then 0 else 0 + i) > WINDOW_HEIGHT - 1 then WINDOW_HEIGHT - 1
            else (if 0 + i < 0 then 0 else 0 + i)) = 0) := by
  have hlen : ∀ ch : Int, (specValues data ch x y).length = 25 :=
    fun ch => specValues_length data ch x y
  have hid : Int.tdiv (MEDIAN * MEDIAN) 2 = 12 := by decide
  simp only [WINDOW_WIDTH, WINDOW_HEIGHT] at hx1 hy1
  refine ⟨forRange_median, ?_, gatherLists_eq data x y, ?_, ?_, ?_, ?_, ?_, hid, ?_, ?_, ?_,
    ?_⟩
  · intro i j hi0 hi1 hj0 hj1
    simp only [WINDOW_WIDTH, WINDOW_HEIGHT, nSize]
    refine ⟨?_, ?_, ?_, ?_, ?_⟩
    · split_ifs <;> omega
    · split_ifs <;> omega
    · split_ifs <;> omega
    · split_ifs <;> omega
    · intro ch hc0 hc1
      constructor <;> split_ifs <;> omega
  · intro p hp ch hc0 hc1
    obtain ⟨-, h1, h2, h3, h4⟩ := specWindow_mem x y p hp
    exact pixel_offset_bounds p.1 p.2 ch h1 h2 h3 h4 hc0 hc1
  · intro ch hc0 hc1
    simp only [WINDOW_WIDTH, WINDOW_HEIGHT, nSize]
    omega
  · rw [gatherLists_eq, hlen]
  · rw [gatherLists_eq, hlen]
  · rw [gatherLists_eq, hlen]
  · rw [hid, List.length_insertionSort, gatherLists_eq, hlen]
    decide
  · rw [hid, List.length_insertionSort, gatherLists_eq, hlen]
    decide
  · rw [hid, List.length_insertionSort, gatherLists_eq, hlen]
    decide
  · intro i hi0 hi1
    simp only [WINDOW_WIDTH, WINDOW_HEIGHT]
    constructor <;> split_ifs <;> omega

/-- C10, witness: the corner pixel `(0, 0)` of the framebuffer after `Create`. -/
theorem C10_MedianFilter_in_bounds_witness :
    forRange (Int.tdiv (-MEDIAN) 2) (Int.tdiv MEDIAN 2 + 1) = [-2, -1, 0, 1, 2]
      ∧ (∀ i j : Int, -2 ≤ i → i ≤ 2 → -2 ≤ j → j ≤ 2 →
          0 ≤ (if (if 0 + i < 0 then 0 else 0 + i) > WINDOW_WIDTH - 1 then WINDOW_WIDTH - 1
            else (if 0 + i < 0 then 0 else 0 + i))
          ∧ (if (if 0 + i < 0 then 0 else 0 + i) > WINDOW_WIDTH - 1 then WINDOW_WIDTH - 1
            else (if 0 + i < 0 then 0 else 0 + i)) ≤ 767
          ∧ 0 ≤ (if (if 0 + j < 0 then 0 else 0 + j) > WINDOW_HEIGHT - 1 then WINDOW_HEIGHT - 1
            else (if 0 + j < 0 then 0 else 0 + j))
          ∧ (if (if 0 + j < 0 then 0 else 0 + j) > WINDOW_HEIGHT - 1 then WINDOW_HEIGHT - 1
            else (if 0 + j < 0 then 0 else 0 + j)) ≤ 767
          ∧ ∀ ch : Int, 0 ≤ ch → ch ≤ 2 →
            0 ≤ (if (if 0 + j < 0 then 0 else 0 + j) > WINDOW_HEIGHT - 1 then WINDOW_HEIGHT - 1
            else (if 0 + j < 0 then 0 else 0 + j)) * WINDOW_WIDTH * 3
                + (if (if 0 + i < 0 then 0 else 0 + i) > WINDOW_WIDTH - 1 then WINDOW_WIDTH - 1
            else (if 0 + i < 0 then 0 else 0 + i)) * 3 + ch
            ∧ (if (if 0 + j < 0 then 0 else 0 + j) > WINDOW_HEIGHT - 1 then WINDOW_HEIGHT - 1
            else (if 0 + j < 0 then 0 else 0 + j)) * WINDOW_WIDTH * 3
                + (if (if 0 + i < 0 then 0 else 0 + i) > WINDOW_WIDTH - 1 then WINDOW_WIDTH - 1
            else (if 0 + i < 0 then 0 else 0 + i)) * 3 + ch < nSize)
      ∧ gatherLists Create 0 0
          = (specValues Create 0 0 0, specValues Create 1 0 0, specValues Create 2 0 0)
      ∧ (∀ p ∈ specWindow 0 0, ∀ ch : Int, 0 ≤ ch → ch ≤ 2 →
          0 ≤ p.2 * 768 * 3 + p.1 * 3 + ch ∧ p.2 * 768 * 3 + p.1 * 3 + ch < nSize)
      ∧ (∀ ch : Int, 0 ≤ ch → ch ≤ 2 →
          0 ≤ 0 * WINDOW_WIDTH * 3 + 0 * 3 + ch ∧ 0 * WINDOW_WIDTH * 3 + 0 * 3 + ch < nSize)
      ∧ (gatherLists Create 0 0).1.length = 25
      ∧ (gatherLists Create 0 0).2.1.length = 25
      ∧ (gatherLists Create 0 0).2.2.length = 25
      ∧ Int.tdiv (MEDIAN * MEDIAN) 2 = 12
      ∧ (Int.tdiv (MEDIAN * MEDIAN) 2).toNat
          < ((gatherLists Create 0 0).1.insertionSort (· ≤ ·)).length
      ∧ (Int.tdiv (MEDIAN * MEDIAN) 2).toNat
          < ((gatherLists Create 0 0).2.1.insertionSort (· ≤ ·)).length
      ∧ (Int.tdiv (MEDIAN * MEDIAN) 2).toNat
          < ((gatherLists Create 0 0).2.2.insertionSort (· ≤ ·)).length
      ∧ (∀ i : Int, -2 ≤ i → i < 0 →
          (if (if 0 + i < 0 then 0 else 0 + i) > WINDOW_WIDTH - 1 then WINDOW_WIDTH - 1
            else (if 0 + i < 0 then 0 else 0 + i)) = 0
          ∧ (if (if 0 + i < 0 then 0 else 0 + i) > WINDOW_HEIGHT - 1 then WINDOW_HEIGHT - 1
            else (if 0 + i < 0 then 0 else 0 + i)) = 0) :=
  C10_MedianFilter_in_bounds Create 0 0 (by decide) (by decide) (by decide) (by decide)

/-! ## Triangle intersection -/

/-- `Triangle::hit`, written with the named quantities. -/
theorem Triangle.triangle_hit_eq (sqrt : ℚ → ℚ) (uninit : Hit) (tri : Triangle) (ray : Ray) :
    tri.hit sqrt uninit ray =
      if |Vec3.dot (tri.v3Normal sqrt) ray.m_v3Dir| < 0 then { uninit with m_bHit := false }
      else if tri.planeT sqrt ray < EPSILON then { uninit with m_bHit := false }
      else if Vec3.dot (Vec3.cross (tri.v2.sub tri.v1) ((tri.planePoint sqrt ray).sub tri.v1))
            (tri.v3Normal sqrt) < 0
          ∨ Vec3.dot (Vec3.cross (tri.v3.sub tri.v2) ((tri.planePoint sqrt ray).sub tri.v2))
            (tri.v3Normal sqrt) < 0
          ∨ Vec3.dot (Vec3.cross (tri.v1.sub tri.v3) ((tri.planePoint sqrt ray).sub tri.v3))
            (tri.v3Normal sqrt) < 0 then { uninit with m_bHit := false }
      else
        { t := tri.planeT sqrt ray, m_bHit := true, m_v3Pos := tri.planePoint sqrt ray,
          m_v3Normal := tri.v3Normal sqrt, m_v3Color := tri.m_v3Color,
          m_bEmissive := tri.m_bEmissive } := rfl

/-- The three edge tests add up to the squared length of the edge cross product. -/
theorem Triangle.edge_tests_sum (tri : Triangle) (p : Vec3) :
    Vec3.dot (Vec3.cross (tri.v2.sub tri.v1) (p.sub tri.v1)) tri.edgeCross
      + Vec3.dot (Vec3.cross (tri.v3.sub tri.v2) (p.sub tri.v2)) tri.edgeCross
      + Vec3.dot (Vec3.cross (tri.v1.sub tri.v3) (p.sub tri.v3)) tri.edgeCross
      = Vec3.dot tri.edgeCross tri.edgeCross := by
  simp only [Triangle.edgeCross, Vec3.dot, Vec3.cross, Vec3.sub]
  ring

/-- A point of the plane of the triangle is the combination of the vertices whose
weights are the three edge tests. -/
theorem Triangle.reconstruct (tri : Triangle) (p : Vec3)
    (hplane : Vec3.dot tri.edgeCross (p.sub tri.v1) = 0) :
    Vec3.smul (Vec3.dot tri.edgeCross tri.edgeCross) p =
      (Vec3.smul
          (Vec3.dot (Vec3.cross (tri.v3.sub tri.v2) (p.sub tri.v2)) tri.edgeCross) tri.v1).add
        ((Vec3.smul
          (Vec3.dot (Vec3.cross (tri.v1.sub tri.v3) (p.sub tri.v3)) tri.edgeCross) tri.v2).add
        (Vec3.smul
          (Vec3.dot (Vec3.cross (tri.v2.sub tri.v1) (p.sub tri.v1)) tri.edgeCross) tri.v3)) := by
  simp only [Triangle.edgeCross, Vec3.dot, Vec3.cross, Vec3.sub, Vec3.smul, Vec3.add,
    Vec3.mk.injEq] at hplane ⊢
  refine ⟨?_, ?_, ?_⟩
  · linear_combination
      ((tri.v2.y - tri.v1.y) * (tri.v3.z - tri.v1.z)
        - (tri.v3.y - tri.v1.y) * (tri.v2.z - tri.v1.z)) * hplane
  · linear_combination
      ((tri.v2.z - tri.v1.z) * (tri.v3.x - tri.v1.x)
        - (tri.v3.z - tri.v1.z) * (tri.v2.x - tri.v1.x)) * hplane
  · linear_combination
      ((tri.v2.x - tri.v1.x) * (tri.v3.y - tri.v1.y)
        - (tri.v3.x - tri.v1.x) * (tri.v2.y - tri.v1.y)) * hplane

/-- The edge tests of a combination of the vertices with weights that add up to `1` are
the weights, scaled by the squared length of the edge cross product. -/
theorem Triangle.edge_tests_of_combination (tri : Triangle) (a b c : ℚ)
    (hsum : a + b + c = 1) :
    Vec3.dot (Vec3.cross (tri.v2.sub tri.v1)
        (((Vec3.smul a tri.v1).add ((Vec3.smul b tri.v2).add (Vec3.smul c tri.v3))).sub tri.v1))
        tri.edgeCross = c * Vec3.dot tri.edgeCross tri.edgeCross
      ∧ Vec3.dot (Vec3.cross (tri.v3.sub tri.v2)
        (((Vec3.smul a tri.v1).add ((Vec3.smul b tri.v2).add (Vec3.smul c tri.v3))).sub tri.v2))
        tri.edgeCross = a * Vec3.dot tri.edgeCross tri.edgeCross
      ∧ Vec3.dot (Vec3.cross (tri.v1.sub tri.v3)
        (((Vec3.smul a tri.v1).add ((Vec3.smul b tri.v2).add (Vec3.smul c tri.v3))).sub tri.v3))
        tri.edgeCross = b * Vec3.dot tri.edgeCross tri.edgeCross := by
  have ha : a = 1 - b - c := by linarith
  subst ha
  simp only [Triangle.edgeCross, Vec3.dot, Vec3.cross, Vec3.sub, Vec3.smul, Vec3.add]
  refine ⟨?_, ?_, ?_⟩ <;> ring

/-- The scalar product with a scaled vector. -/
theorem Vec3.dot_smul_right (k : ℚ) (a b : Vec3) :
    Vec3.dot a (Vec3.smul k b) = k * Vec3.dot a b := by
  simp only [Vec3.dot, Vec3.smul]
  ring

/-- Two vectors with the same components are equal. -/
theorem Vec3.eq_of_components (a b : Vec3) (hx : a.x = b.x) (hy : a.y = b.y)
    (hz : a.z = b.z) : a = b := by
  cases a
  cases b
  simp_all

/-- The scalar product is symmetric. -/
theorem Vec3.dot_comm (a b : Vec3) : Vec3.dot a b = Vec3.dot b a := by
  simp only [Vec3.dot]
  ring

/-- The point of the ray at the parameter `t` lies in the plane of the triangle when the
ray is not parallel to the plane. -/
theorem Triangle.planePoint_in_plane (sqrt : ℚ → ℚ) (tri : Triangle) (ray : Ray)
    (hpar : Vec3.dot ray.m_v3Dir (tri.v3Normal sqrt) ≠ 0) :
    Vec3.dot tri.edgeCross ((tri.planePoint sqrt ray).sub tri.v1) = 0 := by
  have hk : (1 / sqrt (Vec3.dot tri.edgeCross tri.edgeCross)) ≠ 0 := by
    intro h0
    apply hpar
    rw [Triangle.v3Normal, Vec3.normalize, Vec3.dot_smul_right, h0, zero_mul]
  have hn : Vec3.dot (tri.v3Normal sqrt) ((tri.planePoint sqrt ray).sub tri.v1) = 0 := by
    have ht : tri.planeT sqrt ray * Vec3.dot ray.m_v3Dir (tri.v3Normal sqrt)
        = Vec3.dot (tri.v3Normal sqrt) tri.v1
          - Vec3.dot ray.m_v3Pos (tri.v3Normal sqrt) := by
      unfold Triangle.planeT
      exact div_mul_cancel₀ _ hpar
    simp only [Triangle.planePoint, Vec3.dot, Vec3.sub, Vec3.add, Vec3.smul] at ht ⊢
    linear_combination ht
  have hscale : Vec3.dot (tri.v3Normal sqrt) ((tri.planePoint sqrt ray).sub tri.v1)
      = (1 / sqrt (Vec3.dot tri.edgeCross tri.edgeCross))
        * Vec3.dot tri.edgeCross ((tri.planePoint sqrt ray).sub tri.v1) := by
    simp only [Triangle.v3Normal, Vec3.normalize, Vec3.dot, Vec3.smul]
    ring
  rw [hscale] at hn
  rcases mul_eq_zero.mp hn with h | h
  · exact absurd h hk
  · exact h

/-- C11: for a triangle whose edge cross product has a positive length (non-degenerate)
and a ray that is not parallel to its plane and meets the plane at a parameter
`t > EPSILON`, `Triangle::hit` reports a hit exactly when the plane point
`origin + t·dir` is a convex combination of the three vertices (whatever the sign of
`dot(dir, normal)`, that is from either side), and a reported hit carries that point as
`m_v3Pos`. -/
theorem C11_Triangle_hit_inside (sqrt : ℚ → ℚ) (uninit : Hit) (tri : Triangle) (ray : Ray)
    (hs : 0 < sqrt (Vec3.dot tri.edgeCross tri.edgeCross))
    (hpar : Vec3.dot ray.m_v3Dir (tri.v3Normal sqrt) ≠ 0)
    (ht : tri.planeT sqrt ray > EPSILON) :
    ((tri.hit sqrt uninit ray).m_bHit = true ↔ tri.Contains (tri.planePoint sqrt ray))
      ∧ ((tri.hit sqrt uninit ray).m_bHit = true →
          (tri.hit sqrt uninit ray).m_v3Pos = tri.planePoint sqrt ray) := by
  have hk : 0 < 1 / sqrt (Vec3.dot tri.edgeCross tri.edgeCross) := one_div_pos.mpr hs
  have hplane := Triangle.planePoint_in_plane sqrt tri ray hpar
  have hD0 : Vec3.dot tri.edgeCross tri.edgeCross ≠ 0 := by
    intro h0
    apply hpar
    have hx : tri.edgeCross.x = 0 ∧ tri.edgeCross.y = 0 ∧ tri.edgeCross.z = 0 := by
      simp only [Vec3.dot] at h0
      refine ⟨?_, ?_, ?_⟩ <;> nlinarith [sq_nonneg tri.edgeCross.x, sq_nonneg tri.edgeCross.y,
        sq_nonneg tri.edgeCross.z]
    simp only [Triangle.v3Normal, Vec3.normalize, Vec3.dot, Vec3.smul, hx.1, hx.2.1, hx.2.2]
    ring
  have hD : 0 < Vec3.dot tri.edgeCross tri.edgeCross := by
    have hnn : 0 ≤ Vec3.dot tri.edgeCross tri.edgeCross := by
      simp only [Vec3.dot]
      nlinarith [sq_nonneg tri.edgeCross.x, sq_nonneg tri.edgeCross.y,
        sq_nonneg tri.edgeCross.z]
    exact lt_of_le_of_ne hnn (Ne.symm hD0)
  have hsign : ∀ c : Vec3, Vec3.dot c (tri.v3Normal sqrt) < 0 ↔ Vec3.dot c tri.edgeCross < 0 := by
    intro c
    have : Vec3.dot c (tri.v3Normal sqrt)
        = (1 / sqrt (Vec3.dot tri.edgeCross tri.edgeCross)) * Vec3.dot c tri.edgeCross := by
      rw [Triangle.v3Normal, Vec3.normalize, Vec3.dot_smul_right]
    rw [this]
    constructor
    · intro h
      by_contra hge
      exact absurd h (not_lt.mpr (mul_nonneg hk.le (not_lt.mp hge)))
    · intro h
      exact mul_neg_of_pos_of_neg hk h
  have hguard : ¬ |Vec3.dot (tri.v3Normal sqrt) ray.m_v3Dir| < 0 := not_lt.mpr (abs_nonneg _)
  have hteps : ¬ tri.planeT sqrt ray < EPSILON := not_lt.mpr ht.le
  have hiff : ¬ (Vec3.dot (Vec3.cross (tri.v2.sub tri.v1) ((tri.planePoint sqrt ray).sub tri.v1))
            (tri.v3Normal sqrt) < 0
          ∨ Vec3.dot (Vec3.cross (tri.v3.sub tri.v2) ((tri.planePoint sqrt ray).sub tri.v2))
            (tri.v3Normal sqrt) < 0
          ∨ Vec3.dot (Vec3.cross (tri.v1.sub tri.v3) ((tri.planePoint sqrt ray).sub tri.v3))
            (tri.v3Normal sqrt) < 0) ↔ tri.Contains (tri.planePoint sqrt ray) := by
    rw [hsign, hsign, hsign]
    constructor
    · intro hno
      have h1 := not_lt.mp (fun h => hno (Or.inl h))
      have h2 := not_lt.mp (fun h => hno (Or.inr (Or.inl h)))
      have h3 := not_lt.mp (fun h => hno (Or.inr (Or.inr h)))
      have hsum := Triangle.edge_tests_sum tri (tri.planePoint sqrt ray)
      have hrec := Triangle.reconstruct tri (tri.planePoint sqrt ray) hplane
      refine ⟨_ / Vec3.dot tri.edgeCross tri.edgeCross, _ / Vec3.dot tri.edgeCross tri.edgeCross,
        _ / Vec3.dot tri.edgeCross tri.edgeCross, div_nonneg h2 hD.le, div_nonneg h3 hD.le,
        div_nonneg h1 hD.le, ?_, ?_⟩
      · rw [← add_div, ← add_div, div_eq_one_iff_eq hD0]
        linarith
      · simp only [Vec3.smul, Vec3.add, Vec3.mk.injEq] at hrec
        obtain ⟨hx, hy, hz⟩ := hrec
        apply Vec3.eq_of_components
        · simp only [Vec3.smul, Vec3.add]
          field_simp
          linear_combination hx
        · simp only [Vec3.smul, Vec3.add]
          field_simp
          linear_combination hy
        · simp only [Vec3.smul, Vec3.add]
          field_simp
          linear_combination hz
    · rintro ⟨a, b, c, ha, hb, hc, hsum, hp⟩
      obtain ⟨e1, e2, e3⟩ := Triangle.edge_tests_of_combination tri a b c hsum
      rw [hp, e1, e2, e3]
      intro hneg
      rcases hneg with h | h | h
      · exact absurd h (not_lt.mpr (mul_nonneg hc hD.le))
      · exact absurd h (not_lt.mpr (mul_nonneg ha hD.le))
      · exact absurd h (not_lt.mpr (mul_nonneg hb hD.le))
  rw [Triangle.triangle_hit_eq, if_neg hguard, if_neg hteps]
  constructor
  · rw [← hiff]
    constructor
    · intro h hc
      rw [if_pos hc] at h
      simp at h
    · intro h
      rw [if_neg h]
  · intro h
    by_cases hc : (Vec3.dot (Vec3.cross (tri.v2.sub tri.v1) ((tri.planePoint sqrt ray).sub tri.v1))
            (tri.v3Normal sqrt) < 0
          ∨ Vec3.dot (Vec3.cross (tri.v3.sub tri.v2) ((tri.planePoint sqrt ray).sub tri.v2))
            (tri.v3Normal sqrt) < 0
          ∨ Vec3.dot (Vec3.cross (tri.v1.sub tri.v3) ((tri.planePoint sqrt ray).sub tri.v3))
            (tri.v3Normal sqrt) < 0)
    · rw [if_pos hc] at h
      simp at h
    · rw [if_neg hc]

/-- The edge cross product of `pFloor1`. -/
theorem pFloor1_edgeCross : pFloor1.edgeCross = ⟨0, 4, 0⟩ := by
  norm_num [Triangle.edgeCross, Vec3.cross, Vec3.sub, pFloor1]

/-- The squared length of the edge cross product of `pFloor1`. -/
theorem pFloor1_edgeCross_dot : Vec3.dot pFloor1.edgeCross pFloor1.edgeCross = 16 := by
  rw [pFloor1_edgeCross]
  norm_num [Vec3.dot]

/-- The face normal of `pFloor1` points up. -/
theorem pFloor1_normal : pFloor1.v3Normal Qsqrt = ⟨0, 1, 0⟩ := by
  rw [Triangle.v3Normal, Vec3.normalize, pFloor1_edgeCross_dot, Qsqrt_sixteen,
    pFloor1_edgeCross]
  norm_num [Vec3.smul]

/-- C11, witness: the floor triangle `(1,-1,1), (-1,-1,-1), (-1,-1,1)`.  A ray aimed at
the centroid hits at the centroid, from above and from below; a ray whose plane point
is `(1, -1, -1)` does not hit. -/
theorem C11_Triangle_hit_inside_witness :
    (pFloor1.hit Qsqrt Hit.zeroed centroidRayAbove).m_bHit = true
      ∧ (pFloor1.hit Qsqrt Hit.zeroed centroidRayAbove).m_v3Pos = ⟨-1 / 3, -1, 1 / 3⟩
      ∧ (pFloor1.hit Qsqrt Hit.zeroed centroidRayBelow).m_bHit = true
      ∧ (pFloor1.hit Qsqrt Hit.zeroed centroidRayBelow).m_v3Pos = ⟨-1 / 3, -1, 1 / 3⟩
      ∧ ¬ (pFloor1.hit Qsqrt Hit.zeroed outsideRay).m_bHit = true := by
  have hs : 0 < Qsqrt (Vec3.dot pFloor1.edgeCross pFloor1.edgeCross) := by
    rw [pFloor1_edgeCross_dot, Qsqrt_sixteen]
    norm_num
  have hpA : pFloor1.planePoint Qsqrt centroidRayAbove = ⟨-1 / 3, -1, 1 / 3⟩ := by
    simp only [Triangle.planePoint, Triangle.planeT, pFloor1_normal]
    norm_num [Vec3.dot, Vec3.add, Vec3.smul, pFloor1, centroidRayAbove]
  have hpB : pFloor1.planePoint Qsqrt centroidRayBelow = ⟨-1 / 3, -1, 1 / 3⟩ := by
    simp only [Triangle.planePoint, Triangle.planeT, pFloor1_normal]
    norm_num [Vec3.dot, Vec3.add, Vec3.smul, pFloor1, centroidRayBelow]
  have hpO : pFloor1.planePoint Qsqrt outsideRay = ⟨1, -1, -1⟩ := by
    simp only [Triangle.planePoint, Triangle.planeT, pFloor1_normal]
    norm_num [Vec3.dot, Vec3.add, Vec3.smul, pFloor1, outsideRay]
  have hin : pFloor1.Contains ⟨-1 / 3, -1, 1 / 3⟩ :=
    ⟨1 / 3, 1 / 3, 1 / 3, by norm_num, by norm_num, by norm_num, by norm_num,
      by norm_num [Vec3.smul, Vec3.add, pFloor1]⟩
  have hout : ¬ pFloor1.Contains ⟨1, -1, -1⟩ := by
    rintro ⟨a, b, c, ha, hb, hc, hsum, hp⟩
    simp only [Vec3.smul, Vec3.add, pFloor1, Vec3.mk.injEq] at hp
    obtain ⟨hx, -, hz⟩ := hp
    linarith
  have hA := C11_Triangle_hit_inside Qsqrt Hit.zeroed pFloor1 centroidRayAbove hs
    (by rw [pFloor1_normal]; norm_num [Vec3.dot, centroidRayAbove])
    (by simp only [Triangle.planeT, pFloor1_normal]
        norm_num [Vec3.dot, pFloor1, centroidRayAbove, EPSILON])
  have hB := C11_Triangle_hit_inside Qsqrt Hit.zeroed pFloor1 centroidRayBelow hs
    (by rw [pFloor1_normal]; norm_num [Vec3.dot, centroidRayBelow])
    (by simp only [Triangle.planeT, pFloor1_normal]
        norm_num [Vec3.dot, pFloor1, centroidRayBelow, EPSILON])
  have hO := C11_Triangle_hit_inside Qsqrt Hit.zeroed pFloor1 outsideRay hs
    (by rw [pFloor1_normal]; norm_num [Vec3.dot, outsideRay])
    (by simp only [Triangle.planeT, pFloor1_normal]
        norm_num [Vec3.dot, pFloor1, outsideRay, EPSILON])
  rw [hpA] at hA
  rw [hpB] at hB
  rw [hpO] at hO
  exact ⟨hA.1.mpr hin, hA.2 (hA.1.mpr hin), hB.1.mpr hin, hB.2 (hB.1.mpr hin),
    fun h => hout (hO.1.mp h)⟩

/-- The checked method, written with the named quantities. -/
theorem Triangle.hitChecked_eq (sqrt : ℚ → ℚ) (uninit : Hit) (tri : Triangle) (ray : Ray) :
    tri.hitChecked sqrt uninit ray =
      if |Vec3.dot (tri.v3Normal sqrt) ray.m_v3Dir| < 0 then
        some { uninit with m_bHit := false }
      else if Vec3.dot ray.m_v3Dir (tri.v3Normal sqrt) = 0 then none
      else some (tri.hit sqrt uninit ray) := rfl

/-- Where the division is defined, the checked method returns what `Triangle::hit`
returns. -/
theorem Triangle.hitChecked_of_not_parallel (sqrt : ℚ → ℚ) (uninit : Hit) (tri : Triangle)
    (ray : Ray) (hpar : Vec3.dot ray.m_v3Dir (tri.v3Normal sqrt) ≠ 0) :
    tri.hitChecked sqrt uninit ray = some (tri.hit sqrt uninit ray) := by
  have hguard : ¬ |Vec3.dot (tri.v3Normal sqrt) ray.m_v3Dir| < 0 := not_lt.mpr (abs_nonneg _)
  rw [Triangle.hitChecked_eq, if_neg hguard, if_neg hpar]

/-- C12: the parallelism guard `fabs(dot(v3Normal, dir)) < 0.0f` of `Triangle::hit` is
false for every triangle and every ray, so whenever `dot(dir, v3Normal) = 0` the method
goes on to the division and evaluates it with the denominator `0`; for the floor
triangle and a ray along `+x` the denominator is `0` and the division is evaluated. -/
theorem C12_Triangle_guard_inert (uninit : Hit) :
    (∀ (sqrt : ℚ → ℚ) (tri : Triangle) (ray : Ray),
        ¬ |Vec3.dot (tri.v3Normal sqrt) ray.m_v3Dir| < 0)
      ∧ (∀ (sqrt : ℚ → ℚ) (tri : Triangle) (ray : Ray),
          Vec3.dot ray.m_v3Dir (tri.v3Normal sqrt) = 0 →
          tri.hitChecked sqrt uninit ray = none)
      ∧ Vec3.dot parallelRay.m_v3Dir (pFloor1.v3Normal Qsqrt) = 0
      ∧ pFloor1.hitChecked Qsqrt uninit parallelRay = none := by
  have hguard : ∀ (sqrt : ℚ → ℚ) (tri : Triangle) (ray : Ray),
      ¬ |Vec3.dot (tri.v3Normal sqrt) ray.m_v3Dir| < 0 :=
    fun _ _ _ => not_lt.mpr (abs_nonneg _)
  have hnone : ∀ (sqrt : ℚ → ℚ) (tri : Triangle) (ray : Ray),
      Vec3.dot ray.m_v3Dir (tri.v3Normal sqrt) = 0 →
      tri.hitChecked sqrt uninit ray = none := by
    intro sqrt tri ray h0
    rw [Triangle.hitChecked_eq, if_neg (hguard sqrt tri ray), if_pos h0]
  have hzero : Vec3.dot parallelRay.m_v3Dir (pFloor1.v3Normal Qsqrt) = 0 := by
    rw [pFloor1_normal]
    norm_num [Vec3.dot, parallelRay]
  exact ⟨hguard, hnone, hzero, hnone Qsqrt pFloor1 parallelRay hzero⟩

/-! ## Unit normals -/

/-- `Sphere::hit`, written with the named quantities. -/
theorem Sphere.sphere_hit_eq (sqrt : ℚ → ℚ) (uninit : Hit) (s : Sphere) (ray : Ray) :
    s.hit sqrt uninit ray =
      if s.discriminant ray > 0 then
        if s.t1 sqrt ray > EPSILON ∨ s.t2 sqrt ray > EPSILON then
          { t := if s.t1 sqrt ray < s.t2 sqrt ray then s.t1 sqrt ray else s.t2 sqrt ray,
            m_bHit := true,
            m_v3Pos := ray.m_v3Pos.add
              (Vec3.smul (if s.t1 sqrt ray < s.t2 sqrt ray then s.t1 sqrt ray
                else s.t2 sqrt ray) ray.m_v3Dir),
            m_v3Normal := Vec3.normalize sqrt
              ((ray.m_v3Pos.add
                (Vec3.smul (if s.t1 sqrt ray < s.t2 sqrt ray then s.t1 sqrt ray
                  else s.t2 sqrt ray) ray.m_v3Dir)).sub s.m_v3Center),
            m_v3Color := s.m_v3Color, m_bEmissive := s.m_bEmissive }
        else { uninit with m_bHit := false }
      else { uninit with m_bHit := false } := rfl

/-- The squared length of a vector is not negative. -/
theorem Vec3.dot_self_nonneg (a : Vec3) : 0 ≤ Vec3.dot a a := by
  simp only [Vec3.dot]
  nlinarith [sq_nonneg a.x, sq_nonneg a.y, sq_nonneg a.z]

/-- A vector of squared length `0` is the zero vector. -/
theorem Vec3.eq_zero_of_dot_self (a : Vec3) (h : Vec3.dot a a = 0) : a = Vec3.zero := by
  simp only [Vec3.dot] at h
  apply Vec3.eq_of_components <;> simp only [Vec3.zero] <;>
    nlinarith [sq_nonneg a.x, sq_nonneg a.y, sq_nonneg a.z]

/-- The inequality of Cauchy and Schwarz. -/
theorem Vec3.dot_mul_dot_le (a b : Vec3) :
    Vec3.dot a b * Vec3.dot a b ≤ Vec3.dot a a * Vec3.dot b b := by
  have h := Vec3.dot_self_nonneg (Vec3.cross a b)
  simp only [Vec3.dot, Vec3.cross] at h ⊢
  nlinarith [h]

/-- The normalised vector has length `1` when the square root is exact at the squared
length of the vector and that squared length is not `0`. -/
theorem Vec3.normalize_unit (sqrt : ℚ → ℚ) (v : Vec3) (h0 : Vec3.dot v v ≠ 0)
    (hs : sqrt (Vec3.dot v v) * sqrt (Vec3.dot v v) = Vec3.dot v v) :
    Vec3.dot (Vec3.normalize sqrt v) (Vec3.normalize sqrt v) = 1 := by
  have hne : sqrt (Vec3.dot v v) ≠ 0 := by
    intro h
    rw [h, mul_zero] at hs
    exact h0 hs.symm
  have hscale : Vec3.dot (Vec3.normalize sqrt v) (Vec3.normalize sqrt v)
      = Vec3.dot v v / (sqrt (Vec3.dot v v) * sqrt (Vec3.dot v v)) := by
    unfold Vec3.normalize
    generalize sqrt (Vec3.dot v v) = r at hne
    simp only [Vec3.dot, Vec3.smul]
    field_simp
  rw [hscale, hs, div_self h0]

/-- A point of the ray whose parameter is a root of the quadratic of `Sphere::hit`
lies on the sphere: its squared distance from the centre is the squared radius. -/
theorem root_point_on_sphere (o c d : Vec3) (r t σ : ℚ) (ha : Vec3.dot d d ≠ 0)
    (hσ : σ * σ = Vec3.dot (o.sub c) d * Vec3.dot (o.sub c) d
      - Vec3.dot d d * (Vec3.dot (o.sub c) (o.sub c) - r * r))
    (ht : t * Vec3.dot d d = -Vec3.dot (o.sub c) d - σ
      ∨ t * Vec3.dot d d = -Vec3.dot (o.sub c) d + σ) :
    Vec3.dot ((o.add (Vec3.smul t d)).sub c) ((o.add (Vec3.smul t d)).sub c) = r * r := by
  apply mul_left_cancel₀ ha
  simp only [Vec3.dot, Vec3.sub, Vec3.add, Vec3.smul] at hσ ht ⊢
  rcases ht with ht | ht
  · linear_combination
      (t * (d.x * d.x + d.y * d.y + d.z * d.z) + (-((o.x - c.x) * d.x + (o.y - c.y) * d.y + (o.z - c.z) * d.z) - σ) + 2 * ((o.x - c.x) * d.x + (o.y - c.y) * d.y + (o.z - c.z) * d.z)) * ht + hσ
  · linear_combination
      (t * (d.x * d.x + d.y * d.y + d.z * d.z) + (-((o.x - c.x) * d.x + (o.y - c.y) * d.y + (o.z - c.z) * d.z) + σ) + 2 * ((o.x - c.x) * d.x + (o.y - c.y) * d.y + (o.z - c.z) * d.z)) * ht + hσ

/-- A sphere that reports a hit has a ray direction of positive squared length and a
radius that is not `0`. -/
theorem Sphere.hit_nondegenerate (sqrt : ℚ → ℚ) (uninit : Hit) (s : Sphere) (ray : Ray)
    (hhit : (s.hit sqrt uninit ray).m_bHit = true) :
    0 < s.discriminant ray ∧ 0 < Vec3.dot ray.m_v3Dir ray.m_v3Dir ∧ s.m_fRadius ≠ 0 := by
  have hdisc : 0 < s.discriminant ray := by
    by_contra hn
    rw [Sphere.sphere_hit_eq, if_neg hn] at hhit
    simp at hhit
  have hcs := Vec3.dot_mul_dot_le (ray.m_v3Pos.sub s.m_v3Center) ray.m_v3Dir
  have ha0 := Vec3.dot_self_nonneg ray.m_v3Dir
  have hr0 : 0 ≤ s.m_fRadius * s.m_fRadius := mul_self_nonneg _
  unfold Sphere.discriminant at hdisc
  have har : 0 < Vec3.dot ray.m_v3Dir ray.m_v3Dir * (s.m_fRadius * s.m_fRadius) := by
    nlinarith
  refine ⟨by unfold Sphere.discriminant; exact hdisc, ?_, ?_⟩
  · rcases ha0.lt_or_eq with h | h
    · exact h
    · rw [← h, zero_mul] at har
      exact absurd har (lt_irrefl 0)
  · intro hr
    rw [hr, mul_zero, mul_zero] at har
    exact absurd har (lt_irrefl 0)

/-- The position of a hit a sphere reports lies on the sphere, when the square root is
exact at the discriminant. -/
theorem Sphere.hit_on_surface (sqrt : ℚ → ℚ) (uninit : Hit) (s : Sphere) (ray : Ray)
    (hhit : (s.hit sqrt uninit ray).m_bHit = true)
    (hs : sqrt (s.discriminant ray) * sqrt (s.discriminant ray) = s.discriminant ray) :
    Vec3.dot ((s.hit sqrt uninit ray).m_v3Pos.sub s.m_v3Center)
        ((s.hit sqrt uninit ray).m_v3Pos.sub s.m_v3Center) = s.m_fRadius * s.m_fRadius
      ∧ (s.hit sqrt uninit ray).m_v3Normal
        = Vec3.normalize sqrt ((s.hit sqrt uninit ray).m_v3Pos.sub s.m_v3Center) := by
  obtain ⟨hdisc, ha, -⟩ := Sphere.hit_nondegenerate sqrt uninit s ray hhit
  have hroots : s.t1 sqrt ray > EPSILON ∨ s.t2 sqrt ray > EPSILON := by
    by_contra hn
    rw [Sphere.sphere_hit_eq, if_pos hdisc, if_neg hn] at hhit
    simp at hhit
  have h1 : s.t1 sqrt ray * Vec3.dot ray.m_v3Dir ray.m_v3Dir
      = -Vec3.dot (ray.m_v3Pos.sub s.m_v3Center) ray.m_v3Dir - sqrt (s.discriminant ray) := by
    unfold Sphere.t1
    exact div_mul_cancel₀ _ ha.ne'
  have h2 : s.t2 sqrt ray * Vec3.dot ray.m_v3Dir ray.m_v3Dir
      = -Vec3.dot (ray.m_v3Pos.sub s.m_v3Center) ray.m_v3Dir + sqrt (s.discriminant ray) := by
    unfold Sphere.t2
    exact div_mul_cancel₀ _ ha.ne'
  have ht : (if s.t1 sqrt ray < s.t2 sqrt ray then s.t1 sqrt ray else s.t2 sqrt ray)
        * Vec3.dot ray.m_v3Dir ray.m_v3Dir
        = -Vec3.dot (ray.m_v3Pos.sub s.m_v3Center) ray.m_v3Dir - sqrt (s.discriminant ray)
      ∨ (if s.t1 sqrt ray < s.t2 sqrt ray then s.t1 sqrt ray else s.t2 sqrt ray)
        * Vec3.dot ray.m_v3Dir ray.m_v3Dir
        = -Vec3.dot (ray.m_v3Pos.sub s.m_v3Center) ray.m_v3Dir + sqrt (s.discriminant ray) := by
    split_ifs
    · exact Or.inl h1
    · exact Or.inr h2
  rw [Sphere.sphere_hit_eq, if_pos hdisc, if_pos hroots]
  exact ⟨root_point_on_sphere ray.m_v3Pos s.m_v3Center ray.m_v3Dir s.m_fRadius _
    (sqrt (s.discriminant ray)) ha.ne' hs ht, rfl⟩

/-- The normal of a hit a triangle reports is the local `v3Normal`. -/
theorem Triangle.hit_normal (sqrt : ℚ → ℚ) (uninit : Hit) (tri : Triangle) (ray : Ray)
    (hhit : (tri.hit sqrt uninit ray).m_bHit = true) :
    (tri.hit sqrt uninit ray).m_v3Normal = tri.v3Normal sqrt := by
  rw [Triangle.triangle_hit_eq] at hhit ⊢
  split_ifs at hhit ⊢
  rfl

/-- C13: whenever `hit()` reports `m_bHit = true`, the returned `m_v3Normal` has length
`1`, provided the square root is exact at the numbers the call takes the root of and, for
a triangle, the edge cross product is not the zero vector.  For a sphere the reported
position then lies on the surface, and a reported hit implies that the radius is not `0`
and the direction is not the zero vector. -/
theorem C13_hit_normal_unit (sqrt : ℚ → ℚ) (uninit : Hit) (o : Object) (ray : Ray)
    (hhit : (o.hit sqrt uninit ray).m_bHit = true)
    (hexact : ∀ q ∈ o.radicands ray, sqrt q * sqrt q = q)
    (hnd : ∀ tri : Triangle, o = .triangle tri → tri.edgeCross ≠ Vec3.zero) :
    Vec3.dot (o.hit sqrt uninit ray).m_v3Normal (o.hit sqrt uninit ray).m_v3Normal = 1
      ∧ ∀ s : Sphere, o = .sphere s →
          Vec3.dot ((o.hit sqrt uninit ray).m_v3Pos.sub s.m_v3Center)
              ((o.hit sqrt uninit ray).m_v3Pos.sub s.m_v3Center) = s.m_fRadius * s.m_fRadius
            ∧ s.m_fRadius ≠ 0 ∧ ray.m_v3Dir ≠ Vec3.zero := by
  cases o with
  | sphere s =>
    simp only [Object.hit] at hhit ⊢
    have hd : sqrt (s.discriminant ray) * sqrt (s.discriminant ray) = s.discriminant ray :=
      hexact _ (by simp [Object.radicands])
    have hr : sqrt (s.m_fRadius * s.m_fRadius) * sqrt (s.m_fRadius * s.m_fRadius)
        = s.m_fRadius * s.m_fRadius := hexact _ (by simp [Object.radicands])
    obtain ⟨-, ha, hr0⟩ := Sphere.hit_nondegenerate sqrt uninit s ray hhit
    obtain ⟨hsurf, hnormal⟩ := Sphere.hit_on_surface sqrt uninit s ray hhit hd
    have hdir : ray.m_v3Dir ≠ Vec3.zero := by
      intro h0
      rw [h0] at ha
      simp [Vec3.dot, Vec3.zero] at ha
    refine ⟨?_, ?_⟩
    · rw [hnormal]
      apply Vec3.normalize_unit
      · rw [hsurf]
        exact mul_self_ne_zero.mpr hr0
      · rw [hsurf]
        exact hr
    · intro s' hs'
      cases hs'
      exact ⟨hsurf, hr0, hdir⟩
  | triangle tri =>
    simp only [Object.hit] at hhit ⊢
    have hD : sqrt (Vec3.dot tri.edgeCross tri.edgeCross)
        * sqrt (Vec3.dot tri.edgeCross tri.edgeCross)
        = Vec3.dot tri.edgeCross tri.edgeCross := hexact _ (by simp [Object.radicands])
    have hne : Vec3.dot tri.edgeCross tri.edgeCross ≠ 0 :=
      fun h0 => hnd tri rfl (Vec3.eq_zero_of_dot_self _ h0)
    refine ⟨?_, ?_⟩
    · rw [Triangle.hit_normal sqrt uninit tri ray hhit, Triangle.v3Normal]
      exact Vec3.normalize_unit sqrt _ hne hD
    · intro s hs
      cases hs

/-- C13, witness: `unitSphere` and `eyeRay`; the discriminant and the squared radius
are both `1`. -/
theorem C13_hit_normal_unit_witness :
    Vec3.dot ((Object.sphere unitSphere).hit Qsqrt Hit.zeroed eyeRay).m_v3Normal
        ((Object.sphere unitSphere).hit Qsqrt Hit.zeroed eyeRay).m_v3Normal = 1
      ∧ ∀ s : Sphere, Object.sphere unitSphere = .sphere s →
          Vec3.dot (((Object.sphere unitSphere).hit Qsqrt Hit.zeroed eyeRay).m_v3Pos.sub
                s.m_v3Center)
              (((Object.sphere unitSphere).hit Qsqrt Hit.zeroed eyeRay).m_v3Pos.sub
                s.m_v3Center) = s.m_fRadius * s.m_fRadius
            ∧ s.m_fRadius ≠ 0 ∧ eyeRay.m_v3Dir ≠ Vec3.zero :=
  C13_hit_normal_unit Qsqrt Hit.zeroed (.sphere unitSphere) eyeRay
    (by simp only [Object.hit, unitSphere_eyeRay_hit])
    (by
      have hd : unitSphere.discriminant eyeRay = 1 := by
        norm_num [Sphere.discriminant, Vec3.dot, Vec3.sub, unitSphere, eyeRay]
      have hr : unitSphere.m_fRadius * unitSphere.m_fRadius = 1 := by
        norm_num [unitSphere]
      intro q hq
      simp only [Object.radicands, hd, hr, List.mem_cons, List.mem_singleton,
        List.not_mem_nil, or_false, or_self] at hq
      rw [hq, Qsqrt_one]
      norm_num)
    (by
      intro tri h
      cases h)

/-! ## Termination of the path integrator -/

/-- The body of `PathTraceCalls`, one unfolding of the recursion. -/
theorem PathTraceCalls_unfold (sqrt : ℚ → ℚ) (uninit : Hit) (objects : List Object)
    (rnd : Nat → Vec3) (ray : Ray) (nDepth : Int) :
    PathTraceCalls sqrt uninit objects rnd ray nDepth =
      if nDepth > nMaxDepth then 0
      else if (nearestHit sqrt uninit objects ray).m_bHit = false then 0
      else if (nearestHit sqrt uninit objects ray).m_bEmissive = true then 0
      else if Vec3.dot ray.m_v3Dir.neg (nearestHit sqrt uninit objects ray).m_v3Normal ≤ 0 then
        0
      else
        1 + PathTraceCalls sqrt uninit objects (fun n => rnd (n + 1))
            { m_v3Pos := (nearestHit sqrt uninit objects ray).m_v3Pos.add
                (Vec3.smul (1 / 1000) (nearestHit sqrt uninit objects ray).m_v3Normal),
              m_v3Dir := RandomDirection sqrt (rnd 0)
                (nearestHit sqrt uninit objects ray).m_v3Normal }
            (nDepth + 1) := by
  rw [PathTraceCalls]
  simp only [dite_eq_ite]

/-- The number of nested recursive calls is at most `nMaxDepth + 1 - nDepth`. -/
theorem PathTraceCalls_le (sqrt : ℚ → ℚ) (uninit : Hit) (objects : List Object) (m : Nat) :
    ∀ (rnd : Nat → Vec3) (ray : Ray) (nDepth : Int), (nMaxDepth + 1 - nDepth).toNat = m →
      PathTraceCalls sqrt uninit objects rnd ray nDepth ≤ m := by
  induction m with
  | zero =>
    intro rnd ray nDepth hm
    have hgt : nDepth > nMaxDepth := by
      simp only [nMaxDepth] at hm ⊢
      omega
    rw [PathTraceCalls_unfold, if_pos hgt]
  | succ k ih =>
    intro rnd ray nDepth hm
    have hle : ¬ nDepth > nMaxDepth := by
      simp only [nMaxDepth] at hm ⊢
      omega
    rw [PathTraceCalls_unfold, if_neg hle]
    split_ifs
    · exact Nat.zero_le _
    · exact Nat.zero_le _
    · exact Nat.zero_le _
    · have hnext : (nMaxDepth + 1 - (nDepth + 1)).toNat = k := by
        simp only [nMaxDepth] at hm ⊢
        omega
      have := ih (fun n => rnd (n + 1))
        { m_v3Pos := (nearestHit sqrt uninit objects ray).m_v3Pos.add
            (Vec3.smul (1 / 1000) (nearestHit sqrt uninit objects ray).m_v3Normal),
          m_v3Dir := RandomDirection sqrt (rnd 0)
            (nearestHit sqrt uninit objects ray).m_v3Normal }
        (nDepth + 1) hnext
      omega

/-- C14: `PathTrace` is a total function (its recursion descends along the measure
`nMaxDepth + 1 - nDepth`); a call with `nDepth > nMaxDepth` returns the zero vector for
every scene, ray and random stream and makes no recursive call; a call that recurses
makes its recursive call with `nDepth + 1`; and a call leads to at most
`nMaxDepth + 1 - nDepth` nested recursive calls, that is at most `6 - d` at a depth
`d ≤ 5`. -/
theorem C14_PathTrace_depth_bounded (sqrt : ℚ → ℚ) (uninit : Hit) (objects : List Object)
    (rnd : Nat → Vec3) (ray : Ray) (nDepth : Int) :
    (nDepth > nMaxDepth →
        (∀ (objects' : List Object) (rnd' : Nat → Vec3) (ray' : Ray),
          PathTrace sqrt uninit objects' rnd' ray' nDepth = Vec3.zero
            ∧ PathTraceCalls sqrt uninit objects' rnd' ray' nDepth = 0))
      ∧ (PathTraceCalls sqrt uninit objects rnd ray nDepth ≠ 0 →
          PathTraceCalls sqrt uninit objects rnd ray nDepth
            = 1 + PathTraceCalls sqrt uninit objects (fun n => rnd (n + 1))
                { m_v3Pos := (nearestHit sqrt uninit objects ray).m_v3Pos.add
                    (Vec3.smul (1 / 1000) (nearestHit sqrt uninit objects ray).m_v3Normal),
                  m_v3Dir := RandomDirection sqrt (rnd 0)
                    (nearestHit sqrt uninit objects ray).m_v3Normal }
                (nDepth + 1)
          ∧ (nMaxDepth + 1 - (nDepth + 1)).toNat < (nMaxDepth + 1 - nDepth).toNat)
      ∧ PathTraceCalls sqrt uninit objects rnd ray nDepth ≤ (nMaxDepth + 1 - nDepth).toNat
      ∧ (nDepth ≤ 5 → (PathTraceCalls sqrt uninit objects rnd ray nDepth : Int) ≤ 6 - nDepth) := by
  have hbound := PathTraceCalls_le sqrt uninit objects _ rnd ray nDepth rfl
  refine ⟨?_, ?_, hbound, ?_⟩
  · intro hgt objects' rnd' ray'
    rw [PathTrace_unfold, PathTraceCalls_unfold, if_pos hgt, if_pos hgt]
    exact ⟨rfl, rfl⟩
  · intro hne
    rw [PathTraceCalls_unfold] at hne ⊢
    split_ifs at hne ⊢ with h1 h2 h3 h4
    · exact absurd rfl hne
    · exact absurd rfl hne
    · exact absurd rfl hne
    · exact absurd rfl hne
    · refine ⟨rfl, ?_⟩
      simp only [nMaxDepth] at h1 ⊢
      omega
  · intro hd
    simp only [nMaxDepth] at hbound
    omega

/-! ## Sphere: the head-on ray -/

/-- C15: for a sphere centred at the coordinate origin with radius `r > 0` and a ray
origin `O` at distance `d = |O|` with `d - r > EPSILON`, the ray from `O` with the unit
direction `-O/d` is reported as a hit with `t = d - r`, at the position `(r/d)·O`, and not
with the far root `d + r`; the square root is taken to be exact at the discriminant
`r·r`. -/
theorem C15_sphere_head_on (sqrt : ℚ → ℚ) (uninit : Hit) (s : Sphere) (O : Vec3) (d : ℚ)
    (hc : s.m_v3Center = ⟨0, 0, 0⟩) (hr : 0 < s.m_fRadius)
    (hd : 0 < d) (hd2 : d * d = Vec3.dot O O)
    (hfar : d - s.m_fRadius > EPSILON)
    (hsq : 0 ≤ sqrt (s.m_fRadius * s.m_fRadius)
      ∧ sqrt (s.m_fRadius * s.m_fRadius) * sqrt (s.m_fRadius * s.m_fRadius)
        = s.m_fRadius * s.m_fRadius) :
    (s.hit sqrt uninit { m_v3Pos := O, m_v3Dir := Vec3.smul (-1 / d) O }).m_bHit = true
      ∧ (s.hit sqrt uninit { m_v3Pos := O, m_v3Dir := Vec3.smul (-1 / d) O }).t
          = d - s.m_fRadius
      ∧ (s.hit sqrt uninit { m_v3Pos := O, m_v3Dir := Vec3.smul (-1 / d) O }).m_v3Pos
          = Vec3.smul (s.m_fRadius / d) O
      ∧ (s.hit sqrt uninit { m_v3Pos := O, m_v3Dir := Vec3.smul (-1 / d) O }).t
          ≠ d + s.m_fRadius := by
  have hdne : d ≠ 0 := hd.ne'
  have hoc : O.sub s.m_v3Center = O := by
    rw [hc]
    apply Vec3.eq_of_components <;> simp [Vec3.sub]
  have ha : Vec3.dot (Vec3.smul (-1 / d) O) (Vec3.smul (-1 / d) O) = 1 := by
    have : Vec3.dot (Vec3.smul (-1 / d) O) (Vec3.smul (-1 / d) O)
        = Vec3.dot O O / (d * d) := by
      simp only [Vec3.dot, Vec3.smul]
      field_simp
    rw [this, ← hd2, div_self (mul_ne_zero hdne hdne)]
  have hb : Vec3.dot O (Vec3.smul (-1 / d) O) = -d := by
    rw [Vec3.dot_smul_right, ← hd2]
    field_simp
  have hdisc : s.discriminant { m_v3Pos := O, m_v3Dir := Vec3.smul (-1 / d) O }
      = s.m_fRadius * s.m_fRadius := by
    unfold Sphere.discriminant
    simp only [hoc, ha, hb, ← hd2]
    ring
  have hroot : sqrt (s.m_fRadius * s.m_fRadius) = s.m_fRadius := by
    have hsq' : (sqrt (s.m_fRadius * s.m_fRadius) - s.m_fRadius)
        * (sqrt (s.m_fRadius * s.m_fRadius) + s.m_fRadius) = 0 := by
      linear_combination hsq.2
    rcases mul_eq_zero.mp hsq' with h | h
    · linarith
    · linarith [hsq.1]
  have ht1 : s.t1 sqrt { m_v3Pos := O, m_v3Dir := Vec3.smul (-1 / d) O }
      = d - s.m_fRadius := by
    unfold Sphere.t1
    simp only [hdisc, hroot, hoc, ha, hb]
    ring
  have ht2 : s.t2 sqrt { m_v3Pos := O, m_v3Dir := Vec3.smul (-1 / d) O }
      = d + s.m_fRadius := by
    unfold Sphere.t2
    simp only [hdisc, hroot, hoc, ha, hb]
    ring
  have hpos : 0 < s.discriminant { m_v3Pos := O, m_v3Dir := Vec3.smul (-1 / d) O } := by
    rw [hdisc]
    exact mul_pos hr hr
  have hlt : d - s.m_fRadius < d + s.m_fRadius := by linarith
  rw [Sphere.sphere_hit_eq, if_pos hpos, ht1, ht2, if_pos (Or.inl hfar), if_pos hlt]
  refine ⟨rfl, rfl, ?_, ?_⟩
  · apply Vec3.eq_of_components <;> simp only [Vec3.add, Vec3.smul] <;> field_simp <;> ring
  · simp only
    linarith

/-- C15, witness: `unitSphere` and the ray origin `(0, 0, 5)`: `d = 5`, `r = 1`, and the
hit is reported with `t = 4`. -/
theorem C15_sphere_head_on_witness :
    (unitSphere.hit Qsqrt Hit.zeroed
        { m_v3Pos := ⟨0, 0, 5⟩, m_v3Dir := Vec3.smul (-1 / 5) ⟨0, 0, 5⟩ }).m_bHit = true
      ∧ (unitSphere.hit Qsqrt Hit.zeroed
          { m_v3Pos := ⟨0, 0, 5⟩, m_v3Dir := Vec3.smul (-1 / 5) ⟨0, 0, 5⟩ }).t
          = 5 - unitSphere.m_fRadius
      ∧ (unitSphere.hit Qsqrt Hit.zeroed
          { m_v3Pos := ⟨0, 0, 5⟩, m_v3Dir := Vec3.smul (-1 / 5) ⟨0, 0, 5⟩ }).m_v3Pos
          = Vec3.smul (unitSphere.m_fRadius / 5) ⟨0, 0, 5⟩
      ∧ (unitSphere.hit Qsqrt Hit.zeroed
          { m_v3Pos := ⟨0, 0, 5⟩, m_v3Dir := Vec3.smul (-1 / 5) ⟨0, 0, 5⟩ }).t
          ≠ 5 + unitSphere.m_fRadius :=
  C15_sphere_head_on Qsqrt Hit.zeroed unitSphere ⟨0, 0, 5⟩ 5 rfl
    (by norm_num [unitSphere]) (by norm_num) (by norm_num [Vec3.dot])
    (by norm_num [unitSphere, EPSILON])
    (by
      have h1 : unitSphere.m_fRadius * unitSphere.m_fRadius = 1 := by norm_num [unitSphere]
      rw [h1, Qsqrt_one]
      norm_num)

/-! ## Accumulation: one channel, one pass -/

/-- The conversion of a non-negative `float` to an integer is its floor. -/
theorem floatToInt_of_nonneg (q : ℚ) (hq : 0 ≤ q) : floatToInt q = ⌊q⌋ := by
  unfold floatToInt
  rw [Rat.floor_def, Int.tdiv_eq_ediv (Rat.num_nonneg.mpr hq) (by exact_mod_cast Nat.zero_le _)]

/-- The byte `AddColor` stores for the channel `ch` of the pixel `(x, y)`. -/
theorem AddColor_channel (data : Buffer) (x y ch : Int) (v3Color : Vec3) (hc0 : 0 ≤ ch)
    (hc1 : ch ≤ 2) :
    AddColor data x y v3Color (y * WINDOW_WIDTH * 3 + x * 3 + ch)
      = toUInt8 (clamp ((data (y * WINDOW_WIDTH * 3 + x * 3 + ch) : Int)
          + (toUInt8 (floatToInt (v3Color.channel ch * 255)) : Int)) 0 255) := by
  obtain ⟨h0, h1, h2⟩ := AddColor_apply data x y v3Color
  have hcases : ch = 0 ∨ ch = 1 ∨ ch = 2 := by omega
  rcases hcases with rfl | rfl | rfl
  · rw [h0]
    simp [Vec3.channel]
  · rw [h1]
    simp [Vec3.channel]
  · rw [h2]
    simp [Vec3.channel]

/-- `AddColor` leaves the cells of the other pixels, and the cells outside the
allocation, as they are. -/
theorem AddColor_other (data : Buffer) (x y : Int) (v3Color : Vec3) (k : Int)
    (hk : k ≠ y * WINDOW_WIDTH * 3 + x * 3 + 0 ∧ k ≠ y * WINDOW_WIDTH * 3 + x * 3 + 1
      ∧ k ≠ y * WINDOW_WIDTH * 3 + x * 3 + 2) :
    AddColor data x y v3Color k = data k := by
  have hx : x + 0 = x := add_zero x
  have hy : y + 0 = y := add_zero y
  unfold AddColor
  simp only [GetColor, hx, hy]
  rw [Function.update_noteq hk.2.2, Function.update_noteq hk.2.1, Function.update_noteq hk.1]

/-- A stored byte does not change when the increment is `0`. -/
theorem toUInt8_clamp_add_zero (old : Nat) (h : old < 256) :
    toUInt8 (clamp ((old : Int) + ((0 : Nat) : Int)) 0 255) = old := by
  unfold toUInt8 clamp
  omega

/-- A loop leaves a cell alone when none of its iterations changes the cell. -/
theorem foldl_untouched {α : Type} (step : Buffer → α → Buffer) (l : List α) (k : Int)
    (h : ∀ a ∈ l, ∀ dst : Buffer, step dst a k = dst k) (dst : Buffer) :
    l.foldl step dst k = dst k := by
  induction l generalizing dst with
  | nil => rfl
  | cons a rest ih =>
    rw [List.foldl_cons, ih (fun b hb => h b (List.mem_cons_of_mem _ hb)),
      h a (List.mem_cons_self _ _)]

/-- A loop over distinct values in which only the iteration `a0` changes the cell `k`,
and changes it to a function `f` of its old contents, applies `f` once. -/
theorem foldl_update_once {α : Type} (step : Buffer → α → Buffer) (l : List α)
    (hnd : l.Nodup) (k : Int) (a0 : α) (f : Nat → Nat)
    (hother : ∀ a ∈ l, a ≠ a0 → ∀ dst : Buffer, step dst a k = dst k)
    (hown : ∀ dst : Buffer, step dst a0 k = f (dst k)) (ha0 : a0 ∈ l) (dst : Buffer) :
    l.foldl step dst k = f (dst k) := by
  induction l generalizing dst with
  | nil => simp at ha0
  | cons a rest ih =>
    rw [List.foldl_cons]
    obtain ⟨hnotin, hnd'⟩ := List.nodup_cons.mp hnd
    by_cases haa : a = a0
    · subst haa
      rw [foldl_untouched step rest k
        (fun b hb => hother b (List.mem_cons_of_mem _ hb) (fun hba => hnotin (hba ▸ hb)))]
      exact hown dst
    · have hin : a0 ∈ rest := by
        rcases List.mem_cons.mp ha0 with h | h
        · exact absurd h.symm haa
        · exact h
      rw [ih hnd' (fun b hb => hother b (List.mem_cons_of_mem _ hb)) hin,
        hother a (List.mem_cons_self _ _) haa]

/-- The values of a counting loop are distinct. -/
theorem forRange_nodup (lo hi : Int) : (forRange lo hi).Nodup := by
  unfold forRange
  apply List.Nodup.map _ (List.nodup_range _)
  intro a b hab
  simp only at hab
  omega

/-- One pass of `Update`, cell by cell: the cell of channel `ch` of the pixel `(x, y)`
receives what the one call `AddColor(x, y, v3Color)` of its pixel stores there. -/
theorem Update_apply (sqrt : ℚ → ℚ) (uninit : Hit) (objects : List Object)
    (rnd : Int → Int → Nat → Vec3) (data : Buffer) (x y ch : Int)
    (hx0 : 0 ≤ x) (hx1 : x < WINDOW_WIDTH) (hy0 : 0 ≤ y) (hy1 : y < WINDOW_HEIGHT)
    (hc0 : 0 ≤ ch) (hc1 : ch ≤ 2) :
    Update sqrt uninit objects rnd data (y * WINDOW_WIDTH * 3 + x * 3 + ch)
      = toUInt8 (clamp ((data (y * WINDOW_WIDTH * 3 + x * 3 + ch) : Int)
          + (toUInt8 (floatToInt
              ((pixelColor sqrt uninit objects (rnd x y) x y).channel ch * 255)) : Int))
          0 255) := by
  have hother : ∀ x' y' : Int, 0 ≤ x' → x' < WINDOW_WIDTH → (x' ≠ x ∨ y' ≠ y) →
      ∀ (dst : Buffer) (c : Vec3),
        AddColor dst x' y' c (y * WINDOW_WIDTH * 3 + x * 3 + ch)
          = dst (y * WINDOW_WIDTH * 3 + x * 3 + ch) := by
    intro x' y' hx0' hx1' hne dst c
    apply AddColor_other
    simp only [WINDOW_WIDTH] at hx1 hx1' ⊢
    refine ⟨?_, ?_, ?_⟩ <;> omega
  unfold Update
  rw [foldl_update_once _ (forRange 0 WINDOW_HEIGHT) (forRange_nodup _ _)
    (y * WINDOW_WIDTH * 3 + x * 3 + ch) y
    (fun old => toUInt8 (clamp ((old : Int)
      + (toUInt8 (floatToInt
          ((pixelColor sqrt uninit objects (rnd x y) x y).channel ch * 255)) : Int)) 0 255))]
  · intro y' _ hy' dst
    apply foldl_untouched
    intro x' hx' dst'
    rw [mem_forRange] at hx'
    exact hother x' y' hx'.1 hx'.2 (Or.inr hy') dst' _
  · intro dst
    rw [foldl_update_once _ (forRange 0 WINDOW_WIDTH) (forRange_nodup _ _)
      (y * WINDOW_WIDTH * 3 + x * 3 + ch) x
      (fun old => toUInt8 (clamp ((old : Int)
        + (toUInt8 (floatToInt
            ((pixelColor sqrt uninit objects (rnd x y) x y).channel ch * 255)) : Int)) 0 255))]
    · intro x' hx' hne dst'
      rw [mem_forRange] at hx'
      exact hother x' y hx'.1 hx'.2 (Or.inl hne) dst' _
    · intro dst'
      exact AddColor_channel dst' x y ch _ hc0 hc1
    · rw [mem_forRange]
      exact ⟨hx0, hx1⟩
  · rw [mem_forRange]
    exact ⟨hy0, hy1⟩

/-- One pass of `Update` leaves the cells outside the allocation as they are. -/
theorem Update_outside (sqrt : ℚ → ℚ) (uninit : Hit) (objects : List Object)
    (rnd : Int → Int → Nat → Vec3) (data : Buffer) (k : Int) (hk : k < 0 ∨ nSize ≤ k) :
    Update sqrt uninit objects rnd data k = data k := by
  unfold Update
  apply foldl_untouched
  intro y' hy' dst
  apply foldl_untouched
  intro x' hx' dst'
  rw [mem_forRange] at hx' hy'
  apply AddColor_other
  simp only [WINDOW_WIDTH, WINDOW_HEIGHT, nSize] at hx' hy' hk ⊢
  refine ⟨?_, ?_, ?_⟩ <;> omega

/-! ## A miss contributes black -/

/-- The colour of a pixel whose primary ray hits no primitive is black. -/
theorem pixelColor_of_miss (sqrt : ℚ → ℚ) (uninit : Hit) (objects : List Object)
    (rnd : Nat → Vec3) (x y : Int)
    (hmiss : ∀ o ∈ objects, (o.hit sqrt uninit (primaryRay sqrt x y)).m_bHit = false) :
    (nearestHit sqrt uninit objects (primaryRay sqrt x y)).m_bHit = false
      ∧ pixelColor sqrt uninit objects rnd x y = Vec3.zero := by
  have hscan : (nearestHit sqrt uninit objects (primaryRay sqrt x y)).m_bHit = false := by
    rw [nearestHit_def, foldl_scanStep_of_no_hit sqrt uninit _ objects _ hmiss]
  refine ⟨hscan, ?_⟩
  unfold pixelColor
  simp only [hscan]
  rfl

/-- A black contribution leaves a stored byte as it is. -/
theorem black_increment (old : Nat) (h : old < 256) (ch : Int) :
    toUInt8 (clamp ((old : Int)
      + (toUInt8 (floatToInt (Vec3.zero.channel ch * 255)) : Int)) 0 255) = old := by
  have hz : Vec3.zero.channel ch * 255 = 0 := by
    unfold Vec3.channel Vec3.zero
    split_ifs <;> simp
  have h0 : toUInt8 (floatToInt 0) = 0 := by
    have : floatToInt 0 = 0 := by norm_num [floatToInt]
    rw [this]
    rfl
  rw [hz, h0]
  exact toUInt8_clamp_add_zero old h

/-- With an empty primitive list one pass of `Update` leaves a framebuffer of bytes as
it is. -/
theorem Update_empty_scene (sqrt : ℚ → ℚ) (uninit : Hit) (rnd : Int → Int → Nat → Vec3)
    (data : Buffer) (hbytes : ∀ k, 0 ≤ k → k < nSize → data k < 256) (k : Int) :
    Update sqrt uninit [] rnd data k = data k := by
  by_cases hk : k < 0 ∨ nSize ≤ k
  · exact Update_outside sqrt uninit [] rnd data k hk
  · have hk0 : 0 ≤ k := by omega
    have hk1 : k < nSize := by omega
    have hb := hbytes k hk0 hk1
    simp only [nSize, WINDOW_WIDTH, WINDOW_HEIGHT] at hk1
    have hdec : k = (k / (768 * 3)) * WINDOW_WIDTH * 3 + (k % (768 * 3) / 3) * 3 + k % 3 := by
      simp only [WINDOW_WIDTH]
      omega
    have hcol := (pixelColor_of_miss sqrt uninit [] (rnd (k % (768 * 3) / 3) (k / (768 * 3)))
      (k % (768 * 3) / 3) (k / (768 * 3)) (by simp)).2
    have happ := Update_apply sqrt uninit [] rnd data (k % (768 * 3) / 3) (k / (768 * 3))
      (k % 3) (by omega) (by simp only [WINDOW_WIDTH]; omega) (by omega)
      (by simp only [WINDOW_HEIGHT]; omega) (by omega) (by omega)
    rw [hcol, ← hdec, black_increment _ hb] at happ
    exact happ

/-- C16: if no primitive reports a hit for the primary ray of the pixel `(x, y)`, the
nearest-hit scan ends with a non-hit, the pixel's colour is black, and one pass of
`Update` leaves the three stored bytes of the pixel as they are; with an empty primitive
list every pass leaves a framebuffer of bytes as it is, so the framebuffer after `Create`
is all zero after any number of passes. -/
theorem C16_miss_contributes_black (sqrt : ℚ → ℚ) (uninit : Hit) (objects : List Object)
    (rnd : Int → Int → Nat → Vec3) (data : Buffer) (x y : Int)
    (hx0 : 0 ≤ x) (hx1 : x < WINDOW_WIDTH) (hy0 : 0 ≤ y) (hy1 : y < WINDOW_HEIGHT)
    (hmiss : ∀ o ∈ objects, (o.hit sqrt uninit (primaryRay sqrt x y)).m_bHit = false)
    (hbytes : ∀ ch : Int, 0 ≤ ch → ch ≤ 2 → data (y * WINDOW_WIDTH * 3 + x * 3 + ch) < 256) :
    (nearestHit sqrt uninit objects (primaryRay sqrt x y)).m_bHit = false
      ∧ pixelColor sqrt uninit objects (rnd x y) x y = Vec3.zero
      ∧ (∀ ch : Int, 0 ≤ ch → ch ≤ 2 →
          Update sqrt uninit objects rnd data (y * WINDOW_WIDTH * 3 + x * 3 + ch)
            = data (y * WINDOW_WIDTH * 3 + x * 3 + ch))
      ∧ (∀ (rnd' : Int → Int → Nat → Vec3) (data' : Buffer),
          (∀ k, 0 ≤ k → k < nSize → data' k < 256) →
          ∀ k : Int, Update sqrt uninit [] rnd' data' k = data' k)
      ∧ (∀ (rnds : Nat → Int → Int → Nat → Vec3) (n : Nat) (k : Int),
          UpdatePasses sqrt uninit [] rnds n Create k = 0) := by
  obtain ⟨hscan, hcol⟩ := pixelColor_of_miss sqrt uninit objects (rnd x y) x y hmiss
  refine ⟨hscan, hcol, ?_, ?_, ?_⟩
  · intro ch hc0 hc1
    rw [Update_apply sqrt uninit objects rnd data x y ch hx0 hx1 hy0 hy1 hc0 hc1, hcol,
      black_increment _ (hbytes ch hc0 hc1)]
  · intro rnd' data' hb k
    exact Update_empty_scene sqrt uninit rnd' data' hb k
  · intro rnds n
    induction n with
    | zero =>
      intro k
      rfl
    | succ m ih =>
      intro k
      show Update sqrt uninit [] (rnds m) (UpdatePasses sqrt uninit [] rnds m Create) k = 0
      rw [Update_empty_scene sqrt uninit (rnds m) _
        (fun j _ _ => by rw [ih j]; decide) k]
      exact ih k

/-- The primary ray of the centre pixel `(384, 384)` starts at `(0, 0, 1.2)` and runs
along `-z`. -/
theorem primaryRay_centre :
    primaryRay Qsqrt 384 384 = { m_v3Pos := ⟨0, 0, 6 / 5⟩, m_v3Dir := ⟨0, 0, -1⟩ } := by
  have hroot : Qsqrt (361 / 25) = 19 / 5 := by
    have h := Qsqrt_mul_self (19 / 5) (by norm_num)
    norm_num at h
    exact h
  have hpos : ((⟨(2 * ((384 : Int) : ℚ) / (WINDOW_WIDTH : ℚ)) - 1,
      (2 * ((384 : Int) : ℚ) / (WINDOW_HEIGHT : ℚ)) - 1, 6 / 5⟩ : Vec3)) = ⟨0, 0, 6 / 5⟩ := by
    norm_num [WINDOW_WIDTH, WINDOW_HEIGHT]
  have hsub : (⟨0, 0, 6 / 5⟩ : Vec3).sub v3Eye = ⟨0, 0, -19 / 5⟩ := by
    norm_num [Vec3.sub, v3Eye]
  have hdot : Vec3.dot (⟨0, 0, -19 / 5⟩ : Vec3) ⟨0, 0, -19 / 5⟩ = 361 / 25 := by
    norm_num [Vec3.dot]
  unfold primaryRay
  simp only [hpos, hsub, Vec3.normalize, hdot, hroot]
  norm_num [Vec3.smul]

/-- The sphere `sideSphere` is missed by the primary ray of the centre pixel. -/
theorem sideSphere_miss (uninit : Hit) :
    ((Object.sphere sideSphere).hit Qsqrt uninit (primaryRay Qsqrt 384 384)).m_bHit = false := by
  have hd : ¬ sideSphere.discriminant { m_v3Pos := ⟨0, 0, 6 / 5⟩, m_v3Dir := ⟨0, 0, -1⟩ } > 0 := by
    norm_num [Sphere.discriminant, Vec3.dot, Vec3.sub, sideSphere]
  rw [primaryRay_centre, Object.hit, Sphere.sphere_hit_eq, if_neg hd]

/-- C16, witness: the scene that consists of `sideSphere`, the centre pixel
`(384, 384)`, the framebuffer after `Create`. -/
theorem C16_miss_contributes_black_witness :
    (nearestHit Qsqrt Hit.zeroed [.sphere sideSphere] (primaryRay Qsqrt 384 384)).m_bHit = false
      ∧ pixelColor Qsqrt Hit.zeroed [.sphere sideSphere]
          ((fun _ _ _ => (⟨0, 0, 1⟩ : Vec3)) (384 : Int) (384 : Int)) 384 384 = Vec3.zero
      ∧ (∀ ch : Int, 0 ≤ ch → ch ≤ 2 →
          Update Qsqrt Hit.zeroed [.sphere sideSphere] (fun _ _ _ => ⟨0, 0, 1⟩) Create
              (384 * WINDOW_WIDTH * 3 + 384 * 3 + ch)
            = Create (384 * WINDOW_WIDTH * 3 + 384 * 3 + ch))
      ∧ (∀ (rnd' : Int → Int → Nat → Vec3) (data' : Buffer),
          (∀ k, 0 ≤ k → k < nSize → data' k < 256) →
          ∀ k : Int, Update Qsqrt Hit.zeroed [] rnd' data' k = data' k)
      ∧ (∀ (rnds : Nat → Int → Int → Nat → Vec3) (n : Nat) (k : Int),
          UpdatePasses Qsqrt Hit.zeroed [] rnds n Create k = 0) :=
  C16_miss_contributes_black Qsqrt Hit.zeroed [.sphere sideSphere] (fun _ _ _ => ⟨0, 0, 1⟩)
    Create 384 384 (by decide) (by decide) (by decide) (by decide)
    (by
      intro o ho
      rw [List.mem_singleton] at ho
      rw [ho]
      exact sideSphere_miss Hit.zeroed)
    (fun ch _ _ => show Create _ < 256 by unfold Create; decide)

/-! ## The driver loop -/

/-- The loop `for (int i = 0; i < 10; i++) bitmap.MedianFilter();` applies the filter ten
times and counts ten calls. -/
theorem median_loop (data : Buffer) (c : Nat) :
    (forRange 0 10).foldl (fun (acc : Buffer × Nat) _ => (MedianFilter acc.1, acc.2 + 1))
        (data, c) = (MedianFilter^[10] data, c + 10) := by
  have hgen : ∀ (l : List Int) (d : Buffer) (m : Nat),
      l.foldl (fun (acc : Buffer × Nat) _ => (MedianFilter acc.1, acc.2 + 1)) (d, m)
        = (MedianFilter^[l.length] d, m + l.length) := by
    intro l
    induction l with
    | nil => intro d m; rfl
    | cons a rest ih =>
      intro d m
      rw [List.foldl_cons, ih, List.length_cons, Function.iterate_succ_apply]
      congr 1
      omega
  have hlen : (forRange 0 10).length = 10 := by
    simp [forRange]
  rw [hgen, hlen]

/-- One iteration of the loop of `main` while the sample budget is not used up. -/
theorem mainStep_sample (sqrt : ℚ → ℚ) (uninit : Hit) (objects : List Object)
    (rnd : Nat → Int → Int → Nat → Vec3) (st : MainState) (h : st.s < 1000) :
    mainStep sqrt uninit objects rnd st =
      { st with
        data := Update sqrt uninit objects (rnd st.nUpdateCalls) st.data
        nUpdateCalls := st.nUpdateCalls + 1
        s := st.s + 1 } := by
  have h' : st.s < (nNumSamples : ℚ) := by
    simp only [nNumSamples]
    exact_mod_cast h
  unfold mainStep
  rw [if_pos h']

/-- The iteration of the loop of `main` that runs the denoiser. -/
theorem mainStep_denoise (sqrt : ℚ → ℚ) (uninit : Hit) (objects : List Object)
    (rnd : Nat → Int → Int → Nat → Vec3) (st : MainState) (h : ¬ st.s < 1000)
    (hb : st.bFirst = true) :
    mainStep sqrt uninit objects rnd st =
      { st with
        data := MedianFilter^[10] st.data
        nMedianCalls := st.nMedianCalls + 10
        bFirst := false } := by
  have h' : ¬ st.s < (nNumSamples : ℚ) := by
    simp only [nNumSamples]
    exact_mod_cast h
  unfold mainStep
  rw [if_neg h', if_pos hb]
  simp only [median_loop]

/-- An iteration of the loop of `main` after the denoiser has run. -/
theorem mainStep_idle (sqrt : ℚ → ℚ) (uninit : Hit) (objects : List Object)
    (rnd : Nat → Int → Int → Nat → Vec3) (st : MainState) (h : ¬ st.s < 1000)
    (hb : st.bFirst = false) :
    mainStep sqrt uninit objects rnd st = st := by
  have h' : ¬ st.s < (nNumSamples : ℚ) := by
    simp only [nNumSamples]
    exact_mod_cast h
  unfold mainStep
  rw [if_neg h', if_neg (by simp [hb])]

/-- The state after `n` iterations of the loop of `main`, in closed form. -/
theorem mainRun_closed (sqrt : ℚ → ℚ) (uninit : Hit) (objects : List Object)
    (rnd : Nat → Int → Int → Nat → Vec3) (n : Nat) :
    (mainRun sqrt uninit objects rnd n).s = ((min n 1000 : Nat) : ℚ)
      ∧ (mainRun sqrt uninit objects rnd n).bFirst = decide (n ≤ 1000)
      ∧ (mainRun sqrt uninit objects rnd n).nUpdateCalls = min n 1000
      ∧ (mainRun sqrt uninit objects rnd n).nMedianCalls = if n ≤ 1000 then 0 else 10 := by
  induction n with
  | zero =>
    refine ⟨?_, ?_, ?_, ?_⟩ <;> simp [mainRun, mainInit]
  | succ m ih =>
    obtain ⟨hs, hb, hu, hm⟩ := ih
    have hrun : mainRun sqrt uninit objects rnd (m + 1)
        = mainStep sqrt uninit objects rnd (mainRun sqrt uninit objects rnd m) := by
      unfold mainRun
      rw [Function.iterate_succ_apply']
    rw [hrun]
    rcases Nat.lt_trichotomy m 1000 with hlt | heq | hgt
    · have hmin : min m 1000 = m := Nat.min_eq_left hlt.le
      have hlt' : (mainRun sqrt uninit objects rnd m).s < 1000 := by
        rw [hs, hmin]
        exact_mod_cast hlt
      rw [mainStep_sample _ _ _ _ _ hlt']
      simp only [hs, hb, hu, hm, hmin]
      have hmin' : min (m + 1) 1000 = m + 1 := Nat.min_eq_left hlt
      refine ⟨?_, ?_, ?_, ?_⟩
      · rw [hmin']
        push_cast
        ring
      · simp [hlt.le, Nat.succ_le_of_lt hlt]
      · rw [hmin']
      · simp [hlt.le, Nat.succ_le_of_lt hlt]
    · have hmin : min m 1000 = 1000 := by omega
      have hnlt : ¬ (mainRun sqrt uninit objects rnd m).s < 1000 := by
        rw [hs, hmin]
        norm_num
      have hbt : (mainRun sqrt uninit objects rnd m).bFirst = true := by
        rw [hb]
        simp only [decide_eq_true_eq]
        omega
      rw [mainStep_denoise _ _ _ _ _ hnlt hbt]
      have hmin' : min (m + 1) 1000 = 1000 := by omega
      have hle : m ≤ 1000 := by omega
      have hnle' : ¬ m + 1 ≤ 1000 := by omega
      simp only [hs, hu, hm, hmin, hmin', hle, hnle']
      simp
    · have hmin : min m 1000 = 1000 := Nat.min_eq_right hgt.le
      have hnlt : ¬ (mainRun sqrt uninit objects rnd m).s < 1000 := by
        rw [hs, hmin]
        norm_num
      have hbf : (mainRun sqrt uninit objects rnd m).bFirst = false := by
        rw [hb]
        simp only [decide_eq_false_iff_not]
        omega
      rw [mainStep_idle _ _ _ _ _ hnlt hbf]
      have hmin' : min (m + 1) 1000 = 1000 := Nat.min_eq_right (by omega)
      have hnle : ¬ m ≤ 1000 := by omega
      have hnle' : ¬ m + 1 ≤ 1000 := by omega
      simp only [hs, hb, hu, hm, hmin, hmin', hnle, hnle']
      simp

/-- C17: in the state reached after any number `n` of iterations of the loop of `main`,
`s ≤ nNumSamples` and `Update` has been called `s ≤ 1000` times; the next iteration calls
`Update` only if `s < nNumSamples`; it calls `MedianFilter` only if `s = nNumSamples` and
`bFirst = true`, and then calls it exactly ten times in a row and sets `bFirst = false`;
once `MedianFilter` has been called, the budget is used up (`Update` has been called 1000
times), and in every later state the two call counts are still `1000` and `10`: the
denoiser does not run again and `Update` does not run after it. -/
theorem C17_main_loop (sqrt : ℚ → ℚ) (uninit : Hit) (objects : List Object)
    (rnd : Nat → Int → Int → Nat → Vec3) (n : Nat) :
    (mainRun sqrt uninit objects rnd n).s ≤ (nNumSamples : ℚ)
      ∧ ((mainRun sqrt uninit objects rnd n).nUpdateCalls : ℚ) = (mainRun sqrt uninit objects rnd n).s
      ∧ (mainRun sqrt uninit objects rnd n).nUpdateCalls ≤ 1000
      ∧ ((mainStep sqrt uninit objects rnd (mainRun sqrt uninit objects rnd n)).nUpdateCalls ≠ (mainRun sqrt uninit objects rnd n).nUpdateCalls →
          (mainRun sqrt uninit objects rnd n).s < (nNumSamples : ℚ)
            ∧ (mainStep sqrt uninit objects rnd (mainRun sqrt uninit objects rnd n)).nUpdateCalls = (mainRun sqrt uninit objects rnd n).nUpdateCalls + 1)
      ∧ ((mainStep sqrt uninit objects rnd (mainRun sqrt uninit objects rnd n)).nMedianCalls ≠ (mainRun sqrt uninit objects rnd n).nMedianCalls →
          (mainRun sqrt uninit objects rnd n).s = (nNumSamples : ℚ) ∧ (mainRun sqrt uninit objects rnd n).bFirst = true
            ∧ (mainStep sqrt uninit objects rnd (mainRun sqrt uninit objects rnd n)).nMedianCalls = (mainRun sqrt uninit objects rnd n).nMedianCalls + 10
            ∧ (mainStep sqrt uninit objects rnd (mainRun sqrt uninit objects rnd n)).bFirst = false
            ∧ (mainStep sqrt uninit objects rnd (mainRun sqrt uninit objects rnd n)).data = MedianFilter^[10] (mainRun sqrt uninit objects rnd n).data)
      ∧ ((mainRun sqrt uninit objects rnd n).nMedianCalls ≠ 0 →
          (mainRun sqrt uninit objects rnd n).s = (nNumSamples : ℚ) ∧ (mainRun sqrt uninit objects rnd n).bFirst = false
            ∧ ∀ m : Nat, n ≤ m →
              (mainRun sqrt uninit objects rnd m).nUpdateCalls = 1000
                ∧ (mainRun sqrt uninit objects rnd m).nMedianCalls = 10) := by
  obtain ⟨hs, hb, hu, hm⟩ := mainRun_closed sqrt uninit objects rnd n
  obtain ⟨-, hb', hu', hm'⟩ := mainRun_closed sqrt uninit objects rnd (n + 1)
  have hrun : mainRun sqrt uninit objects rnd (n + 1) = mainStep sqrt uninit objects rnd (mainRun sqrt uninit objects rnd n) := by
    unfold mainRun
    rw [Function.iterate_succ_apply']
  rw [hrun] at hb' hu' hm'
  have hN : (nNumSamples : ℚ) = 1000 := by
    simp only [nNumSamples]
    norm_num
  refine ⟨?_, ?_, ?_, ?_, ?_, ?_⟩
  · rw [hs, hN]
    have : min n 1000 ≤ 1000 := Nat.min_le_right _ _
    exact_mod_cast this
  · rw [hs, hu]
  · rw [hu]
    exact Nat.min_le_right _ _
  · intro hne
    rw [hu', hu] at hne
    have hlt : n < 1000 := by
      by_contra hge
      apply hne
      omega
    refine ⟨?_, ?_⟩
    · rw [hs, hN, Nat.min_eq_left hlt.le]
      exact_mod_cast hlt
    · rw [hu', hu]
      omega
  · intro hne
    rw [hm', hm] at hne
    have heq : n = 1000 := by
      by_contra hn
      apply hne
      by_cases h1 : n ≤ 1000
      · have h2 : n + 1 ≤ 1000 := by omega
        rw [if_pos h1, if_pos h2]
      · have h2 : ¬ n + 1 ≤ 1000 := by omega
        rw [if_neg h1, if_neg h2]
    have hs1000 : (mainRun sqrt uninit objects rnd n).s = 1000 := by
      rw [hs]
      have : min n 1000 = 1000 := by omega
      rw [this]
      norm_num
    have hbt : (mainRun sqrt uninit objects rnd n).bFirst = true := by
      rw [hb]
      simp only [decide_eq_true_eq]
      omega
    have hstep := mainStep_denoise sqrt uninit objects rnd (mainRun sqrt uninit objects rnd n)
      (by rw [hs1000]; norm_num) hbt
    refine ⟨by rw [hs1000, hN], hbt, ?_, ?_, ?_⟩
    · rw [hstep]
    · rw [hstep]
    · rw [hstep]
  · intro hne
    rw [hm] at hne
    have hgt : ¬ n ≤ 1000 := by
      intro hle
      rw [if_pos hle] at hne
      exact hne rfl
    refine ⟨?_, ?_, ?_⟩
    · rw [hs, hN]
      have : min n 1000 = 1000 := by omega
      rw [this]
      norm_num
    · rw [hb]
      simp only [decide_eq_false_iff_not]
      exact hgt
    · intro m hm
      obtain ⟨-, -, hum, hmm⟩ := mainRun_closed sqrt uninit objects rnd m
      have hgt' : ¬ m ≤ 1000 := by omega
      refine ⟨?_, ?_⟩
      · rw [hum]
        omega
      · rw [hmm, if_neg hgt']

/-! ## No light, no radiance -/

/-- The component-wise product with the zero vector. -/
theorem Vec3.mul_zero_right (a : Vec3) : Vec3.mul a Vec3.zero = Vec3.zero := by
  simp [Vec3.mul, Vec3.zero]

/-- In a scene without emissive primitives `PathTrace` returns the zero vector; the
statement by induction on the measure of the recursion. -/
theorem PathTrace_dark (sqrt : ℚ → ℚ) (uninit : Hit) (objects : List Object)
    (hdark : ∀ o ∈ objects, o.m_bEmissive = false) (m : Nat) :
    ∀ (rnd : Nat → Vec3) (ray : Ray) (nDepth : Int), (nMaxDepth + 1 - nDepth).toNat = m →
      PathTrace sqrt uninit objects rnd ray nDepth = Vec3.zero := by
  induction m with
  | zero =>
    intro rnd ray nDepth hm
    have hgt : nDepth > nMaxDepth := by
      simp only [nMaxDepth] at hm ⊢
      omega
    rw [PathTrace_unfold, if_pos hgt]
  | succ k ih =>
    intro rnd ray nDepth hm
    have hle : ¬ nDepth > nMaxDepth := by
      simp only [nMaxDepth] at hm ⊢
      omega
    rw [PathTrace_unfold, if_neg hle]
    split_ifs with h1 h2 h3
    · rfl
    · exfalso
      have hhit : (nearestHit sqrt uninit objects ray).m_bHit = true := by
        simpa using h1
      obtain ⟨⟨o, ho, hoh, hoe⟩, -⟩ := nearestHit_spec sqrt uninit objects ray hhit
      rw [hoe, Object.hit_emissive sqrt uninit o ray hoh, hdark o ho] at h2
      exact Bool.noConfusion h2
    · rfl
    · have hnext : (nMaxDepth + 1 - (nDepth + 1)).toNat = k := by
        simp only [nMaxDepth] at hm ⊢
        omega
      rw [ih (fun n => rnd (n + 1)) _ (nDepth + 1) hnext, Vec3.mul_zero_right]

/-- C19: if the scene contains no emissive primitive, `PathTrace` returns the zero
vector for every ray, every depth and every stream of sampled vectors. -/
theorem C19_no_light_no_radiance (sqrt : ℚ → ℚ) (uninit : Hit) (objects : List Object)
    (rnd : Nat → Vec3) (ray : Ray) (nDepth : Int)
    (hdark : ∀ o ∈ objects, o.m_bEmissive = false) :
    PathTrace sqrt uninit objects rnd ray nDepth = Vec3.zero :=
  PathTrace_dark sqrt uninit objects hdark _ rnd ray nDepth rfl

/-- C19, witness: the scene that consists of the non-emissive `unitSphere`, the ray
`eyeRay` (which hits the sphere head-on), depth `0`. -/
theorem C19_no_light_no_radiance_witness :
    PathTrace Qsqrt Hit.zeroed [.sphere unitSphere] (fun _ => ⟨0, 0, 1⟩) eyeRay 0
      = Vec3.zero :=
  C19_no_light_no_radiance Qsqrt Hit.zeroed [.sphere unitSphere] (fun _ => ⟨0, 0, 1⟩) eyeRay 0
    (by
      intro o ho
      rw [List.mem_singleton] at ho
      rw [ho]
      rfl)

/-! ## Contributions below one unit of the 8-bit scale -/

/-- A `float` in `[0, 1)` is converted to the integer `0`. -/
theorem floatToInt_of_lt_one (q : ℚ) (h0 : 0 ≤ q) (h1 : q < 1) : floatToInt q = 0 := by
  rw [floatToInt_of_nonneg q h0, Int.floor_eq_zero_iff]
  exact ⟨h0, h1⟩

/-- The value of `255 · fBrightness`. -/
theorem fBrightness_scaled : 255 * fBrightness = 801106126770 / 500000000000 := by
  norm_num [fBrightness, nNumSamples]

/-- C20: if the channel value `c` of the contribution satisfies `0 ≤ 255·c < 1`, the
increment is converted to the integer `0` and `AddColor` leaves the stored byte of that
channel as it is, also when the contribution is added any number `n` of times.  With
`fBrightness = 2·3.141592654/1000` (`255·fBrightness < 2`) this holds for the
contribution `fBrightness · v` whenever the channel of `v` (colour ⊙ radiance) is below
`1/(255·fBrightness)`, a number between `0.624` and `0.625`. -/
theorem C20_subquantum_lost (data : Buffer) (x y ch : Int) (v3Color : Vec3)
    (hc0 : 0 ≤ ch) (hc1 : ch ≤ 2)
    (hbyte : data (y * WINDOW_WIDTH * 3 + x * 3 + ch) < 256)
    (hsmall : 0 ≤ 255 * v3Color.channel ch ∧ 255 * v3Color.channel ch < 1) :
    floatToInt (v3Color.channel ch * 255) = 0
      ∧ AddColor data x y v3Color (y * WINDOW_WIDTH * 3 + x * 3 + ch) = data (y * WINDOW_WIDTH * 3 + x * 3 + ch)
      ∧ (∀ n : Nat, ((fun d => AddColor d x y v3Color)^[n] data) (y * WINDOW_WIDTH * 3 + x * 3 + ch)
          = data (y * WINDOW_WIDTH * 3 + x * 3 + ch))
      ∧ 255 * fBrightness < 2
      ∧ (624 / 1000 < 1 / (255 * fBrightness) ∧ 1 / (255 * fBrightness) < 625 / 1000)
      ∧ (∀ v : Vec3, 0 ≤ v.channel ch → v.channel ch < 1 / (255 * fBrightness) →
          AddColor data x y (Vec3.smul fBrightness v) (y * WINDOW_WIDTH * 3 + x * 3 + ch) = data (y * WINDOW_WIDTH * 3 + x * 3 + ch)) := by
  have hstep : ∀ (d : Buffer) (c : Vec3), d (y * WINDOW_WIDTH * 3 + x * 3 + ch) < 256 →
      0 ≤ 255 * c.channel ch → 255 * c.channel ch < 1 →
      AddColor d x y c (y * WINDOW_WIDTH * 3 + x * 3 + ch) = d (y * WINDOW_WIDTH * 3 + x * 3 + ch) := by
    intro d c hd h0 h1
    have hz : floatToInt (c.channel ch * 255) = 0 :=
      floatToInt_of_lt_one _ (by linarith) (by linarith)
    rw [AddColor_channel d x y ch c hc0 hc1, hz]
    exact toUInt8_clamp_add_zero _ hd
  refine ⟨floatToInt_of_lt_one _ (by linarith [hsmall.1]) (by linarith [hsmall.2]),
    hstep data v3Color hbyte hsmall.1 hsmall.2, ?_, ?_, ?_, ?_⟩
  · intro n
    induction n with
    | zero => rfl
    | succ m ih =>
      rw [Function.iterate_succ_apply']
      rw [hstep _ v3Color (by rw [ih]; exact hbyte) hsmall.1 hsmall.2, ih]
  · rw [fBrightness_scaled]
    norm_num
  · rw [fBrightness_scaled]
    norm_num
  · intro v hv0 hv1
    have hchan : (Vec3.smul fBrightness v).channel ch = fBrightness * v.channel ch := by
      unfold Vec3.channel Vec3.smul
      split_ifs <;> rfl
    have hfpos : 0 < 255 * fBrightness := by
      rw [fBrightness_scaled]
      norm_num
    have hlt : 255 * fBrightness * v.channel ch < 1 := by
      have := (lt_div_iff₀ hfpos).mp hv1
      linarith
    apply hstep _ _ hbyte
    · rw [hchan]
      have := mul_nonneg hfpos.le hv0
      linarith
    · rw [hchan]
      linarith

/-- C20, witness: the framebuffer after `Create`, pixel `(0, 0)`, red channel, the
contribution `(1/1000, 1/1000, 1/1000)`. -/
theorem C20_subquantum_lost_witness :
    floatToInt ((⟨1 / 1000, 1 / 1000, 1 / 1000⟩ : Vec3).channel 0 * 255) = 0
      ∧ AddColor Create 0 0 ⟨1 / 1000, 1 / 1000, 1 / 1000⟩ (0 * WINDOW_WIDTH * 3 + 0 * 3 + 0)
          = Create (0 * WINDOW_WIDTH * 3 + 0 * 3 + 0)
      ∧ (∀ n : Nat, ((fun d => AddColor d 0 0 ⟨1 / 1000, 1 / 1000, 1 / 1000⟩)^[n] Create)
            (0 * WINDOW_WIDTH * 3 + 0 * 3 + 0)
          = Create (0 * WINDOW_WIDTH * 3 + 0 * 3 + 0))
      ∧ 255 * fBrightness < 2
      ∧ (624 / 1000 < 1 / (255 * fBrightness) ∧ 1 / (255 * fBrightness) < 625 / 1000)
      ∧ (∀ v : Vec3, 0 ≤ v.channel 0 → v.channel 0 < 1 / (255 * fBrightness) →
          AddColor Create 0 0 (Vec3.smul fBrightness v) (0 * WINDOW_WIDTH * 3 + 0 * 3 + 0)
            = Create (0 * WINDOW_WIDTH * 3 + 0 * 3 + 0)) :=
  C20_subquantum_lost Create 0 0 0 ⟨1 / 1000, 1 / 1000, 1 / 1000⟩ (by decide) (by decide)
    (show Create _ < 256 by unfold Create; decide)
    (by norm_num [Vec3.channel])

/-! ## The shipped scene: bounds on the radiance -/

/-- The body of `PathUnit`, one unfolding of the recursion. -/
theorem PathUnit_unfold (sqrt : ℚ → ℚ) (uninit : Hit) (objects : List Object)
    (rnd : Nat → Vec3) (ray : Ray) (nDepth : Int) :
    PathUnit sqrt uninit objects rnd ray nDepth ↔
      if nDepth > nMaxDepth then True
      else
        Vec3.dot ray.m_v3Dir ray.m_v3Dir = 1
          ∧ (if (nearestHit sqrt uninit objects ray).m_bHit = false then True
            else if (nearestHit sqrt uninit objects ray).m_bEmissive = true then True
            else
              Vec3.dot (nearestHit sqrt uninit objects ray).m_v3Normal (nearestHit sqrt uninit objects ray).m_v3Normal = 1
                ∧ (if Vec3.dot ray.m_v3Dir.neg (nearestHit sqrt uninit objects ray).m_v3Normal ≤ 0 then True
                  else
                    PathUnit sqrt uninit objects (fun n => rnd (n + 1))
                      { m_v3Pos := (nearestHit sqrt uninit objects ray).m_v3Pos.add (Vec3.smul (1 / 1000) (nearestHit sqrt uninit objects ray).m_v3Normal),
                        m_v3Dir := RandomDirection sqrt (rnd 0) (nearestHit sqrt uninit objects ray).m_v3Normal }
                      (nDepth + 1))) := by
  rw [PathUnit]
  simp only [dite_eq_ite]

/-- The cosine term of two unit vectors is at most `1`. -/
theorem cosine_le_one (d n : Vec3) (hd : Vec3.dot d d = 1) (hn : Vec3.dot n n = 1) :
    Vec3.dot d.neg n ≤ 1 := by
  have hcs := Vec3.dot_mul_dot_le d.neg n
  have hneg : Vec3.dot d.neg d.neg = Vec3.dot d d := by
    simp only [Vec3.dot, Vec3.neg]
    ring
  rw [hneg, hd, hn] at hcs
  nlinarith [sq_nonneg (Vec3.dot d.neg n - 1)]

/-- The product of a scaled surface colour and a radiance, channel by channel. -/
theorem bounce_in_box (c : ℚ) (K P : Vec3) (B : ℚ) (hc0 : 0 ≤ c) (hc1 : c ≤ 1)
    (hK : K.InBox 2) (hP : P.InBox B) : (Vec3.mul (Vec3.smul c K) P).InBox (2 * B) := by
  obtain ⟨⟨kx0, kx1⟩, ⟨ky0, ky1⟩, ⟨kz0, kz1⟩⟩ := hK
  obtain ⟨⟨px0, px1⟩, ⟨py0, py1⟩, ⟨pz0, pz1⟩⟩ := hP
  have hbox : ∀ k p : ℚ, 0 ≤ k → k ≤ 2 → 0 ≤ p → p ≤ B → 0 ≤ c * k * p ∧ c * k * p ≤ 2 * B := by
    intro k p hk0 hk1 hp0 hp1
    have hck0 : 0 ≤ c * k := mul_nonneg hc0 hk0
    have hck1 : c * k ≤ 2 := by nlinarith
    constructor
    · exact mul_nonneg hck0 hp0
    · nlinarith
  exact ⟨hbox _ _ kx0 kx1 px0 px1, hbox _ _ ky0 ky1 py0 py1, hbox _ _ kz0 kz1 pz0 pz1⟩

/-- In a scene whose colours have channels in `[0, 2]` and whose emitters have the colour
`(1, 1, 1)`, along a path of unit vectors, the channels of the value of `PathTrace` lie
in `[0, radianceBound m]` when `m = nMaxDepth + 1 - nDepth`. -/
theorem PathTrace_in_box (sqrt : ℚ → ℚ) (uninit : Hit) (objects : List Object)
    (hcol : ∀ o ∈ objects, o.m_v3Color.InBox 2
      ∧ (o.m_bEmissive = true → o.m_v3Color = ⟨1, 1, 1⟩)) (m : Nat) :
    ∀ (rnd : Nat → Vec3) (ray : Ray) (nDepth : Int), (nMaxDepth + 1 - nDepth).toNat = m →
      PathUnit sqrt uninit objects rnd ray nDepth →
      (PathTrace sqrt uninit objects rnd ray nDepth).InBox (radianceBound m) := by
  have hzero : ∀ B : ℚ, 0 ≤ B → Vec3.zero.InBox B := by
    intro B hB
    simp only [Vec3.InBox, Vec3.zero]
    exact ⟨⟨le_refl _, hB⟩, ⟨le_refl _, hB⟩, ⟨le_refl _, hB⟩⟩
  induction m with
  | zero =>
    intro rnd ray nDepth hm _
    have hgt : nDepth > nMaxDepth := by
      simp only [nMaxDepth] at hm ⊢
      omega
    rw [PathTrace_unfold, if_pos hgt]
    exact hzero _ (by simp [radianceBound])
  | succ k ih =>
    intro rnd ray nDepth hm hunit
    have hle : ¬ nDepth > nMaxDepth := by
      simp only [nMaxDepth] at hm ⊢
      omega
    have hB : radianceBound (k + 1) = 2 ^ k := by
      simp [radianceBound]
    have hB1 : (1 : ℚ) ≤ 2 ^ k := one_le_pow₀ (by norm_num)
    rw [PathUnit_unfold, if_neg hle] at hunit
    obtain ⟨hdir, hrest⟩ := hunit
    rw [PathTrace_unfold, if_neg hle, hB]
    by_cases h1 : (nearestHit sqrt uninit objects ray).m_bHit = false
    · rw [if_pos h1]
      exact hzero _ (by linarith)
    · rw [if_neg h1] at hrest ⊢
      have hhit : (nearestHit sqrt uninit objects ray).m_bHit = true := by simpa using h1
      obtain ⟨⟨o, ho, hoh, hoe⟩, -⟩ := nearestHit_spec sqrt uninit objects ray hhit
      have hK : (nearestHit sqrt uninit objects ray).m_v3Color = o.m_v3Color := by
        rw [hoe]
        exact Object.hit_color sqrt uninit o ray hoh
      by_cases h2 : (nearestHit sqrt uninit objects ray).m_bEmissive = true
      · rw [if_pos h2, hK]
        have hem : o.m_bEmissive = true := by
          rw [← Object.hit_emissive sqrt uninit o ray hoh, ← hoe]
          exact h2
        rw [(hcol o ho).2 hem]
        simp only [Vec3.InBox]
        exact ⟨⟨by norm_num, hB1⟩, ⟨by norm_num, hB1⟩, ⟨by norm_num, hB1⟩⟩
      · rw [if_neg h2] at hrest ⊢
        obtain ⟨hnormal, hnext⟩ := hrest
        by_cases h3 : Vec3.dot ray.m_v3Dir.neg (nearestHit sqrt uninit objects ray).m_v3Normal ≤ 0
        · rw [if_pos h3]
          exact hzero _ (by linarith)
        · rw [if_neg h3] at hnext ⊢
          have hmnext : (nMaxDepth + 1 - (nDepth + 1)).toNat = k := by
            simp only [nMaxDepth] at hm ⊢
            omega
          have hP := ih (fun n => rnd (n + 1)) _ (nDepth + 1) hmnext hnext
          have hc1 := cosine_le_one ray.m_v3Dir (nearestHit sqrt uninit objects ray).m_v3Normal hdir hnormal
          have hKbox : (nearestHit sqrt uninit objects ray).m_v3Color.InBox 2 := by
            rw [hK]
            exact (hcol o ho).1
          have hbox := bounce_in_box _ _ _ _ (not_le.mp h3).le hc1 hKbox hP
          have hle2 : 2 * radianceBound k ≤ 2 ^ k := by
            unfold radianceBound
            split_ifs with hk
            · linarith
            · have : k = (k - 1) + 1 := by omega
              rw [this, pow_succ]
              simp only [Nat.add_sub_cancel]
              linarith
          obtain ⟨⟨x0, x1⟩, ⟨y0, y1⟩, ⟨z0, z1⟩⟩ := hbox
          exact ⟨⟨x0, x1.trans hle2⟩, ⟨y0, y1.trans hle2⟩, ⟨z0, z1.trans hle2⟩⟩

/-! ## The shipped scene: two rays through the box -/

/-- A triangle reports no hit when the parameter `t` is below `EPSILON`. -/
theorem Triangle.miss_of_planeT (sqrt : ℚ → ℚ) (uninit : Hit) (tri : Triangle) (ray : Ray)
    (h : tri.planeT sqrt ray < EPSILON) : (tri.hit sqrt uninit ray).m_bHit = false := by
  have hguard : ¬ |Vec3.dot (tri.v3Normal sqrt) ray.m_v3Dir| < 0 := not_lt.mpr (abs_nonneg _)
  rw [Triangle.triangle_hit_eq, if_neg hguard, if_pos h]

/-- In the embedding the quotient `t` is `0` when the ray is parallel to the plane of
the triangle (the denominator is `0`). -/
theorem Triangle.miss_of_parallel (sqrt : ℚ → ℚ) (uninit : Hit) (tri : Triangle) (ray : Ray)
    (h : Vec3.dot ray.m_v3Dir tri.edgeCross = 0) :
    ((Object.triangle tri).hit sqrt uninit ray).m_bHit = false := by
  apply Triangle.miss_of_planeT
  have h0 : Vec3.dot ray.m_v3Dir (tri.v3Normal sqrt) = 0 := by
    rw [Triangle.v3Normal, Vec3.normalize, Vec3.dot_smul_right, h, mul_zero]
  rw [Triangle.planeT, h0, div_zero]
  norm_num [EPSILON]

/-- A triangle reports no hit when the origin of the ray lies in its plane: `t = 0`. -/
theorem Triangle.miss_of_origin_in_plane (sqrt : ℚ → ℚ) (uninit : Hit) (tri : Triangle)
    (ray : Ray)
    (h : Vec3.dot tri.edgeCross tri.v1 - Vec3.dot ray.m_v3Pos tri.edgeCross = 0) :
    ((Object.triangle tri).hit sqrt uninit ray).m_bHit = false := by
  apply Triangle.miss_of_planeT
  have h0 : Vec3.dot (tri.v3Normal sqrt) tri.v1 - Vec3.dot ray.m_v3Pos (tri.v3Normal sqrt)
      = 0 := by
    have : Vec3.dot (tri.v3Normal sqrt) tri.v1 - Vec3.dot ray.m_v3Pos (tri.v3Normal sqrt)
        = (1 / sqrt (Vec3.dot tri.edgeCross tri.edgeCross))
          * (Vec3.dot tri.edgeCross tri.v1 - Vec3.dot ray.m_v3Pos tri.edgeCross) := by
      simp only [Triangle.v3Normal, Vec3.normalize, Vec3.dot, Vec3.smul]
      ring
    rw [this, h, mul_zero]
  rw [Triangle.planeT, h0, zero_div]
  norm_num [EPSILON]

/-- A sphere reports no hit when the discriminant is not positive. -/
theorem Sphere.miss_of_discriminant (sqrt : ℚ → ℚ) (uninit : Hit) (s : Sphere) (ray : Ray)
    (h : ¬ s.discriminant ray > 0) :
    ((Object.sphere s).hit sqrt uninit ray).m_bHit = false := by
  rw [Object.hit, Sphere.sphere_hit_eq, if_neg h]

/-- The primitives of the shipped scene other than the back wall report no hit for a ray
along the `z` axis that starts on the axis: the sphere is off the axis, the other
triangles are parallel to it. -/
theorem initObjects_axis_misses (sqrt : ℚ → ℚ) (uninit : Hit) (ray : Ray)
    (hpos : ray.m_v3Pos.x = 0 ∧ ray.m_v3Pos.y = 0)
    (hdir : ray.m_v3Dir.x = 0 ∧ ray.m_v3Dir.y = 0 ∧ ray.m_v3Dir.z * ray.m_v3Dir.z = 1) :
    ((Object.sphere pSphere).hit sqrt uninit ray).m_bHit = false
      ∧ ((Object.triangle pFloor1).hit sqrt uninit ray).m_bHit = false
      ∧ ((Object.triangle pFloor2).hit sqrt uninit ray).m_bHit = false
      ∧ ((Object.triangle pLight1).hit sqrt uninit ray).m_bHit = false
      ∧ ((Object.triangle pLight2).hit sqrt uninit ray).m_bHit = false
      ∧ ((Object.triangle pCeiling1).hit sqrt uninit ray).m_bHit = false
      ∧ ((Object.triangle pCeiling2).hit sqrt uninit ray).m_bHit = false
      ∧ ((Object.triangle pLeft1).hit sqrt uninit ray).m_bHit = false
      ∧ ((Object.triangle pLeft2).hit sqrt uninit ray).m_bHit = false
      ∧ ((Object.triangle pRight1).hit sqrt uninit ray).m_bHit = false
      ∧ ((Object.triangle pRight2).hit sqrt uninit ray).m_bHit = false := by
  obtain ⟨hx, hy⟩ := hpos
  obtain ⟨dx, dy, dz⟩ := hdir
  refine ⟨?_, ?_, ?_, ?_, ?_, ?_, ?_, ?_, ?_, ?_, ?_⟩
  · apply Sphere.miss_of_discriminant
    simp only [Sphere.discriminant, Vec3.dot, Vec3.sub, pSphere, hx, hy, dx, dy]
    nlinarith [dz]
  · apply Triangle.miss_of_parallel
    simp only [Triangle.edgeCross, Vec3.dot, Vec3.cross, Vec3.sub, pFloor1, dx, dy]
    ring
  · apply Triangle.miss_of_parallel
    simp only [Triangle.edgeCross, Vec3.dot, Vec3.cross, Vec3.sub, pFloor2, dx, dy]
    ring
  · apply Triangle.miss_of_parallel
    simp only [Triangle.edgeCross, Vec3.dot, Vec3.cross, Vec3.sub, pLight1, dx, dy]
    ring
  · apply Triangle.miss_of_parallel
    simp only [Triangle.edgeCross, Vec3.dot, Vec3.cross, Vec3.sub, pLight2, dx, dy]
    ring
  · apply Triangle.miss_of_parallel
    simp only [Triangle.edgeCross, Vec3.dot, Vec3.cross, Vec3.sub, pCeiling1, dx, dy]
    ring
  · apply Triangle.miss_of_parallel
    simp only [Triangle.edgeCross, Vec3.dot, Vec3.cross, Vec3.sub, pCeiling2, dx, dy]
    ring
  · apply Triangle.miss_of_parallel
    simp only [Triangle.edgeCross, Vec3.dot, Vec3.cross, Vec3.sub, pLeft1, dx, dy]
    ring
  · apply Triangle.miss_of_parallel
    simp only [Triangle.edgeCross, Vec3.dot, Vec3.cross, Vec3.sub, pLeft2, dx, dy]
    ring
  · apply Triangle.miss_of_parallel
    simp only [Triangle.edgeCross, Vec3.dot, Vec3.cross, Vec3.sub, pRight1, dx, dy]
    ring
  · apply Triangle.miss_of_parallel
    simp only [Triangle.edgeCross, Vec3.dot, Vec3.cross, Vec3.sub, pRight2, dx, dy]
    ring

/-- The face normal of `pBack1` points along `+z`. -/
theorem pBack1_normal :
    Vec3.normalize Qsqrt (Vec3.cross (pBack1.v2.sub pBack1.v1) (pBack1.v3.sub pBack1.v1)) = ⟨0, 0, 1⟩ := by
  have hc : Vec3.cross (pBack1.v2.sub pBack1.v1) (pBack1.v3.sub pBack1.v1) = ⟨0, 0, 4⟩ := by
    norm_num [Vec3.cross, Vec3.sub, pBack1]
  have hdot : Vec3.dot (⟨0, 0, 4⟩ : Vec3) ⟨0, 0, 4⟩ = 16 := by
    norm_num [Vec3.dot]
  rw [hc, Vec3.normalize, hdot, Qsqrt_sixteen]
  norm_num [Vec3.smul]

/-- The hit of `pBack1` along the primary ray of the centre pixel: `t = 2.2`, at the point
`(0, 0, -1)` on the diagonal shared by the two triangles of the back wall. -/
theorem pBack1_centre_hit (uninit : Hit) :
    Triangle.hit Qsqrt uninit pBack1 centrePrimaryRay
      = { t := 11 / 5, m_bHit := true, m_v3Pos := ⟨0, 0, -1⟩, m_v3Normal := ⟨0, 0, 1⟩,
          m_v3Color := ⟨1, 1, 1⟩, m_bEmissive := false } := by
  simp only [Triangle.hit, pBack1_normal]
  norm_num [Vec3.dot, Vec3.sub, Vec3.add, Vec3.smul, Vec3.cross, pBack1, centrePrimaryRay,
    EPSILON]

/-- The face normal of `pBack2` points along `+z`. -/
theorem pBack2_normal :
    Vec3.normalize Qsqrt (Vec3.cross (pBack2.v2.sub pBack2.v1) (pBack2.v3.sub pBack2.v1)) = ⟨0, 0, 1⟩ := by
  have hc : Vec3.cross (pBack2.v2.sub pBack2.v1) (pBack2.v3.sub pBack2.v1) = ⟨0, 0, 4⟩ := by
    norm_num [Vec3.cross, Vec3.sub, pBack2]
  have hdot : Vec3.dot (⟨0, 0, 4⟩ : Vec3) ⟨0, 0, 4⟩ = 16 := by
    norm_num [Vec3.dot]
  rw [hc, Vec3.normalize, hdot, Qsqrt_sixteen]
  norm_num [Vec3.smul]

/-- The hit of `pBack2` along the primary ray of the centre pixel: `t = 2.2`, at the point
`(0, 0, -1)` on the diagonal shared by the two triangles of the back wall. -/
theorem pBack2_centre_hit (uninit : Hit) :
    Triangle.hit Qsqrt uninit pBack2 centrePrimaryRay
      = { t := 11 / 5, m_bHit := true, m_v3Pos := ⟨0, 0, -1⟩, m_v3Normal := ⟨0, 0, 1⟩,
          m_v3Color := ⟨1, 1, 1⟩, m_bEmissive := false } := by
  simp only [Triangle.hit, pBack2_normal]
  norm_num [Vec3.dot, Vec3.sub, Vec3.add, Vec3.smul, Vec3.cross, pBack2, centrePrimaryRay,
    EPSILON]

/-- The scan of the shipped scene along the primary ray of the centre pixel ends with
the hit of `pBack1`. -/
theorem nearestHit_initObjects_centre (uninit : Hit) :
    nearestHit Qsqrt uninit initObjects centrePrimaryRay
      = { t := 11 / 5, m_bHit := true, m_v3Pos := ⟨0, 0, -1⟩, m_v3Normal := ⟨0, 0, 1⟩,
          m_v3Color := ⟨1, 1, 1⟩, m_bEmissive := false } := by
  obtain ⟨m0, m1, m2, m3, m4, m5, m6, m7, m8, m9, m10⟩ :=
    initObjects_axis_misses Qsqrt uninit centrePrimaryRay ⟨rfl, rfl⟩
      ⟨rfl, rfl, by norm_num [centrePrimaryRay]⟩
  have hmiss : ∀ (st : Hit × ℚ) (o : Object),
      (o.hit Qsqrt uninit centrePrimaryRay).m_bHit = false →
      scanStep Qsqrt uninit centrePrimaryRay st o = st := by
    intro st o ho
    unfold scanStep
    rw [if_neg (by simp [ho])]
  have htake : scanStep Qsqrt uninit centrePrimaryRay
      ({ uninit with m_bHit := false }, 1000000) (.triangle pBack1)
      = ({ t := 11 / 5, m_bHit := true, m_v3Pos := ⟨0, 0, -1⟩, m_v3Normal := ⟨0, 0, 1⟩,
            m_v3Color := ⟨1, 1, 1⟩, m_bEmissive := false }, 11 / 5) := by
    have hlt : (11 / 5 : ℚ) < 1000000 := by norm_num
    unfold scanStep
    simp only [Object.hit, pBack1_centre_hit]
    rw [if_pos ⟨trivial, hlt⟩]
  have hskip : scanStep Qsqrt uninit centrePrimaryRay
      ({ t := 11 / 5, m_bHit := true, m_v3Pos := ⟨0, 0, -1⟩, m_v3Normal := ⟨0, 0, 1⟩,
            m_v3Color := ⟨1, 1, 1⟩, m_bEmissive := false }, 11 / 5) (.triangle pBack2)
      = ({ t := 11 / 5, m_bHit := true, m_v3Pos := ⟨0, 0, -1⟩, m_v3Normal := ⟨0, 0, 1⟩,
            m_v3Color := ⟨1, 1, 1⟩, m_bEmissive := false }, 11 / 5) := by
    have hnlt : ¬ ((11 / 5 : ℚ) < 11 / 5) := lt_irrefl _
    unfold scanStep
    simp only [Object.hit, pBack2_centre_hit]
    rw [if_neg (fun hc => hnlt hc.2)]
  rw [nearestHit_def, initObjects, List.foldl_cons, hmiss _ _ m0, List.foldl_cons,
    hmiss _ _ m1, List.foldl_cons, hmiss _ _ m2, List.foldl_cons, hmiss _ _ m3,
    List.foldl_cons, hmiss _ _ m4, List.foldl_cons, hmiss _ _ m5, List.foldl_cons,
    hmiss _ _ m6, List.foldl_cons, hmiss _ _ m7, List.foldl_cons, hmiss _ _ m8,
    List.foldl_cons, hmiss _ _ m9, List.foldl_cons, hmiss _ _ m10, List.foldl_cons, htake,
    List.foldl_cons, hskip, List.foldl_nil]

/-- Every primitive of the shipped scene is missed by the ray that leaves the back wall
along `+z` from `(0, 0, -1)`: it passes the sphere and leaves the box through the open
front. -/
theorem initObjects_bounce_misses (uninit : Hit) :
    ∀ o ∈ initObjects, (o.hit Qsqrt uninit centreBounceRay).m_bHit = false := by
  obtain ⟨m0, m1, m2, m3, m4, m5, m6, m7, m8, m9, m10⟩ :=
    initObjects_axis_misses Qsqrt uninit centreBounceRay ⟨rfl, rfl⟩
      ⟨rfl, rfl, by norm_num [centreBounceRay]⟩
  have b1 : ((Object.triangle pBack1).hit Qsqrt uninit centreBounceRay).m_bHit = false := by
    apply Triangle.miss_of_origin_in_plane
    norm_num [Triangle.edgeCross, Vec3.dot, Vec3.cross, Vec3.sub, pBack1, centreBounceRay]
  have b2 : ((Object.triangle pBack2).hit Qsqrt uninit centreBounceRay).m_bHit = false := by
    apply Triangle.miss_of_origin_in_plane
    norm_num [Triangle.edgeCross, Vec3.dot, Vec3.cross, Vec3.sub, pBack2, centreBounceRay]
  intro o ho
  simp only [initObjects, List.mem_cons, List.mem_singleton, List.not_mem_nil, or_false] at ho
  rcases ho with h | h | h | h | h | h | h | h | h | h | h | h | h
  · rw [h]; exact m0
  · rw [h]; exact m1
  · rw [h]; exact m2
  · rw [h]; exact m3
  · rw [h]; exact m4
  · rw [h]; exact m5
  · rw [h]; exact m6
  · rw [h]; exact m7
  · rw [h]; exact m8
  · rw [h]; exact m9
  · rw [h]; exact m10
  · rw [h]; exact b1
  · rw [h]; exact b2

/-! ## The shipped scene never overflows the 8-bit increment -/

/-- The colours of the shipped scene: channels in `[0, 2]`, emitters `(1, 1, 1)`. -/
theorem initObjects_colors :
    ∀ o ∈ initObjects, o.m_v3Color.InBox 2
      ∧ (o.m_bEmissive = true → o.m_v3Color = ⟨1, 1, 1⟩) := by
  intro o ho
  simp only [initObjects, List.mem_cons, List.mem_singleton, List.not_mem_nil, or_false] at ho
  rcases ho with h | h | h | h | h | h | h | h | h | h | h | h | h <;> rw [h] <;>
    norm_num [Object.m_v3Color, Object.m_bEmissive, Vec3.InBox, pSphere, pFloor1, pFloor2,
      pLight1, pLight2, pCeiling1, pCeiling2, pLeft1, pLeft2, pRight1, pRight2, pBack1,
      pBack2]

/-- A contribution with a channel in `[0, 1]` is converted to `uint8_t` without wrapping:
`255·c` and its integer part lie in `[0, 255]`. -/
theorem increment_no_wrap (c : ℚ) (h0 : 0 ≤ c) (h1 : c ≤ 1) :
    (0 ≤ c * 255 ∧ c * 255 ≤ 255)
      ∧ (0 ≤ floatToInt (c * 255) ∧ floatToInt (c * 255) ≤ 255)
      ∧ (toUInt8 (floatToInt (c * 255)) : Int) = floatToInt (c * 255) := by
  have hq0 : 0 ≤ c * 255 := by linarith
  have hq1 : c * 255 ≤ 255 := by linarith
  have hf0 : 0 ≤ floatToInt (c * 255) := by
    rw [floatToInt_of_nonneg _ hq0]
    exact Int.floor_nonneg.mpr hq0
  have hf1 : floatToInt (c * 255) ≤ 255 := by
    rw [floatToInt_of_nonneg _ hq0]
    have h := Int.floor_le (c * 255)
    have h2 : ((⌊c * 255⌋ : Int) : ℚ) ≤ ((255 : Int) : ℚ) := by
      push_cast
      linarith
    exact_mod_cast h2
  refine ⟨⟨hq0, hq1⟩, ⟨hf0, hf1⟩, ?_⟩
  exact toUInt8_of_byte _ hf0 (by omega)

/-- The channels of a colour in a box. -/
theorem Vec3.channel_of_inBox (v : Vec3) (B : ℚ) (h : v.InBox B) (ch : Int) :
    0 ≤ v.channel ch ∧ v.channel ch ≤ B := by
  unfold Vec3.channel
  split_ifs
  · exact h.1
  · exact h.2.1
  · exact h.2.2

/-- C18: in the scene of `Init` (colour channels in `[0, 2]`, emitters exactly
`(1, 1, 1)`), with `nMaxDepth = 5`, along every path on which the ray directions and the
hit normals are unit vectors, the value of `PathTrace` at depth `0` has its channels in
`[0, 32]`; the colour `Update` hands to `AddColor` for a pixel has its channels in
`[0, 1]` (the unit-vector assumption is needed only when the primary ray hits a
non-emissive primitive and `PathTrace` is called); hence `255·c` and its integer part lie
in `[0, 255]` and the conversion to `uint8_t` does not change the value. -/
theorem C18_shipped_scene_no_overflow (sqrt : ℚ → ℚ) (uninit : Hit) (rnd : Nat → Vec3)
    (x y : Int)
    (hunit : (nearestHit sqrt uninit initObjects (primaryRay sqrt x y)).m_bHit = true → (nearestHit sqrt uninit initObjects (primaryRay sqrt x y)).m_bEmissive = false →
      PathUnit sqrt uninit initObjects (fun n => rnd (n + 1))
        { m_v3Pos := (nearestHit sqrt uninit initObjects (primaryRay sqrt x y)).m_v3Pos,
          m_v3Dir := RandomDirection sqrt (rnd 0) (nearestHit sqrt uninit initObjects (primaryRay sqrt x y)).m_v3Normal } 0) :
    (∀ o ∈ initObjects, o.m_v3Color.InBox 2
        ∧ (o.m_bEmissive = true → o.m_v3Color = ⟨1, 1, 1⟩))
      ∧ (∀ (rnd' : Nat → Vec3) (ray' : Ray), PathUnit sqrt uninit initObjects rnd' ray' 0 →
          (PathTrace sqrt uninit initObjects rnd' ray' 0).InBox 32)
      ∧ (pixelColor sqrt uninit initObjects rnd x y).InBox 1
      ∧ ∀ ch : Int,
          (0 ≤ (pixelColor sqrt uninit initObjects rnd x y).channel ch * 255
            ∧ (pixelColor sqrt uninit initObjects rnd x y).channel ch * 255 ≤ 255)
          ∧ (0 ≤ floatToInt ((pixelColor sqrt uninit initObjects rnd x y).channel ch * 255)
            ∧ floatToInt ((pixelColor sqrt uninit initObjects rnd x y).channel ch * 255) ≤ 255)
          ∧ (toUInt8 (floatToInt ((pixelColor sqrt uninit initObjects rnd x y).channel ch * 255)) : Int)
              = floatToInt ((pixelColor sqrt uninit initObjects rnd x y).channel ch * 255) := by
  have hpath : ∀ (rnd' : Nat → Vec3) (ray' : Ray),
      PathUnit sqrt uninit initObjects rnd' ray' 0 →
      (PathTrace sqrt uninit initObjects rnd' ray' 0).InBox 32 := by
    intro rnd' ray' hu
    have h := PathTrace_in_box sqrt uninit initObjects initObjects_colors 6 rnd' ray' 0
      (by decide) hu
    have hb : radianceBound 6 = 32 := by norm_num [radianceBound]
    rw [hb] at h
    exact h
  have hpix : (pixelColor sqrt uninit initObjects rnd x y).InBox 1 := by
    unfold pixelColor
    by_cases h1 : (nearestHit sqrt uninit initObjects (primaryRay sqrt x y)).m_bHit = true
    · obtain ⟨⟨o, ho, hoh, hoe⟩, -⟩ :=
        nearestHit_spec sqrt uninit initObjects (primaryRay sqrt x y) h1
      have hK : (nearestHit sqrt uninit initObjects (primaryRay sqrt x y)).m_v3Color = o.m_v3Color := by
        rw [hoe]
        exact Object.hit_color sqrt uninit o _ hoh
      by_cases h2 : (nearestHit sqrt uninit initObjects (primaryRay sqrt x y)).m_bEmissive = true
      · have hem : o.m_bEmissive = true := by
          rw [← Object.hit_emissive sqrt uninit o _ hoh, ← hoe]
          exact h2
        simp only [h1, h2, if_true]
        rw [hK, (initObjects_colors o ho).2 hem]
        norm_num [Vec3.InBox]
      · have h2' : (nearestHit sqrt uninit initObjects (primaryRay sqrt x y)).m_bEmissive = false := by simpa using h2
        have hP := hpath _ _ (hunit h1 h2')
        have hKbox : (nearestHit sqrt uninit initObjects (primaryRay sqrt x y)).m_v3Color.InBox 2 := by
          rw [hK]
          exact (initObjects_colors o ho).1
        simp only [h1, h2', if_true]
        have hf : fBrightness = 3141592654 / 500000000000 := by
          norm_num [fBrightness, nNumSamples]
        obtain ⟨⟨kx0, kx1⟩, ⟨ky0, ky1⟩, ⟨kz0, kz1⟩⟩ := hKbox
        obtain ⟨⟨px0, px1⟩, ⟨py0, py1⟩, ⟨pz0, pz1⟩⟩ := hP
        have hbox : ∀ k p : ℚ, 0 ≤ k → k ≤ 2 → 0 ≤ p → p ≤ 32 →
            0 ≤ fBrightness * (k * p) ∧ fBrightness * (k * p) ≤ 1 := by
          intro k p hk0 hk1 hp0 hp1
          have hkp0 : 0 ≤ k * p := mul_nonneg hk0 hp0
          have hkp1 : k * p ≤ 64 := by nlinarith
          rw [hf]
          constructor
          · positivity
          · nlinarith
        exact ⟨hbox _ _ kx0 kx1 px0 px1, hbox _ _ ky0 ky1 py0 py1, hbox _ _ kz0 kz1 pz0 pz1⟩
    · simp only [h1]
      norm_num [Vec3.InBox, Vec3.zero]
  refine ⟨initObjects_colors, hpath, hpix, ?_⟩
  intro ch
  obtain ⟨h0, h1⟩ := Vec3.channel_of_inBox _ 1 hpix ch
  exact increment_no_wrap _ h0 h1

/-- The sampled direction for the normal `(0, 0, 1)` and the drawn vector `(0, 0, 1)`. -/
theorem RandomDirection_up : RandomDirection Qsqrt ⟨0, 0, 1⟩ ⟨0, 0, 1⟩ = ⟨0, 0, 1⟩ := by
  have hroot : Qsqrt 4 = 2 := by
    have h := Qsqrt_mul_self 2 (by norm_num)
    norm_num at h
    exact h
  have hadd : (⟨0, 0, 1⟩ : Vec3).add ⟨0, 0, 1⟩ = ⟨0, 0, 2⟩ := by
    norm_num [Vec3.add]
  have hdot : Vec3.dot (⟨0, 0, 2⟩ : Vec3) ⟨0, 0, 2⟩ = 4 := by
    norm_num [Vec3.dot]
  rw [RandomDirection, hadd, Vec3.normalize, hdot, hroot]
  norm_num [Vec3.smul]

/-- The path of the centre pixel with the drawn vector `(0, 0, 1)`: the ray handed to
`PathTrace` has a unit direction and hits nothing. -/
theorem centre_path_unit :
    PathUnit Qsqrt Hit.zeroed initObjects (fun n => (fun _ => (⟨0, 0, 1⟩ : Vec3)) (n + 1))
      centreBounceRay 0 := by
  have hmiss : (nearestHit Qsqrt Hit.zeroed initObjects centreBounceRay).m_bHit = false := by
    rw [nearestHit_def,
      foldl_scanStep_of_no_hit Qsqrt Hit.zeroed _ initObjects _
        (initObjects_bounce_misses Hit.zeroed)]
  have hdepth : ¬ ((0 : Int) > nMaxDepth) := by decide
  have hdir : Vec3.dot centreBounceRay.m_v3Dir centreBounceRay.m_v3Dir = 1 := by
    norm_num [Vec3.dot, centreBounceRay]
  rw [PathUnit_unfold, if_neg hdepth, if_pos hmiss]
  exact ⟨hdir, trivial⟩

/-- C18, witness: the centre pixel `(384, 384)` with the drawn vectors `(0, 0, 1)`: the
primary ray hits the back wall (not emissive), and the ray handed to `PathTrace`, from
`(0, 0, -1)` along `+z`, has a unit direction. -/
theorem C18_shipped_scene_no_overflow_witness :
    (∀ o ∈ initObjects, o.m_v3Color.InBox 2
        ∧ (o.m_bEmissive = true → o.m_v3Color = ⟨1, 1, 1⟩))
      ∧ (∀ (rnd' : Nat → Vec3) (ray' : Ray), PathUnit Qsqrt Hit.zeroed initObjects rnd' ray' 0 →
          (PathTrace Qsqrt Hit.zeroed initObjects rnd' ray' 0).InBox 32)
      ∧ (pixelColor Qsqrt Hit.zeroed initObjects (fun _ => ⟨0, 0, 1⟩) 384 384).InBox 1
      ∧ ∀ ch : Int,
          (0 ≤ (pixelColor Qsqrt Hit.zeroed initObjects (fun _ => ⟨0, 0, 1⟩) 384 384).channel ch * 255
            ∧ (pixelColor Qsqrt Hit.zeroed initObjects (fun _ => ⟨0, 0, 1⟩) 384 384).channel ch * 255 ≤ 255)
          ∧ (0 ≤ floatToInt ((pixelColor Qsqrt Hit.zeroed initObjects (fun _ => ⟨0, 0, 1⟩) 384 384).channel ch * 255)
            ∧ floatToInt ((pixelColor Qsqrt Hit.zeroed initObjects (fun _ => ⟨0, 0, 1⟩) 384 384).channel ch * 255) ≤ 255)
          ∧ (toUInt8 (floatToInt ((pixelColor Qsqrt Hit.zeroed initObjects (fun _ => ⟨0, 0, 1⟩) 384 384).channel ch * 255)) : Int)
              = floatToInt ((pixelColor Qsqrt Hit.zeroed initObjects (fun _ => ⟨0, 0, 1⟩) 384 384).channel ch * 255) :=
  C18_shipped_scene_no_overflow Qsqrt Hit.zeroed (fun _ => ⟨0, 0, 1⟩) 384 384
    (by
      intro _ _
      have hray : primaryRay Qsqrt 384 384 = centrePrimaryRay := primaryRay_centre
      rw [hray, nearestHit_initObjects_centre, RandomDirection_up]
      exact centre_path_unit)

end RayTracer
